import Mathlib

/-!
# LibreRead: pagination bucketing, manifest lookup, EPUB navigation and ingestion

A shallow embedding of the parts of `libreread.go` that bucket a book list
(`_ConstructBooksWithCount`, `_GetTotalPages`), resolve manifest entries
(`_GetManifestId`), move a reader through the spine of an EPUB
(`SendEPUBFragmentFromId`, `_GetEPUBFragment`, `GetEPUBCurrentPage`) and take in an
upload (`_ConstructFileNameForBook`, `_HasPrefix`, `_GetPDFInfo`, `UploadBook`), followed
by the properties proved about them.

Conventions of the embedding:
* Go slices are Lean lists; an index or slice expression that Go would abort
  with a run-time panic yields `none`.
* `int64` values are integers; an arithmetic result that could leave the
  `int64` range is passed through `wrap64`.
* a `for` loop whose trip count is not fixed by a list is run on a fuel
  counter and yields `none` when the counter is used up.
* what an external program or the file system reports (the output of `pdfinfo`, the
  contents of an EPUB package) is an input of the function that uses it.
-/

namespace LibreRead

/-! ## Machine integers and slices -/

/-- Two's-complement reduction of an integer to the `int64` range. -/
def wrap64 (x : Int) : Int := (x + 2 ^ 63) % 2 ^ 64 - 2 ^ 63

/-- Go slice expression `s[i:j]` on a slice of length `s.length`: the elements at
positions `i, …, j-1`.  Go panics unless `0 ≤ i ≤ j ≤ cap(s)`; every use below
has `j ≤ len(s)`, so the bound checked here is the length. -/
def sliceRange {α : Type} (s : List α) (i j : Int) : Option (List α) :=
  if 0 ≤ i ∧ i ≤ j ∧ j ≤ (s.length : Int) then
    some ((s.take j.toNat).drop i.toNat)
  else none

/-- Go index expression `s[i]` with an `int64` index: panics outside `0 ≤ i < len(s)`. -/
def indexInt {α : Type} (s : List α) (i : Int) : Option α :=
  if 0 ≤ i then s.get? i.toNat else none

/-! ## PaginationBucketer -/

/-- The Go type `BookStruct`. -/
structure BookStruct where
  Title : String
  URL : String
  Cover : String
  deriving DecidableEq, Repr

/-- The Go type `BookStructList`. -/
abbrev BookStructList := List BookStruct

/-- The inner loop `for j > int64(len(*books)) { j -= 1 }` of
`_ConstructBooksWithCount`.  While it runs `j > len ≥ 0`, so `j - 1` cannot
leave the `int64` range. -/
def shrinkToLen (len : Nat) (j : Int) : Int :=
  if (len : Int) < j then shrinkToLen len (j - 1) else j
termination_by (j - len).toNat
decreasing_by omega

/-- The outer loop of `_ConstructBooksWithCount`, from loop variable `i` and the
groups `booksList` appended so far:
`for ; i < int64(len(*books)); i += length { j = i + length; …; append (*books)[i:j] }`. -/
def constructLoop (books : BookStructList) (length : Int) :
    Nat → Int → List BookStructList → Option (List BookStructList)
  | 0, _, _ => none
  | fuel + 1, i, booksList =>
    if i < (books.length : Int) then
      let j := shrinkToLen books.length (wrap64 (i + length))
      match sliceRange books i j with
      | none => none
      | some group => constructLoop books length fuel (wrap64 (i + length)) (booksList ++ [group])
    else some booksList

/-- `_ConstructBooksWithCount(books, length)`, run for at most `fuel` iterations of
its outer loop.  `none` means that no list is returned: a slice panic, or the loop has
not finished within `fuel` iterations. -/
def _ConstructBooksWithCount (fuel : Nat) (books : BookStructList) (length : Int) :
    Option (List BookStructList) :=
  constructLoop books length fuel 0 []

/-! ### Auxiliary description of the groups -/

/-- The groups cut from position `m` on, `n` elements at a time (proof device: the
value the loop is shown to compute). -/
def groupsFrom (books : BookStructList) (n : Nat) : Nat → Nat → List BookStructList
  | 0, _ => []
  | fuel + 1, m =>
    if m < books.length then
      (books.take (min (m + n) books.length)).drop m :: groupsFrom books n fuel (m + n)
    else []

/-! ## float64 arithmetic

`_GetTotalPages` works in `float64`.  A finite `float64` is represented by the rational
number it denotes; every operation returns the exact result rounded to the nearest
`float64`, ties going to the even significand (IEEE 754 binary64, the only rounding mode
Go uses).  Overflow to infinity is not modelled: every value below stays under `2 ^ 64`. -/

/-- Nearest integer to a rational, ties to the even integer. -/
def roundHalfEven (x : ℚ) : Int :=
  let f := ⌊x⌋
  let r := x - f
  if r < 1 / 2 then f else if 1 / 2 < r then f + 1 else if f % 2 = 0 then f else f + 1

/-- Nearest `float64` to the rational `x`: with `2 ^ e ≤ |x| < 2 ^ (e + 1)` the
representable numbers around `x` are the multiples of `2 ^ (e - 52)` (53-bit significand);
below the normal range the spacing stays `2 ^ (-1074)`. -/
def roundFloat64 (x : ℚ) : ℚ :=
  let ulp : ℚ := 2 ^ (max (Int.log 2 |x|) (-1022) - 52)
  roundHalfEven (x / ulp) * ulp

/-- Go conversion `float64(n)` of an `int64`. -/
def float64OfInt (n : Int) : ℚ := roundFloat64 n

/-- Go `float64` division `a / b` (for `b ≠ 0`). -/
def float64Div (a b : ℚ) : ℚ := roundFloat64 (a / b)

/-- Go conversion `int64(x)` of a `float64` within the `int64` range: the fractional part
is discarded (truncation toward zero). -/
def int64OfFloat (x : ℚ) : Int := if 0 ≤ x then ⌊x⌋ else ⌈x⌉

/-- The text behind the point in `fmt.Sprintf("%.1f", x)`, as a digit.  The verb prints
`x` in decimal, correctly rounded (ties to even) to one fractional digit, as
`[-]ddd.d`; the text has exactly one `.`, so `strings.Split(s, ".")[1]` is that one digit. -/
def fmtTenthsDigit (x : ℚ) : Nat := (roundHalfEven (|x| * 10)).natAbs % 10

/-- `_GetTotalPages(booksCount)`: `strings.Split(totalPagesDecimal, ".")[1] == "0"` is the
test `fmtTenthsDigit totalPagesFloat = 0`. -/
def _GetTotalPages (booksCount : Int) : Int :=
  let totalPagesFloat := float64Div (float64OfInt booksCount) 18
  if fmtTenthsDigit totalPagesFloat = 0 then
    int64OfFloat totalPagesFloat
  else
    wrap64 (int64OfFloat totalPagesFloat + 1)

/-! ## EPUBPackageResolver: manifest lookup -/

/-- The loop `for i, e := range idArray` of `_GetManifestId`, over the remaining ids
`idArray[i:]`.  `hrefArray[i]` panics when `hrefArray` is too short. -/
def getManifestIdLoop (hrefArray : List String) (idRef filePath : String) :
    List String → Nat → Option String
  | [], _ => some ""
  | e :: rest, i =>
    if e = idRef then
      match hrefArray[i]? with
      | none => none
      | some h => some (filePath ++ "/" ++ h)
    else getManifestIdLoop hrefArray idRef filePath rest (i + 1)

/-- `_GetManifestId(idArray, hrefArray, idRef, filePath)`; `none` is a run-time panic. -/
def _GetManifestId (idArray hrefArray : List String) (idRef filePath : String) : Option String :=
  getManifestIdLoop hrefArray idRef filePath idArray 0

/-! ## NavigationStateMachine -/

/-- The fields of the Go type `OPFMetadataStruct` that navigation reads:
`Manifest.Item.Id`, `Manifest.Item.Href` and `Spine.ItemRef.IdRef`. -/
structure OPFMetadataStruct where
  Id : List String
  Href : List String
  IdRef : List String
  deriving DecidableEq, Repr

/-- The Go type `HrefDataStruct`. -/
structure HrefDataStruct where
  CurrentPage : Int
  HrefPath : String
  LeftNone : Bool
  RightNone : Bool
  deriving DecidableEq, Repr

/-- The Go type `CurrentPageDataStruct`. -/
structure CurrentPageDataStruct where
  CurrentPage : Int
  LeftNone : Bool
  RightNone : Bool
  deriving DecidableEq, Repr

/-- The two navigation entries of one book in the key-value cache:
`fileName + "...current_page..."` and `fileName + "...current_fragment..."`. -/
structure NavCache where
  current_page : Int
  current_fragment : Int
  deriving DecidableEq, Repr

/-- The entries `UploadBook` writes when an EPUB is ingested: current page 1, current
fragment 0. -/
def ingestCache : NavCache := { current_page := 1, current_fragment := 0 }

/-- The signed-in branch of `SendEPUBFragmentFromId` for the cached package `opf`, base
path `packagePath` and parsed position `gotoId`.  Returns the cache after the request and
the JSON body; `none` is a run-time panic (the request fails), which happens after the
two cache writes. -/
def SendEPUBFragmentFromId (opf : OPFMetadataStruct) (packagePath : String) (gotoId : Int)
    (_cache : NavCache) : NavCache × Option HrefDataStruct :=
  let cache1 : NavCache :=
    { current_page := gotoId, current_fragment := wrap64 (gotoId - 1) }
  match indexInt opf.IdRef (wrap64 (gotoId - 1)) with
  | none => (cache1, none)
  | some spineId =>
    match _GetManifestId opf.Id opf.Href spineId packagePath with
    | none => (cache1, none)
    | some hrefPath =>
      (cache1, some
        { CurrentPage := gotoId
          HrefPath := hrefPath
          LeftNone := decide (wrap64 (gotoId - 2) < 0)
          RightNone := decide ((opf.IdRef.length : Int) ≤ gotoId) })

/-- The inner loop `for j, f := range idRef` of `_GetEPUBFragment`, over the remaining
entries `idRef[j:]`; it ends at the first match (`break`).  `j` is a slice index, so
`j + 1`, `j + 2` stay in range of `int`. -/
def fragmentSpineLoop (flowType packagePath : String) (href id idRef : List String)
    (currentId : String) (cache : NavCache) :
    List String → Nat → NavCache × Option HrefDataStruct
  | [], _ => (cache, some { CurrentPage := 0, HrefPath := "", LeftNone := false, RightNone := false })
  | f :: rest, j =>
    if f = currentId then
      if flowType = "next" then
        match idRef[j + 1]? with
        | none => (cache, none)
        | some nextIdRef =>
          let currentPage : Int := ((j : Int) + 1) + 1
          let cache1 : NavCache :=
            { current_page := currentPage, current_fragment := (j : Int) + 1 }
          match _GetManifestId id href nextIdRef packagePath with
          | none => (cache1, none)
          | some hrefPath =>
            (cache1, some
              { CurrentPage := currentPage
                HrefPath := hrefPath
                LeftNone := false
                RightNone := decide (idRef.length ≤ j + 2) })
      else
        match indexInt idRef ((j : Int) - 1) with
        | none => (cache, none)
        | some prevIdRef =>
          let currentPage : Int := ((j : Int) + 1) - 1
          let cache1 : NavCache :=
            { current_page := currentPage, current_fragment := (j : Int) - 1 }
          match _GetManifestId id href prevIdRef packagePath with
          | none => (cache1, none)
          | some hrefPath =>
            (cache1, some
              { CurrentPage := currentPage
                HrefPath := hrefPath
                LeftNone := decide ((j : Int) - 2 < 0)
                RightNone := false })
    else fragmentSpineLoop flowType packagePath href id idRef currentId cache rest (j + 1)

/-- The outer loop `for i, el := range href` of `_GetEPUBFragment`, over the remaining
entries `href[i:]`; it ends at the first match (`break`). -/
def fragmentManifestLoop (flowType packagePath currentFragment : String)
    (href id idRef : List String) (cache : NavCache) :
    List String → Nat → NavCache × Option HrefDataStruct
  | [], _ => (cache, some { CurrentPage := 0, HrefPath := "", LeftNone := false, RightNone := false })
  | el :: rest, i =>
    if el = currentFragment then
      match id[i]? with
      | none => (cache, none)
      | some currentId =>
        fragmentSpineLoop flowType packagePath href id idRef currentId cache idRef 0
    else
      fragmentManifestLoop flowType packagePath currentFragment href id idRef cache rest (i + 1)

/-- `_GetEPUBFragment(fileName, flowType, packagePath, currentFragment, href, id, idRef)`
on the cache entries of `fileName`.  Returns the cache after the call and the result;
`none` is a run-time panic. -/
def _GetEPUBFragment (flowType packagePath currentFragment : String)
    (href id idRef : List String) (cache : NavCache) : NavCache × Option HrefDataStruct :=
  fragmentManifestLoop flowType packagePath currentFragment href id idRef cache href 0

/-- The inner loop `for j, f := range idRef` of `GetEPUBCurrentPage`, over the remaining
entries `idRef[j:]`.  There is no `break`: every match overwrites `currentPage`, and the
two flags are only ever set to `true`. -/
def currentPageSpineLoop (idRefLen : Nat) (currentId : String) :
    List String → Nat → CurrentPageDataStruct → CurrentPageDataStruct
  | [], _, acc => acc
  | f :: rest, j, acc =>
    if f = currentId then
      let currentPage : Int := (j : Int) + 1
      currentPageSpineLoop idRefLen currentId rest (j + 1)
        { CurrentPage := currentPage
          LeftNone := if currentPage - 1 ≤ 0 then true else acc.LeftNone
          RightNone := if (idRefLen : Int) ≤ currentPage then true else acc.RightNone }
    else currentPageSpineLoop idRefLen currentId rest (j + 1) acc

/-- The outer loop `for i, el := range href` of `GetEPUBCurrentPage`, over the remaining
entries `href[i:]`, again without `break`.  `id[i]` panics when `id` is too short. -/
def currentPageManifestLoop (id idRef : List String) (currentFragment : String) :
    List String → Nat → CurrentPageDataStruct → Option CurrentPageDataStruct
  | [], _, acc => some acc
  | el :: rest, i, acc =>
    if el = currentFragment then
      match id[i]? with
      | none => none
      | some currentId =>
        currentPageManifestLoop id idRef currentFragment rest (i + 1)
          (currentPageSpineLoop idRef.length currentId idRef 0 acc)
    else currentPageManifestLoop id idRef currentFragment rest (i + 1) acc

/-- `GetEPUBCurrentPage` for the cached package `opf` and the query value `pageChapter`;
it writes nothing to the cache.  `none` is a run-time panic. -/
def GetEPUBCurrentPage (opf : OPFMetadataStruct) (currentFragment : String) :
    Option CurrentPageDataStruct :=
  currentPageManifestLoop opf.Id opf.IdRef currentFragment opf.Href 0
    { CurrentPage := 0, LeftNone := false, RightNone := false }

/-- A navigation request on one book: `SendEPUBFragmentFromId` with the parsed position,
`SendEPUBFragment` with the flow type and the fragment it passes to `_GetEPUBFragment`,
or `GetEPUBCurrentPage` with the fragment href. -/
inductive NavRequest where
  | resolveById (gotoId : Int)
  | step (flowType currentFragment : String)
  | resolveCurrentPage (fragmentHref : String)
  deriving DecidableEq, Repr

/-- The cache entries after one navigation request. -/
def handleRequest (opf : OPFMetadataStruct) (packagePath : String) (cache : NavCache) :
    NavRequest → NavCache
  | .resolveById gotoId => (SendEPUBFragmentFromId opf packagePath gotoId cache).1
  | .step flowType currentFragment =>
    (_GetEPUBFragment flowType packagePath currentFragment opf.Href opf.Id opf.IdRef cache).1
  | .resolveCurrentPage _ => cache

/-- The cache entries after a sequence of navigation requests, served in order. -/
def handleRequests (opf : OPFMetadataStruct) (packagePath : String) :
    NavCache → List NavRequest → NavCache
  | cache, [] => cache
  | cache, r :: rest =>
    handleRequests opf packagePath (handleRequest opf packagePath cache r) rest

/-- A package with one manifest item that the spine references at positions 1 and 3. -/
def repeatedSpinePackage : OPFMetadataStruct :=
  { Id := ["ch1", "ch2"], Href := ["ch1.xhtml", "ch2.xhtml"], IdRef := ["ch1", "ch2", "ch1"] }

/-- A package with four manifest items, read in manifest order. -/
def fourChapterPackage : OPFMetadataStruct :=
  { Id := ["c1", "c2", "c3", "c4"]
    Href := ["c1.xhtml", "c2.xhtml", "c3.xhtml", "c4.xhtml"]
    IdRef := ["c1", "c2", "c3", "c4"] }

/-- Five books, for the instances of the bucketing theorems. -/
def sampleBooks : BookStructList :=
  [⟨"A", "/a.pdf", "a.jpg"⟩, ⟨"B", "/b.pdf", "b.jpg"⟩, ⟨"C", "/c.epub", "c.jpg"⟩,
   ⟨"D", "/d.pdf", "d.jpg"⟩, ⟨"E", "/e.epub", "e.jpg"⟩]

/-! ## Go strings

Go strings are Lean strings; the functions of package `strings` act on their character
lists.  Every separator and prefix used below is ASCII, so for UTF-8 text it makes no
difference that Go works on bytes. -/

/-- `strings.Split(s, sep)[0]` for a non-empty `sep`: the text before the first occurrence
of `sep`, all of `s` when `sep` does not occur. -/
def splitHead (sep : List Char) : List Char → List Char
  | [] => []
  | c :: cs => if sep.isPrefixOf (c :: cs) then [] else c :: splitHead sep cs

/-- `strings.Trim(s, " ")`: `s` without its leading and trailing spaces. -/
def trimSpaces (s : List Char) : List Char :=
  (s.dropWhile (fun c => c = ' ')).rdropWhile (fun c => c = ' ')

/-- `strings.Join(strings.Split(s, " "), "_")`. -/
def joinSplitSpace (s : List Char) : List Char :=
  List.intercalate "_".data (s.splitOn ' ')

/-! ## IngestionPipeline -/

/-- `_ConstructFileNameForBook(fileName, contentType)`. -/
def _ConstructFileNameForBook (fileName contentType : String) : String :=
  if contentType = "application/pdf" then
    let fileName1 : String := ⟨splitHead ".pdf".data fileName.data⟩
    (⟨joinSplitSpace fileName1.data⟩ : String) ++ ".pdf"
  else if contentType = "application/epub+zip" then
    let fileName1 : String := ⟨splitHead ".epub".data fileName.data⟩
    (⟨joinSplitSpace fileName1.data⟩ : String) ++ ".epub"
  else fileName

/-- `_HasPrefix(opSplit, content)`; `none` is the run-time panic of
`strings.Split(element, ":")[1]` on an element without a colon. -/
def _HasPrefix : List String → String → Option String
  | [], _ => some ""
  | element :: rest, content =>
    if content.data.isPrefixOf element.data then
      match (element.data.splitOn ':')[1]? with
      | none => none
      | some value => some ⟨trimSpaces value⟩
    else _HasPrefix rest content

/-- `_GetPDFInfo`, from the lines `opSplit` of the output of `pdfinfo`: title, author and
pages; `none` when one of the three lookups panics. -/
def _GetPDFInfo (opSplit : List String) : Option (String × String × String) :=
  match _HasPrefix opSplit "Title" with
  | none => none
  | some title =>
    match _HasPrefix opSplit "Author" with
    | none => none
    | some author =>
      match _HasPrefix opSplit "Pages" with
      | none => none
      | some pages => some (title, author, pages)

/-- Value of a non-empty run of decimal digits, `none` when a character is not a digit. -/
def decimalValue : List Char → Nat → Option Nat
  | [], acc => some acc
  | c :: cs, acc =>
    if '0' ≤ c ∧ c ≤ '9' then decimalValue cs (acc * 10 + (c.toNat - '0'.toNat)) else none

/-- `strconv.ParseInt(s, 10, 64)`: the value and whether an error is returned.  A syntax
error (empty text, a sign alone, a character that is not a digit) comes with the value 0,
a range error with the nearest `int64`. -/
def ParseInt (s : String) : Int × Bool :=
  match s.data with
  | [] => (0, true)
  | c :: cs =>
    let neg : Bool := c = '-'
    let digits := if c = '+' ∨ c = '-' then cs else c :: cs
    if digits = [] then (0, true)
    else
      match decimalValue digits 0 with
      | none => (0, true)
      | some un =>
        if ¬ neg ∧ 2 ^ 63 ≤ un then (2 ^ 63 - 1, true)
        else if neg ∧ 2 ^ 63 < un then (-2 ^ 63, true)
        else (if neg then -(un : Int) else (un : Int), false)

/-- A row of the table `book`. -/
structure BookRow where
  id : Int
  title : String
  filename : String
  file_path : String
  author : String
  url : String
  cover : String
  pages : Int
  format : String
  uploaded_on : String
  user_id : Int
  deriving DecidableEq, Repr

/-- What `UploadBook` changes outside the cache and the search index: the table `book` with
its `AUTOINCREMENT` counter (the largest id given out so far), the files created in the
upload directory, and the texts written to the response. -/
structure LibraryState where
  book : List BookRow
  bookSeq : Int
  uploads : List String
  replies : List String
  deriving DecidableEq, Repr

/-- One part of the multipart upload, with what the external collaborators report for it:
the declared file name and content type, for a PDF the lines printed by `pdfinfo` and the
cover `_GeneratePDFCover` returns, for an EPUB the root file path of `container.xml` and
the title, author and cover read from the package. -/
structure UploadPart where
  filename : String
  contentType : String
  pdfinfoLines : List String
  pdfCover : String
  rootFilePath : String
  epubTitle : String
  epubAuthor : String
  epubCover : String
  deriving DecidableEq, Repr

/-- `_GetBookInfo(fileName)`: `id`, `format` and `file_path` of the first row of `book`
with this file name (the query has no other condition), zero values when there is none. -/
def _GetBookInfo (book : List BookRow) (fileName : String) : Int × String × String :=
  match book.find? (fun r => r.filename = fileName) with
  | some r => (r.id, r.format, r.file_path)
  | none => (0, "", "")

/-- `_InsertBookRecord(...)`: appends the row under the next id and returns that id. -/
def _InsertBookRecord (st : LibraryState) (title fileName filePath author url cover : String)
    (pagesInt : Int) (format uploadedOn : String) (userId : Int) : LibraryState × Int :=
  let id := st.bookSeq + 1
  ({ st with
      book := st.book ++
        [{ id := id, title := title, filename := fileName, file_path := filePath,
           author := author, url := url, cover := cover, pages := pagesInt, format := format,
           uploaded_on := uploadedOn, user_id := userId }]
      bookSeq := id }, id)

/-- The body of the loop of `UploadBook` for one part, for the signed-in user `userId` at
time `uploadedOn`.  The flag is `false` when the body panics (in `_GetPDFInfo`); the state
is the one reached at that point. -/
def uploadPart (userId : Int) (uploadedOn : String) (st : LibraryState) (part : UploadPart) :
    LibraryState × Bool :=
  let fileName := _ConstructFileNameForBook part.filename part.contentType
  let bookId := (_GetBookInfo st.book fileName).1
  if bookId ≠ 0 then
    ({ st with replies := st.replies ++ [fileName ++ " already exists. "] }, true)
  else
    let filePath := "./uploads/" ++ fileName
    let st1 : LibraryState := { st with uploads := st.uploads ++ [filePath] }
    if part.contentType = "application/pdf" then
      match _GetPDFInfo part.pdfinfoLines with
      | none => (st1, false)
      | some (title, author, pages) =>
        let title := if title = "" then fileName else title
        let author := if author = "" then "unknown" else author
        let pagesInt := (ParseInt pages).1
        let url := "/book/" ++ fileName
        let st2 := (_InsertBookRecord st1 title fileName filePath author url part.pdfCover
          pagesInt "pdf" uploadedOn userId).1
        ({ st2 with replies := st2.replies ++ [fileName ++ " uploaded successfully. "] }, true)
    else if part.contentType = "application/epub+zip" then
      let epubUnzipPath := "./uploads/" ++ (⟨splitHead ".epub".data fileName.data⟩ : String)
      let rootFilePathSplit := part.rootFilePath.data.splitOn '/'
      let packagePath :=
        if 1 < rootFilePathSplit.length then
          epubUnzipPath ++ "/" ++ (⟨rootFilePathSplit.headD []⟩ : String)
        else epubUnzipPath
      let url := "/book/" ++ fileName
      let st2 := (_InsertBookRecord st1 part.epubTitle fileName packagePath part.epubAuthor url
        part.epubCover 1 "epub" uploadedOn userId).1
      ({ st2 with replies := st2.replies ++ [fileName ++ " uploaded successfully. "] }, true)
    else (st1, true)

/-- The loop of `UploadBook` over the parts of the request; a panic ends the request. -/
def UploadBook (userId : Int) (uploadedOn : String) :
    LibraryState → List UploadPart → LibraryState × Bool
  | st, [] => (st, true)
  | st, part :: rest =>
    match uploadPart userId uploadedOn st part with
    | (st1, true) => UploadBook userId uploadedOn st1 rest
    | (st1, false) => (st1, false)

/-- A library without books. -/
def emptyLibrary : LibraryState := { book := [], bookSeq := 0, uploads := [], replies := [] }

/-- A library in which user 1 owns the book `notes.pdf`. -/
def oneBookLibrary : LibraryState :=
  { book := [{ id := 1, title := "Notes", filename := "notes.pdf",
               file_path := "./uploads/notes.pdf", author := "unknown", url := "/book/notes.pdf",
               cover := "", pages := 3, format := "pdf", uploaded_on := "20240101120000",
               user_id := 1 }]
    bookSeq := 1
    uploads := ["./uploads/notes.pdf"]
    replies := [] }

/-- An upload part of the given name and type, with a `pdfinfo` output of the given
lines and nothing else reported. -/
def simplePart (filename contentType : String) (pdfinfoLines : List String) : UploadPart :=
  { filename := filename, contentType := contentType, pdfinfoLines := pdfinfoLines,
    pdfCover := "", rootFilePath := "OEBPS/content.opf", epubTitle := "", epubAuthor := "",
    epubCover := "" }

/-! ## First-wins lookup, as specified -/

/-- The first-wins lookup in the words of the specification: the page of the fragment href
`h` is `j + 1`, where `j` is the first spine index whose idref equals the id of the first
manifest item with href `h`; `none` when there is no such item or no such spine index. -/
def specFirstWinsPage (opf : OPFMetadataStruct) (h : String) : Option Int :=
  match opf.Href.findIdx? (fun el => el = h) with
  | none => none
  | some i =>
    match opf.Id[i]? with
    | none => none
    | some currentId =>
      match opf.IdRef.findIdx? (fun f => f = currentId) with
      | none => none
      | some j => some ((j : Int) + 1)

/-- A package in which two manifest items share the href `text.xhtml`. -/
def repeatedHrefPackage : OPFMetadataStruct :=
  { Id := ["a", "b"], Href := ["text.xhtml", "text.xhtml"], IdRef := ["a", "b"] }

/-! ## Go strings: search, split, decimal -/

/-- The scan of `strings.Split(s, sep)` for a non-empty `sep`: `cur` is the piece read so
far (reversed), `skip` the number of characters of a separator just found that are still
to be passed over. -/
def splitLoop (sep : List Char) : List Char → List Char → Nat → List (List Char)
  | [], cur, _ => [cur.reverse]
  | _ :: cs, cur, skip + 1 => splitLoop sep cs cur skip
  | c :: cs, cur, 0 =>
    if sep.isPrefixOf (c :: cs) then cur.reverse :: splitLoop sep cs [] (sep.length - 1)
    else splitLoop sep cs (c :: cur) 0

/-- `strings.Split(s, sep)` for a non-empty `sep`. -/
def stringsSplit (s sep : String) : List String :=
  (splitLoop sep.data s.data [] 0).map String.mk

/-- The character of the decimal digit `d`. -/
def digitChar (d : Nat) : Char := "0123456789".data.getD d '0'

/-- The decimal digits of `n`, most significant first; `fuel` bounds the number of
digits. -/
def decimalDigits : Nat → Nat → List Char
  | 0, _ => []
  | fuel + 1, n =>
    if n < 10 then [digitChar n] else decimalDigits fuel (n / 10) ++ [digitChar (n % 10)]

/-- `strconv.Itoa(int(x))` for an `int64` value `x`. -/
def Itoa (x : Int) : String :=
  if x < 0 then ⟨'-' :: decimalDigits (x.natAbs + 1) x.natAbs⟩
  else ⟨decimalDigits (x.natAbs + 1) x.natAbs⟩

/-! ## EPUB cover -/

/-- The document of type `book_detail` (without the encoded file content `TheData`). -/
structure BookDataStruct where
  Title : String
  Author : String
  URL : String
  SeURL : String
  Cover : String
  Page : Int
  Format : String
  deriving DecidableEq, Repr

/-- A `PutJSON` of a `book_detail` document to
`ESPath + "/lr_index/book_detail/" + docId + "?pipeline=attachment"`. -/
structure BookDetailWrite where
  docId : String
  doc : BookDataStruct
  deriving DecidableEq, Repr

/-- A request `method ESPath + "/lr_index/" + docType + "/" + docId + suffix` to the remote
index (the body is left out). -/
structure IndexRequest where
  method : String
  docType : String
  docId : String
  suffix : String
  deriving DecidableEq, Repr

/-- The identity key of a `book_detail` document:
`Itoa(userId) + "_" + Itoa(bookId) + "_" + Itoa(i)`. -/
def bookDetailId (userId bookId i : Int) : String :=
  Itoa userId ++ "_" ++ Itoa bookId ++ "_" ++ Itoa i

/-- The identity key of a `book_info` document: `Itoa(userId) + "_" + Itoa(bookId)`. -/
def bookInfoId (userId bookId : Int) : String := Itoa userId ++ "_" ++ Itoa bookId

/-- The identity key of a document of the embedded index. -/
def indexId (userId bookId : Int) (title author cover url : String) : String :=
  Itoa userId ++ "*****" ++ Itoa bookId ++ "*****" ++ title ++ "*****" ++ author ++ "*****" ++
    cover ++ "*****" ++ url ++ "*****"

/-- The ids of the `book_detail` documents a list of requests addresses. -/
def detailIds (requests : List IndexRequest) : List String :=
  (requests.filter (fun r => r.docType = "book_detail")).map (fun r => r.docId)

/-- `_LoopThroughSplittedPages(userId, bookId, pagesInt, splitPDFPath, ...)`: the documents
written, in order.  `fileExists` says whether `pdfseparate` left a file at a path.  The
bound `pagesInt + 1` is computed in `int64`. -/
def _LoopThroughSplittedPages (fileExists : String → Bool) (userId bookId pagesInt : Int)
    (splitPDFPath title author url cover : String) : List BookDetailWrite :=
  (List.range (wrap64 (pagesInt + 1) - 1).toNat).filterMap (fun (k : Nat) =>
    let i : Int := (k : Int) + 1
    let pagePath := splitPDFPath ++ "/" ++ Itoa i ++ ".pdf"
    if fileExists pagePath then
      some { docId := bookDetailId userId bookId i
             doc := { Title := title, Author := author, URL := url, SeURL := "", Cover := cover,
                      Page := i, Format := "pdf" } }
    else none)

/-- The inner loop `for j, f := range id` of `_FeedEPUBContent` for the spine entry `e` at
index `i`, over the remaining ids `id[j:]`: the documents written and whether the loop
came to its end (`false`: `Href[j]` panicked).  There is no `break`: every manifest item
with the id `e` is written. -/
def feedManifestLoop (href : List String) (title author cover url : String)
    (userId bookId : Int) (i : Nat) (e : String) :
    List String → Nat → List BookDetailWrite × Bool
  | [], _ => ([], true)
  | f :: rest, j =>
    if f = e then
      match href[j]? with
      | none => ([], false)
      | some h =>
        let r := feedManifestLoop href title author cover url userId bookId i e rest (j + 1)
        ({ docId := bookDetailId userId bookId i
           doc := { Title := title, Author := author, URL := url, SeURL := h, Cover := cover,
                    Page := i, Format := "epub" } } :: r.1, r.2)
    else feedManifestLoop href title author cover url userId bookId i e rest (j + 1)

/-- The outer loop `for i, e := range idRef` of `_FeedEPUBContent`, over the remaining
entries `idRef[i:]`. -/
def feedSpineLoop (opf : OPFMetadataStruct) (title author cover url : String)
    (userId bookId : Int) : List String → Nat → List BookDetailWrite × Bool
  | [], _ => ([], true)
  | e :: rest, i =>
    let r := feedManifestLoop opf.Href title author cover url userId bookId i e opf.Id 0
    if r.2 then
      let r1 := feedSpineLoop opf title author cover url userId bookId rest (i + 1)
      (r.1 ++ r1.1, r1.2)
    else r

/-- `_FeedEPUBContent(packagePath, title, author, cover, url, userId, bookId)`: the
documents written, in order, and whether the function returned (`false`: a run-time
panic ended it). -/
def _FeedEPUBContent (opf : OPFMetadataStruct) (title author cover url : String)
    (userId bookId : Int) : List BookDetailWrite × Bool :=
  feedSpineLoop opf title author cover url userId bookId opf.IdRef 0

/-! ## Library handlers: EditBook and DeleteBook -/

/-- A row of the table `currently_reading`. -/
structure ReadingRow where
  id : Int
  book_id : Int
  user_id : Int
  date_read : String
  deriving DecidableEq, Repr

/-- A document of the embedded index. -/
structure IndexDoc where
  Id : String
  Title : String
  Author : String
  deriving DecidableEq, Repr

/-- What `EditBook` and `DeleteBook` read and change: the tables `book` and
`currently_reading`, the embedded index (a map from document id to document, kept as a
list with one entry per id) and the requests sent to the remote index. -/
structure ServerState where
  book : List BookRow
  currently_reading : List ReadingRow
  index : List IndexDoc
  requests : List IndexRequest
  deriving DecidableEq, Repr

/-- `index.Index(id, doc)`: stores `doc` under its id, replacing a document with that id. -/
def indexPut (index : List IndexDoc) (doc : IndexDoc) : List IndexDoc :=
  index.filter (fun d => d.Id ≠ doc.Id) ++ [doc]

/-- `index.Delete(id)`. -/
def indexDelete (index : List IndexDoc) (id : String) : List IndexDoc :=
  index.filter (fun d => d.Id ≠ id)

/-- The query `select id, title, author, cover, url from book where filename=?` read by
`for rows.Next() { rows.Scan(...) }`: the values of the last row with this file name, zero
values when there is none. -/
def selectBook (book : List BookRow) (fileName : String) :
    Int × String × String × String × String :=
  book.foldl
    (fun acc r => if r.filename = fileName then (r.id, r.title, r.author, r.cover, r.url) else acc)
    (0, "", "", "", "")

/-- `_CheckCurrentlyReading(bookId)`: the id of the first row of `currently_reading` with
this `book_id`, 0 when there is none. -/
def _CheckCurrentlyReading (rows : List ReadingRow) (bookId : Int) : Int :=
  match rows.find? (fun r => r.book_id = bookId) with
  | some r => r.id
  | none => 0

/-- `EditBook` for the signed-in user `userId` and the form values `filename`, `title`,
`author` and (optionally) the name of the uploaded cover file.  `enableES` is the setting
`EnableES` (`"0"`: embedded index), `totalPages` the cached `total_pages` of the file. -/
def EditBook (enableES : String) (userId : Int) (fileName title author : String)
    (coverFile : Option String) (totalPages : Int) (st : ServerState) : ServerState :=
  match selectBook st.book fileName with
  | (bookId, oTitle, oAuthor, oCover, oURL) =>
    let index1 :=
      if enableES = "0" then
        indexDelete st.index (indexId userId bookId oTitle oAuthor oCover oURL)
      else st.index
    let book1 := st.book.map (fun r =>
      if r.filename = fileName then { r with title := title, author := author } else r)
    let oCover1 :=
      match coverFile with
      | some name => "./uploads/img/" ++ name
      | none => oCover
    let book2 :=
      match coverFile with
      | some _ => book1.map (fun r => if r.filename = fileName then { r with cover := oCover1 } else r)
      | none => book1
    if enableES = "0" then
      { st with
          book := book2
          index := indexPut index1
            { Id := indexId userId bookId title author oCover1 oURL
              Title := title, Author := author } }
    else
      { st with
          book := book2
          index := index1
          requests := st.requests ++
            [{ method := "POST", docType := "book_info", docId := bookInfoId userId bookId,
               suffix := "/_update" }] ++
            (List.range totalPages.toNat).map (fun (i : Nat) =>
              { method := "POST", docType := "book_detail"
                docId := bookDetailId userId bookId (i : Int), suffix := "/_update" }) }

/-- `DeleteBook` for the signed-in user `userId` and the file name of the route, outside
the demo server.  `none`: the handler does not return, which happens when the cached
`total_pages` is the largest `int` (the loop `for i := 0; i <= int(totalPages); i++` has no
end then). -/
def DeleteBook (enableES : String) (userId : Int) (fileName : String) (totalPages : Int)
    (st : ServerState) : Option ServerState :=
  match selectBook st.book fileName with
  | (bookId, title, author, cover, url) =>
    let book1 := st.book.filter (fun r => r.filename ≠ fileName)
    let currentlyReadingId := _CheckCurrentlyReading st.currently_reading bookId
    let reading1 :=
      if currentlyReadingId ≠ 0 then
        st.currently_reading.filter (fun r => r.book_id ≠ currentlyReadingId)
      else st.currently_reading
    if enableES = "0" then
      some { st with
          book := book1
          currently_reading := reading1
          index := indexDelete st.index (indexId userId bookId title author cover url) }
    else if totalPages = 2 ^ 63 - 1 then none
    else
      some { st with
          book := book1
          currently_reading := reading1
          requests := st.requests ++
            [{ method := "DELETE", docType := "book_info", docId := bookInfoId userId bookId,
               suffix := "" }] ++
            (List.range (totalPages + 1).toNat).map (fun (i : Nat) =>
              { method := "DELETE", docType := "book_detail"
                docId := bookDetailId userId bookId (i : Int), suffix := "" }) }

/-- A call of `EditBook` in embedded-index mode: who is signed in and the form values. -/
structure EditCall where
  userId : Int
  fileName : String
  title : String
  author : String
  coverFile : Option String
  deriving DecidableEq, Repr

/-- The prefix `ownerId*****bookId*****` of the ids of the documents of one book. -/
def indexIdPrefix (userId bookId : Int) : String :=
  Itoa userId ++ "*****" ++ Itoa bookId ++ "*****"

/-- Whether the id of the document `d` begins with `userId*****bookId*****`. -/
def hasIdPrefix (userId bookId : Int) (d : IndexDoc) : Bool :=
  (indexIdPrefix userId bookId).data.isPrefixOf d.Id.data

/-- The document of the embedded index that carries the values of the row `r`. -/
def bookDoc (r : BookRow) : IndexDoc :=
  { Id := indexId r.user_id r.id r.title r.author r.cover r.url
    Title := r.title, Author := r.author }

/-- The indexing step of `UploadBook` in embedded-index mode, after `_InsertBookRecord`
stored `row`: the document is built from the values just stored. -/
def uploadIndex (row : BookRow) (index : List IndexDoc) : List IndexDoc :=
  indexPut index (bookDoc row)

/-- The cover of a book after an edit: the path of the uploaded cover file if the form
had one, the old cover otherwise. -/
def coverAfter (coverFile : Option String) (oCover : String) : String :=
  match coverFile with
  | some name => "./uploads/img/" ++ name
  | none => oCover

/-- The values a row should carry after the edit `c`: the title and the author of the
form, and the uploaded cover if there is one, when the edit names the file of the row. -/
def editRow (c : EditCall) (r : BookRow) : BookRow :=
  if c.fileName = r.filename then
    { r with title := c.title, author := c.author, cover := coverAfter c.coverFile r.cover }
  else r

/-- The latest values of the row `r` after a sequence of edits. -/
def latestRow (r : BookRow) (calls : List EditCall) : BookRow :=
  calls.foldl (fun row c => editRow c row) r

/-- Value of a text of decimal digits. -/
def digitsValue (s : List Char) : Nat :=
  s.foldl (fun acc c => acc * 10 + (c.toNat - '0'.toNat)) 0

/-- A sample row of `book`: a three-page PDF. -/
def sampleRow (id userId : Int) (fileName title : String) : BookRow :=
  { id := id, title := title, filename := fileName, file_path := "./uploads/" ++ fileName,
    author := "unknown", url := "/book/" ++ fileName, cover := "", pages := 3, format := "pdf",
    uploaded_on := "20240101120000", user_id := userId }

/-- A server state in remote-index mode in which user 1 owns the three-page book
`notes.pdf` with id 1. -/
def oneBookServer : ServerState :=
  { book := [sampleRow 1 1 "notes.pdf" "Notes"], currently_reading := [], index := [],
    requests := [] }

/-- A server state with the books 2 (`a.pdf`) and 5 (`b.pdf`) of user 1, both being read:
row 5 of `currently_reading` belongs to book 2, row 7 to book 5. -/
def twoReadersServer : ServerState :=
  { book := [sampleRow 2 1 "a.pdf" "A", sampleRow 5 1 "b.pdf" "B"]
    currently_reading :=
      [{ id := 5, book_id := 2, user_id := 1, date_read := "20240102" },
       { id := 7, book_id := 5, user_id := 1, date_read := "20240103" }]
    index := [], requests := [] }

theorem wrap64_eq_self {x : Int} (h1 : -2 ^ 63 ≤ x) (h2 : x < 2 ^ 63) : wrap64 x = x := by
  unfold wrap64; omega

theorem sliceRange_eq {α : Type} (s : List α) (a b : Nat) (hab : a ≤ b) (hb : b ≤ s.length) :
    sliceRange s (a : Int) (b : Int) = some ((s.take b).drop a) := by
  unfold sliceRange
  rw [if_pos (by omega)]
  simp

theorem indexInt_natCast {α : Type} (s : List α) (i : Nat) : indexInt s (i : Int) = s[i]? := by
  unfold indexInt
  rw [if_pos (by omega)]
  simp

theorem indexInt_neg {α : Type} (s : List α) (i : Int) (h : i < 0) : indexInt s i = none := by
  unfold indexInt
  rw [if_neg (by omega)]

/-! ## PaginationBucketer -/

theorem shrinkToLen_eq (len : Nat) (j : Int) : shrinkToLen len j = min j len := by
  induction j using shrinkToLen.induct len with
  | case1 j h ih =>
    rw [shrinkToLen, if_pos h, ih]; omega
  | case2 j h =>
    rw [shrinkToLen, if_neg h]; omega

/-- With enough fuel the loop returns, and what it appends is `groupsFrom`. -/
theorem constructLoop_eq (books : BookStructList) (n : Nat) (hn : 1 ≤ n)
    (hn64 : (n : Int) < 2 ^ 63) (hlen : (books.length : Int) < 2 ^ 62) :
    ∀ (fuel m : Nat) (acc : List BookStructList), (m = 0 ∨ n ≤ m) → books.length - m < fuel →
      constructLoop books (n : Int) fuel (m : Int) acc = some (acc ++ groupsFrom books n fuel m) := by
  intro fuel
  induction fuel with
  | zero => intro m acc _ h; omega
  | succ fuel ih =>
    intro m acc hm hfuel
    rw [constructLoop, groupsFrom]
    by_cases hlt : m < books.length
    · have hlt2 : (m : Int) < (books.length : Int) := by omega
      rw [if_pos hlt2, if_pos hlt]
      have hw : wrap64 ((m : Int) + (n : Int)) = ((m + n : Nat) : Int) := by
        rw [wrap64_eq_self] <;> omega
      simp only [hw, shrinkToLen_eq]
      have hmin : min ((m + n : Nat) : Int) (books.length : Int) =
          ((min (m + n) books.length : Nat) : Int) := by
        push_cast; rfl
      rw [hmin, sliceRange_eq books m _ (by omega) (by omega)]
      simp only
      rw [ih (m + n) _ (Or.inr (by omega)) (by omega), List.append_assoc, List.singleton_append]
    · have hlt2 : ¬ (m : Int) < (books.length : Int) := by omega
      rw [if_neg hlt2, if_neg hlt, List.append_nil]

theorem constructBooksWithCount_eq (books : BookStructList) (n fuel : Nat) (hn : 1 ≤ n)
    (hn64 : (n : Int) < 2 ^ 63) (hlen : (books.length : Int) < 2 ^ 62)
    (hfuel : books.length < fuel) :
    _ConstructBooksWithCount fuel books (n : Int) = some (groupsFrom books n fuel 0) := by
  have h := constructLoop_eq books n hn hn64 hlen fuel 0 [] (Or.inl rfl) (by omega)
  simpa [_ConstructBooksWithCount] using h

theorem groupsFrom_flatten (books : BookStructList) (n : Nat) (hn : 1 ≤ n) :
    ∀ (fuel m : Nat), books.length - m < fuel →
      (groupsFrom books n fuel m).flatten = books.drop m := by
  intro fuel
  induction fuel with
  | zero => intro m h; omega
  | succ fuel ih =>
    intro m hfuel
    rw [groupsFrom]
    by_cases hlt : m < books.length
    · rw [if_pos hlt, List.flatten_cons, ih (m + n) (by omega)]
      by_cases hle : m + n ≤ books.length
      · rw [Nat.min_eq_left hle, List.drop_take, Nat.add_sub_cancel_left, ← List.drop_drop]
        exact List.take_append_drop n (books.drop m)
      · rw [Nat.min_eq_right (by omega), List.take_length,
          List.drop_eq_nil_of_le (by omega : books.length ≤ m + n), List.append_nil]
    · rw [if_neg hlt, List.drop_eq_nil_of_le (by omega)]; rfl

theorem groupsFrom_length (books : BookStructList) (n : Nat) (hn : 1 ≤ n) :
    ∀ (fuel m : Nat), books.length - m < fuel →
      (groupsFrom books n fuel m).length = (books.length - m + n - 1) / n := by
  intro fuel
  induction fuel with
  | zero => intro m h; omega
  | succ fuel ih =>
    intro m hfuel
    rw [groupsFrom]
    by_cases hlt : m < books.length
    · rw [if_pos hlt, List.length_cons, ih (m + n) (by omega)]
      by_cases hle : m + n ≤ books.length
      · have h1 : books.length - m + n - 1 = (books.length - (m + n) + n - 1) + n := by omega
        rw [h1, Nat.add_div_right _ (by omega)]
      · have h2 : books.length - (m + n) + n - 1 = n - 1 := by omega
        have h3 : books.length - m + n - 1 = (books.length - m - 1) + n := by omega
        rw [h2, h3, Nat.add_div_right _ (by omega), Nat.div_eq_of_lt (by omega),
          Nat.div_eq_of_lt (by omega)]
    · rw [if_neg hlt]
      have h0 : books.length - m + n - 1 = n - 1 := by omega
      rw [h0, Nat.div_eq_of_lt (by omega)]; rfl

theorem groupsFrom_sizes (books : BookStructList) (n : Nat) (hn : 1 ≤ n) :
    ∀ (fuel m : Nat), books.length - m < fuel →
      ∀ (k : Nat) (hk : k < (groupsFrom books n fuel m).length),
        1 ≤ ((groupsFrom books n fuel m).get ⟨k, hk⟩).length ∧
        ((groupsFrom books n fuel m).get ⟨k, hk⟩).length ≤ n ∧
        (k + 1 < (groupsFrom books n fuel m).length →
          ((groupsFrom books n fuel m).get ⟨k, hk⟩).length = n) := by
  intro fuel
  induction fuel with
  | zero => intro m h; omega
  | succ fuel ih =>
    intro m hfuel k
    have hlen2 := groupsFrom_length books n hn fuel (m + n)
    rw [groupsFrom]
    by_cases hlt : m < books.length
    · rw [if_pos hlt]
      intro hk
      cases k with
      | zero =>
        simp only [List.get_eq_getElem, List.getElem_cons_zero, List.length_drop, List.length_take,
          List.length_cons]
        refine ⟨by omega, by omega, ?_⟩
        intro h2
        by_cases hle : m + n < books.length
        · omega
        · exfalso
          rw [hlen2 (by omega)] at h2
          have : (books.length - (m + n) + n - 1) / n = 0 := Nat.div_eq_of_lt (by omega)
          omega
      | succ k =>
        have hk2 : k < (groupsFrom books n fuel (m + n)).length := by simpa using hk
        have := ih (m + n) (by omega) k hk2
        simpa using this
    · rw [if_neg hlt]
      intro hk; simp at hk

theorem natCeil_div_eq (a n : Nat) (hn : 1 ≤ n) : ⌈(a : ℚ) / (n : ℚ)⌉₊ = (a + n - 1) / n := by
  have hnq : (0 : ℚ) < (n : ℚ) := by exact_mod_cast hn
  rcases Nat.eq_zero_or_pos a with ha | ha
  · subst ha
    rw [Nat.zero_add, Nat.div_eq_of_lt (by omega)]
    simp
  · have hdm := Nat.div_add_mod (a + n - 1) n
    have hr := Nat.mod_lt (a + n - 1) (by omega : n > 0)
    generalize (a + n - 1) / n = q at hdm ⊢
    generalize (a + n - 1) % n = r at hdm hr
    have hq : 1 ≤ q := by
      rcases Nat.eq_zero_or_pos q with h0 | h0
      · subst h0; simp at hdm; omega
      · exact h0
    rw [Nat.ceil_eq_iff (by omega)]
    have hdmq : (n : ℚ) * q + r = a + n - 1 := by
      have : ((n * q + r : Nat) : ℚ) = ((a + n - 1 : Nat) : ℚ) := by rw [hdm]
      rw [Nat.cast_sub (by omega)] at this
      push_cast at this
      linarith
    have hrq : (r : ℚ) + 1 ≤ n := by exact_mod_cast hr
    have hr0 : (0 : ℚ) ≤ r := Nat.cast_nonneg r
    rw [Nat.cast_sub hq, lt_div_iff₀ hnq, div_le_iff₀ hnq]
    push_cast
    constructor <;> nlinarith

/-- C1: for a bucket size `n ≥ 1` (an `int64`) and a book list (of a length a Go slice
can have), `_ConstructBooksWithCount` returns once its loop has been given more iterations
than the list has elements, and the groups it returns, concatenated in order, are exactly
the input list. -/
theorem constructBooksWithCount_concat (books : BookStructList) (n fuel : Nat) (hn : 1 ≤ n)
    (hn64 : (n : Int) < 2 ^ 63) (hlen : (books.length : Int) < 2 ^ 62)
    (hfuel : books.length < fuel) :
    ∃ groups, _ConstructBooksWithCount fuel books (n : Int) = some groups ∧
      groups.flatten = books := by
  refine ⟨_, constructBooksWithCount_eq books n fuel hn hn64 hlen hfuel, ?_⟩
  rw [groupsFrom_flatten books n hn fuel 0 (by omega), List.drop_zero]

theorem constructBooksWithCount_concat_witness :
    (1 ≤ 2 ∧ sampleBooks.length < 6) ∧
    ∃ groups, _ConstructBooksWithCount 6 sampleBooks ((2 : Nat) : Int) = some groups ∧
      groups.flatten = sampleBooks :=
  ⟨by decide,
    constructBooksWithCount_concat sampleBooks 2 6 (by decide) (by decide) (by decide)
      (by decide)⟩

/-- C2: for a bucket size `n ≥ 1`, every group returned by `_ConstructBooksWithCount` has
between 1 and `n` elements, and every group that is not the last one has exactly `n`. -/
theorem constructBooksWithCount_group_sizes (books : BookStructList) (n fuel : Nat)
    (hn : 1 ≤ n) (hn64 : (n : Int) < 2 ^ 63) (hlen : (books.length : Int) < 2 ^ 62)
    (hfuel : books.length < fuel) :
    ∃ groups, _ConstructBooksWithCount fuel books (n : Int) = some groups ∧
      ∀ (k : Nat) (hk : k < groups.length),
        1 ≤ (groups.get ⟨k, hk⟩).length ∧ (groups.get ⟨k, hk⟩).length ≤ n ∧
        (k + 1 < groups.length → (groups.get ⟨k, hk⟩).length = n) :=
  ⟨_, constructBooksWithCount_eq books n fuel hn hn64 hlen hfuel,
    groupsFrom_sizes books n hn fuel 0 (by omega)⟩

theorem constructBooksWithCount_group_sizes_witness :
    (1 ≤ 2 ∧ sampleBooks.length < 6) ∧
    ∃ groups, _ConstructBooksWithCount 6 sampleBooks ((2 : Nat) : Int) = some groups ∧
      ∀ (k : Nat) (hk : k < groups.length),
        1 ≤ (groups.get ⟨k, hk⟩).length ∧ (groups.get ⟨k, hk⟩).length ≤ 2 ∧
        (k + 1 < groups.length → (groups.get ⟨k, hk⟩).length = 2) :=
  ⟨by decide,
    constructBooksWithCount_group_sizes sampleBooks 2 6 (by decide) (by decide) (by decide)
      (by decide)⟩

/-- C3: for a bucket size `n ≥ 1` the loop of `_ConstructBooksWithCount` ends within
`len(books) + 1` iterations and returns exactly `⌈len(books) / n⌉` groups; an empty list
gives no group. -/
theorem constructBooksWithCount_count (books : BookStructList) (n fuel : Nat) (hn : 1 ≤ n)
    (hn64 : (n : Int) < 2 ^ 63) (hlen : (books.length : Int) < 2 ^ 62)
    (hfuel : books.length < fuel) :
    ∃ groups, _ConstructBooksWithCount fuel books (n : Int) = some groups ∧
      groups.length = ⌈(books.length : ℚ) / (n : ℚ)⌉₊ ∧
      (books = [] → groups = []) := by
  refine ⟨_, constructBooksWithCount_eq books n fuel hn hn64 hlen hfuel, ?_, ?_⟩
  · rw [groupsFrom_length books n hn fuel 0 (by omega), natCeil_div_eq _ _ hn, Nat.sub_zero]
  · intro hnil
    apply List.eq_nil_of_length_eq_zero
    rw [groupsFrom_length books n hn fuel 0 (by omega), hnil]
    exact Nat.div_eq_of_lt (by simp; omega)

theorem constructBooksWithCount_count_witness :
    (1 ≤ 2 ∧ sampleBooks.length < 6) ∧
    ∃ groups, _ConstructBooksWithCount 6 sampleBooks ((2 : Nat) : Int) = some groups ∧
      groups.length = ⌈(sampleBooks.length : ℚ) / ((2 : Nat) : ℚ)⌉₊ ∧
      (sampleBooks = [] → groups = []) :=
  ⟨by decide,
    constructBooksWithCount_count sampleBooks 2 6 (by decide) (by decide) (by decide)
      (by decide)⟩

/-! ## Total page count -/

theorem roundHalfEven_intCast (z : Int) : roundHalfEven (z : ℚ) = z := by
  unfold roundHalfEven
  simp

theorem roundHalfEven_bounds (x : ℚ) :
    x - 1 / 2 ≤ (roundHalfEven x : ℚ) ∧ (roundHalfEven x : ℚ) ≤ x + 1 / 2 := by
  have h1 := Int.floor_le x
  have h2 := Int.lt_floor_add_one x
  unfold roundHalfEven
  simp only
  split_ifs with ha hb hc
  · constructor <;> linarith
  · push_cast; constructor <;> linarith
  · constructor <;> linarith
  · push_cast; constructor <;> linarith

theorem intLog_two_eq {x : ℚ} {e : ℤ} (hpos : 0 < x) (h1 : (2 : ℚ) ^ e ≤ x)
    (h2 : x < (2 : ℚ) ^ (e + 1)) : Int.log 2 x = e := by
  have hb : 1 < 2 := by norm_num
  apply le_antisymm
  · have := (Int.lt_zpow_iff_log_lt hb hpos).mp (by exact_mod_cast h2)
    omega
  · exact (Int.zpow_le_iff_le_log hb hpos).mp (by exact_mod_cast h1)

/-- An integer of at most 53 bits is a `float64`. -/
theorem roundFloat64_intCast (c : Int) (h0 : 0 ≤ c) (h : c ≤ 2 ^ 53) :
    roundFloat64 (c : ℚ) = c := by
  unfold roundFloat64
  simp only
  rcases h0.eq_or_lt with hc | hc
  · subst hc
    have h00 : roundHalfEven (0 : ℚ) = 0 := by simpa using roundHalfEven_intCast 0
    simp [h00]
  · have hb : 1 < 2 := by norm_num
    have hcq : (0 : ℚ) < (c : ℚ) := by exact_mod_cast hc
    rw [abs_of_pos hcq]
    set e := Int.log 2 (c : ℚ) with he
    have he0 : 0 ≤ e := by
      apply (Int.zpow_le_iff_le_log hb hcq).mp
      have : (1 : ℚ) ≤ c := by exact_mod_cast hc
      simpa using this
    have he53 : e ≤ 53 := by
      have hlt : (c : ℚ) < ((2 : ℕ) : ℚ) ^ (54 : ℤ) := by
        have : (c : ℚ) ≤ 2 ^ 53 := by exact_mod_cast h
        norm_num at this ⊢
        linarith
      have := (Int.lt_zpow_iff_log_lt hb hcq).mp hlt
      omega
    rw [max_eq_left (by omega)]
    have hulp : (0 : ℚ) < 2 ^ (e - 52) := zpow_pos (by norm_num) _
    suffices hz : ∃ z : Int, (c : ℚ) / 2 ^ (e - 52) = z by
      obtain ⟨z, hz⟩ := hz
      rw [hz, roundHalfEven_intCast, ← hz, div_mul_cancel₀ _ hulp.ne']
    rcases (by omega : e ≤ 52 ∨ e = 53) with h52 | h53
    · refine ⟨c * 2 ^ (52 - e).toNat, ?_⟩
      have hexp : e - 52 = -(((52 - e).toNat : ℕ) : ℤ) := by omega
      rw [hexp, zpow_neg, zpow_natCast]
      push_cast
      field_simp
    · have hpow : ((2 : ℕ) : ℚ) ^ e ≤ c := Int.zpow_log_le_self hb hcq
      rw [h53] at hpow
      have hc53 : c = 2 ^ 53 := by
        have : (2 : ℚ) ^ (53 : ℕ) ≤ c := by
          have h' : ((2 : ℕ) : ℚ) ^ (53 : ℤ) = (2 : ℚ) ^ (53 : ℕ) := by norm_num
          rw [h'] at hpow; exact hpow
        have : (2 : Int) ^ 53 ≤ c := by exact_mod_cast this
        omega
      refine ⟨2 ^ 52, ?_⟩
      rw [h53, hc53]
      norm_num

/-- Rounding `x` to the grid of spacing `1 / M`, for an `x` with fractional part `r / 18`,
stays clear of the integers by more than `1 / 20` when `M` is 16, 32, 64 or at least 128. -/
theorem grid_round_clear (k r N : Int) (M : ℚ) (hr1 : 1 ≤ r) (hr17 : r ≤ 17)
    (hM : M = 16 ∨ M = 32 ∨ M = 64 ∨ 128 ≤ M)
    (hlo : ((k : ℚ) + r / 18) * M - 1 / 2 ≤ N) (hhi : (N : ℚ) ≤ ((k : ℚ) + r / 18) * M + 1 / 2) :
    ((k : ℚ) + 1 / 20) * M < N ∧ (N : ℚ) < ((k : ℚ) + 19 / 20) * M := by
  have hr1q : (1 : ℚ) ≤ r := by exact_mod_cast hr1
  have hr17q : (r : ℚ) ≤ 17 := by exact_mod_cast hr17
  rcases hM with h | h | h | h
  · subst h
    have h1 : 576 * k + 32 * r - 18 ≤ 36 * N := by
      have : (576 * k + 32 * r - 18 : ℚ) ≤ 36 * N := by linarith
      exact_mod_cast this
    have h2 : 36 * N ≤ 576 * k + 32 * r + 18 := by
      have : (36 * N : ℚ) ≤ 576 * k + 32 * r + 18 := by linarith
      exact_mod_cast this
    have h3 : 16 * k + 1 ≤ N := by omega
    have h4 : N ≤ 16 * k + 15 := by omega
    have h3q : (16 * k + 1 : ℚ) ≤ N := by exact_mod_cast h3
    have h4q : (N : ℚ) ≤ 16 * k + 15 := by exact_mod_cast h4
    constructor <;> linarith
  · subst h
    have h1 : 1152 * k + 64 * r - 18 ≤ 36 * N := by
      have : (1152 * k + 64 * r - 18 : ℚ) ≤ 36 * N := by linarith
      exact_mod_cast this
    have h2 : 36 * N ≤ 1152 * k + 64 * r + 18 := by
      have : (36 * N : ℚ) ≤ 1152 * k + 64 * r + 18 := by linarith
      exact_mod_cast this
    have h3 : 32 * k + 2 ≤ N := by omega
    have h4 : N ≤ 32 * k + 30 := by omega
    have h3q : (32 * k + 2 : ℚ) ≤ N := by exact_mod_cast h3
    have h4q : (N : ℚ) ≤ 32 * k + 30 := by exact_mod_cast h4
    constructor <;> linarith
  · subst h
    have h1 : 2304 * k + 128 * r - 18 ≤ 36 * N := by
      have : (2304 * k + 128 * r - 18 : ℚ) ≤ 36 * N := by linarith
      exact_mod_cast this
    have h2 : 36 * N ≤ 2304 * k + 128 * r + 18 := by
      have : (36 * N : ℚ) ≤ 2304 * k + 128 * r + 18 := by linarith
      exact_mod_cast this
    have h3 : 64 * k + 4 ≤ N := by omega
    have h4 : N ≤ 64 * k + 60 := by omega
    have h3q : (64 * k + 4 : ℚ) ≤ N := by exact_mod_cast h3
    have h4q : (N : ℚ) ≤ 64 * k + 60 := by exact_mod_cast h4
    constructor <;> linarith
  · have hMpos : (0 : ℚ) < M := by linarith
    have hrM1 : M ≤ r * M := by nlinarith
    have hrM2 : r * M ≤ 17 * M := by nlinarith
    have hx : ((k : ℚ) + r / 18) * M = k * M + (r * M) / 18 := by ring
    rw [hx] at hlo hhi
    constructor
    · have : ((k : ℚ) + 1 / 20) * M = k * M + M / 20 := by ring
      rw [this]; linarith
    · have : ((k : ℚ) + 19 / 20) * M = k * M + 19 * M / 20 := by ring
      rw [this]; linarith

/-- The `float64` quotient of a count by 18 keeps a non-integral quotient more than `1 / 20`
away from the neighbouring integers, for counts up to `2 ^ 53`. -/
theorem roundFloat64_div18_bounds (k r : Int) (hk : 0 ≤ k) (hr1 : 1 ≤ r) (hr17 : r ≤ 17)
    (hc : k < 2 ^ 49) :
    (k : ℚ) + 1 / 20 < roundFloat64 (((18 * k + r : Int) : ℚ) / 18) ∧
    roundFloat64 (((18 * k + r : Int) : ℚ) / 18) < (k : ℚ) + 19 / 20 := by
  have hb : 1 < 2 := by norm_num
  have hkq : (0 : ℚ) ≤ k := by exact_mod_cast hk
  have hr1q : (1 : ℚ) ≤ r := by exact_mod_cast hr1
  have hr17q : (r : ℚ) ≤ 17 := by exact_mod_cast hr17
  have hcq : (k : ℚ) + 1 ≤ 2 ^ 49 := by
    have : k + 1 ≤ 2 ^ 49 := by omega
    exact_mod_cast this
  have hx : (((18 * k + r : Int) : ℚ) / 18) = (k : ℚ) + r / 18 := by
    push_cast; ring
  rw [hx]
  have hxpos : (0 : ℚ) < (k : ℚ) + r / 18 := by positivity
  unfold roundFloat64
  simp only
  rw [abs_of_pos hxpos]
  set e := Int.log 2 ((k : ℚ) + r / 18) with he
  have he5 : -5 ≤ e := by
    apply (Int.zpow_le_iff_le_log hb hxpos).mp
    norm_num
    linarith
  have he48 : e ≤ 48 := by
    have hlt : (k : ℚ) + r / 18 < ((2 : ℕ) : ℚ) ^ (49 : ℤ) := by
      norm_num at hcq ⊢
      linarith
    have := (Int.lt_zpow_iff_log_lt hb hxpos).mp hlt
    omega
  rw [max_eq_left (by omega)]
  have hMpos : (0 : ℚ) < 2 ^ (52 - e) := zpow_pos (by norm_num) _
  have hulp : (2 : ℚ) ^ (e - 52) = ((2 : ℚ) ^ (52 - e))⁻¹ := by
    rw [← zpow_neg]; congr 1; omega
  have hM : (2 : ℚ) ^ (52 - e) = 16 ∨ (2 : ℚ) ^ (52 - e) = 32 ∨ (2 : ℚ) ^ (52 - e) = 64 ∨
      128 ≤ (2 : ℚ) ^ (52 - e) := by
    rcases (by omega : e = 48 ∨ e = 47 ∨ e = 46 ∨ e ≤ 45) with h | h | h | h
    · left; rw [h]; norm_num
    · right; left; rw [h]; norm_num
    · right; right; left; rw [h]; norm_num
    · right; right; right
      have h7 : (2 : ℚ) ^ (7 : ℤ) ≤ 2 ^ (52 - e) := zpow_le_zpow_right₀ (by norm_num) (by omega)
      norm_num at h7 ⊢
      exact h7
  rw [hulp, div_inv_eq_mul]
  obtain ⟨hlo, hhi⟩ := roundHalfEven_bounds (((k : ℚ) + r / 18) * 2 ^ (52 - e))
  obtain ⟨h1, h2⟩ := grid_round_clear k r _ _ hr1 hr17 hM hlo hhi
  constructor
  · rw [← div_eq_mul_inv, lt_div_iff₀ hMpos]; exact h1
  · rw [← div_eq_mul_inv, div_lt_iff₀ hMpos]; exact h2

/-- From a count whose `float64` conversion is the integer `a < 18 * 2 ^ 49`,
`_GetTotalPages` computes `⌈a / 18⌉`. -/
theorem getTotalPages_of_float (c a : Int) (hf : float64OfInt c = (a : ℚ)) (h0 : 0 ≤ a)
    (h : a < 18 * 2 ^ 49) : _GetTotalPages c = ⌈(a : ℚ) / 18⌉ := by
  have hdm := Int.ediv_add_emod a 18
  have hr0 := Int.emod_nonneg a (by norm_num : (18 : Int) ≠ 0)
  have hr18 := Int.emod_lt_of_pos a (by norm_num : (0 : Int) < 18)
  generalize a / 18 = k at hdm
  generalize a % 18 = r at hdm hr0 hr18
  have hk : 0 ≤ k := by omega
  have hkq : (0 : ℚ) ≤ k := by exact_mod_cast hk
  have hcq : (a : ℚ) = 18 * k + r := by rw [← hdm]; push_cast; ring
  unfold _GetTotalPages float64Div
  simp only
  rw [hf]
  rcases (by omega : r = 0 ∨ 1 ≤ r) with hr | hr
  · subst hr
    have hx : (a : ℚ) / 18 = k := by rw [hcq]; push_cast; ring
    rw [hx, roundFloat64_intCast k hk (by omega)]
    have hd : fmtTenthsDigit (k : ℚ) = 0 := by
      unfold fmtTenthsDigit
      rw [abs_of_nonneg hkq]
      have : (k : ℚ) * 10 = ((k * 10 : Int) : ℚ) := by push_cast; ring
      rw [this, roundHalfEven_intCast]
      omega
    rw [if_pos hd]
    unfold int64OfFloat
    rw [if_pos hkq]
    simp
  · have hc' : a = 18 * k + r := by omega
    subst hc'
    obtain ⟨hlo, hhi⟩ := roundFloat64_div18_bounds k r hk hr (by omega) (by omega)
    set q := roundFloat64 (((18 * k + r : Int) : ℚ) / 18) with hq
    have hqpos : (0 : ℚ) < q := by linarith
    have hd : fmtTenthsDigit q ≠ 0 := by
      unfold fmtTenthsDigit
      rw [abs_of_pos hqpos]
      obtain ⟨b1, b2⟩ := roundHalfEven_bounds (q * 10)
      have c1 : 10 * k + 1 ≤ roundHalfEven (q * 10) := by
        have : ((10 * k : Int) : ℚ) < (roundHalfEven (q * 10) : ℚ) := by push_cast; linarith
        have := Int.cast_lt.mp this
        omega
      have c2 : roundHalfEven (q * 10) ≤ 10 * k + 9 := by
        have : (roundHalfEven (q * 10) : ℚ) < ((10 * k + 10 : Int) : ℚ) := by push_cast; linarith
        have := Int.cast_lt.mp this
        omega
      omega
    rw [if_neg hd]
    have hfl : int64OfFloat q = k := by
      unfold int64OfFloat
      rw [if_pos hqpos.le, Int.floor_eq_iff]
      constructor <;> linarith
    rw [hfl, wrap64_eq_self (by omega) (by omega)]
    symm
    rw [Int.ceil_eq_iff]
    have hr1q : (1 : ℚ) ≤ r := by exact_mod_cast hr
    have hr17q : (r : ℚ) ≤ 17 := by
      have : r ≤ 17 := by omega
      exact_mod_cast this
    push_cast
    constructor <;> linarith

theorem roundHalfEven_add_half (z : Int) :
    roundHalfEven ((z : ℚ) + 1 / 2) = if z % 2 = 0 then z else z + 1 := by
  have hfl : ⌊(z : ℚ) + 1 / 2⌋ = z := by
    rw [Int.floor_eq_iff]; constructor <;> linarith
  unfold roundHalfEven
  simp only [hfl]
  norm_num

/-- Conversion of a 54-bit count: the `float64` numbers in `[2 ^ 53, 2 ^ 54)` are the even
integers. -/
theorem float64OfInt_54bit (c : Int) (h1 : 2 ^ 53 ≤ c) (h2 : c < 2 ^ 54) :
    float64OfInt c = (roundHalfEven ((c : ℚ) / 2) : ℚ) * 2 := by
  unfold float64OfInt roundFloat64
  simp only
  have hpos : (0 : ℚ) < (c : ℚ) := by
    have : (0 : Int) < c := by omega
    exact_mod_cast this
  have hlog : Int.log 2 |(c : ℚ)| = 53 := by
    rw [abs_of_pos hpos]
    apply intLog_two_eq hpos
    · have : ((2 ^ 53 : Int) : ℚ) ≤ c := by exact_mod_cast h1
      norm_num at this ⊢; linarith
    · have : (c : ℚ) < ((2 ^ 54 : Int) : ℚ) := by exact_mod_cast h2
      norm_num at this ⊢; linarith
  rw [hlog]
  have hulp : (2 : ℚ) ^ (max (53 : ℤ) (-1022) - 52) = 2 := by norm_num
  rw [hulp]

/-- C4 (amended): for every book count `c` with `0 ≤ c ≤ 2 ^ 53 + 4`, `_GetTotalPages(c)`
equals `⌈c / 18⌉`.  Up to `2 ^ 53` the count is converted to `float64` exactly; the four
counts above it are rounded to a number with the same quotient ceiling. -/
theorem getTotalPages_eq_ceil (c : Int) (h0 : 0 ≤ c) (h : c ≤ 2 ^ 53 + 4) :
    _GetTotalPages c = ⌈(c : ℚ) / 18⌉ := by
  rcases (by omega : c ≤ 2 ^ 53 ∨ c = 9007199254740993 ∨ c = 9007199254740994 ∨
      c = 9007199254740995 ∨ c = 9007199254740996) with hc | hc | hc | hc | hc
  · exact getTotalPages_of_float c c (roundFloat64_intCast c h0 hc) h0 (by omega)
  · subst hc
    have hf : float64OfInt 9007199254740993 = ((9007199254740992 : Int) : ℚ) := by
      rw [float64OfInt_54bit _ (by norm_num) (by norm_num)]
      have : ((9007199254740993 : Int) : ℚ) / 2 = ((4503599627370496 : Int) : ℚ) + 1 / 2 := by
        norm_num
      rw [this, roundHalfEven_add_half]
      norm_num
    rw [getTotalPages_of_float _ _ hf (by norm_num) (by norm_num)]
    rw [Int.ceil_eq_iff.mpr (by norm_num : ((500399958596722 : Int) : ℚ) - 1 <
      ((9007199254740992 : Int) : ℚ) / 18 ∧ ((9007199254740992 : Int) : ℚ) / 18 ≤
      ((500399958596722 : Int) : ℚ))]
    symm; rw [Int.ceil_eq_iff]; norm_num
  · subst hc
    have hf : float64OfInt 9007199254740994 = ((9007199254740994 : Int) : ℚ) := by
      rw [float64OfInt_54bit _ (by norm_num) (by norm_num)]
      have : ((9007199254740994 : Int) : ℚ) / 2 = ((4503599627370497 : Int) : ℚ) := by
        norm_num
      rw [this, roundHalfEven_intCast]
      norm_num
    exact getTotalPages_of_float _ _ hf (by norm_num) (by norm_num)
  · subst hc
    have hf : float64OfInt 9007199254740995 = ((9007199254740996 : Int) : ℚ) := by
      rw [float64OfInt_54bit _ (by norm_num) (by norm_num)]
      have : ((9007199254740995 : Int) : ℚ) / 2 = ((4503599627370497 : Int) : ℚ) + 1 / 2 := by
        norm_num
      rw [this, roundHalfEven_add_half]
      norm_num
    rw [getTotalPages_of_float _ _ hf (by norm_num) (by norm_num)]
    rw [Int.ceil_eq_iff.mpr (by norm_num : ((500399958596722 : Int) : ℚ) - 1 <
      ((9007199254740996 : Int) : ℚ) / 18 ∧ ((9007199254740996 : Int) : ℚ) / 18 ≤
      ((500399958596722 : Int) : ℚ))]
    symm; rw [Int.ceil_eq_iff]; norm_num
  · subst hc
    have hf : float64OfInt 9007199254740996 = ((9007199254740996 : Int) : ℚ) := by
      rw [float64OfInt_54bit _ (by norm_num) (by norm_num)]
      have : ((9007199254740996 : Int) : ℚ) / 2 = ((4503599627370498 : Int) : ℚ) := by
        norm_num
      rw [this, roundHalfEven_intCast]
      norm_num
    exact getTotalPages_of_float _ _ hf (by norm_num) (by norm_num)

theorem getTotalPages_eq_ceil_witness :
    ((0 : Int) ≤ 37 ∧ (37 : Int) ≤ 2 ^ 53 + 4) ∧ _GetTotalPages 37 = ⌈((37 : Int) : ℚ) / 18⌉ :=
  ⟨by decide, getTotalPages_eq_ceil 37 (by decide) (by decide)⟩

/-- The count `2 ^ 53 + 5` is not a `float64`: it lies halfway between `2 ^ 53 + 4` and
`2 ^ 53 + 6` and is rounded to the former, a multiple of 18. -/
theorem float64OfInt_large : float64OfInt 9007199254740997 = 9007199254740996 := by
  unfold float64OfInt roundFloat64
  simp only
  have hlog : Int.log 2 |((9007199254740997 : Int) : ℚ)| = 53 := by
    rw [abs_of_pos (by norm_num)]
    apply intLog_two_eq <;> norm_num
  rw [hlog]
  have hulp : (2 : ℚ) ^ (max (53 : ℤ) (-1022) - 52) = 2 := by norm_num
  rw [hulp]
  have hfl : ⌊(((9007199254740997 : Int) : ℚ) / 2)⌋ = 4503599627370498 := by
    rw [Int.floor_eq_iff]; norm_num
  have hr : roundHalfEven (((9007199254740997 : Int) : ℚ) / 2) = 4503599627370498 := by
    unfold roundHalfEven
    simp only [hfl]
    norm_num
  rw [hr]
  norm_num

/-- C4 (counterexample): for the book count `2 ^ 53 + 5 = 18 * 500399958596722 + 1`,
`_GetTotalPages` returns `500399958596722`, one less than `⌈c / 18⌉`: the count is rounded
to the `float64` `2 ^ 53 + 4`, whose quotient by 18 is an integer and prints with the
decimal digit 0. -/
theorem getTotalPages_large_count :
    _GetTotalPages 9007199254740997 = 500399958596722 ∧
    ⌈((9007199254740997 : Int) : ℚ) / 18⌉ = 500399958596723 ∧
    _GetTotalPages 9007199254740997 ≠ ⌈((9007199254740997 : Int) : ℚ) / 18⌉ := by
  have hq : float64Div (float64OfInt 9007199254740997) 18 = ((500399958596722 : Int) : ℚ) := by
    rw [float64OfInt_large]
    unfold float64Div
    have : (9007199254740996 : ℚ) / 18 = ((500399958596722 : Int) : ℚ) := by norm_num
    rw [this]
    exact roundFloat64_intCast _ (by norm_num) (by norm_num)
  have h1 : _GetTotalPages 9007199254740997 = 500399958596722 := by
    unfold _GetTotalPages
    simp only
    rw [hq]
    have hd : fmtTenthsDigit ((500399958596722 : Int) : ℚ) = 0 := by
      unfold fmtTenthsDigit
      rw [abs_of_pos (by norm_num)]
      have : ((500399958596722 : Int) : ℚ) * 10 = ((5003999585967220 : Int) : ℚ) := by norm_num
      rw [this, roundHalfEven_intCast]
      rfl
    rw [if_pos hd]
    unfold int64OfFloat
    rw [if_pos (by norm_num)]
    simp
  have h2 : ⌈((9007199254740997 : Int) : ℚ) / 18⌉ = 500399958596723 := by
    rw [Int.ceil_eq_iff]; norm_num
  refine ⟨h1, h2, ?_⟩
  rw [h1, h2]
  norm_num

/-! ## Manifest lookup -/

theorem string_path_ne_empty (filePath h : String) : filePath ++ "/" ++ h ≠ "" := by
  intro hEq
  have hlen := congrArg String.length hEq
  simp only [String.length_append] at hlen
  have h1 : "/".length = 1 := rfl
  have h0 : "".length = 0 := rfl
  omega

theorem getManifestIdLoop_not_mem (hrefArray : List String) (idRef filePath : String) :
    ∀ (l : List String) (s : Nat), idRef ∉ l →
      getManifestIdLoop hrefArray idRef filePath l s = some "" := by
  intro l
  induction l with
  | nil => intro s _; rfl
  | cons e rest ih =>
    intro s hmem
    rw [getManifestIdLoop, if_neg (fun h => hmem (by simp [h])),
      ih (s + 1) (fun h => hmem (List.mem_cons_of_mem _ h))]

theorem getManifestIdLoop_mem (hrefArray : List String) (idRef filePath : String) :
    ∀ (l : List String) (s : Nat), idRef ∈ l → s + l.length ≤ hrefArray.length →
      ∃ (i : Nat) (h : String), l[i]? = some idRef ∧ (∀ j, j < i → l[j]? ≠ some idRef) ∧
        hrefArray[s + i]? = some h ∧
        getManifestIdLoop hrefArray idRef filePath l s = some (filePath ++ "/" ++ h) := by
  intro l
  induction l with
  | nil => intro s hmem; simp at hmem
  | cons e rest ih =>
    intro s hmem hlen
    rw [List.length_cons] at hlen
    by_cases he : e = idRef
    · have hs : s < hrefArray.length := by omega
      refine ⟨0, hrefArray[s], by simp [he], by intro j hj; omega, by simp [hs], ?_⟩
      rw [getManifestIdLoop, if_pos he]
      simp [hs]
    · have hmem2 : idRef ∈ rest := by
        rcases List.mem_cons.mp hmem with h | h
        · exact absurd h.symm he
        · exact h
      obtain ⟨i, h, h1, h2, h3, h4⟩ := ih (s + 1) hmem2 (by omega)
      refine ⟨i + 1, h, by simpa using h1, ?_, by rw [← h3]; congr 1; omega, ?_⟩
      · intro j hj
        cases j with
        | zero => simpa using he
        | succ j => simpa using h2 j (by omega)
      · rw [getManifestIdLoop, if_neg he, h4]

/-- C5: for manifest id and href lists of equal length, a spine id and a base path: if some
manifest id equals the spine id, `_GetManifestId` returns `basePath + "/" + href[i]`, where
`i` is the first index whose id matches. -/
theorem getManifestId_first_match (idArray hrefArray : List String) (idRef filePath : String)
    (hlen : idArray.length = hrefArray.length) (hmem : idRef ∈ idArray) :
    ∃ (i : Nat) (h : String), idArray[i]? = some idRef ∧ (∀ j, j < i → idArray[j]? ≠ some idRef) ∧
      hrefArray[i]? = some h ∧
      _GetManifestId idArray hrefArray idRef filePath = some (filePath ++ "/" ++ h) := by
  obtain ⟨i, h, h1, h2, h3, h4⟩ :=
    getManifestIdLoop_mem hrefArray idRef filePath idArray 0 hmem (by omega)
  exact ⟨i, h, h1, h2, by simpa using h3, h4⟩

theorem getManifestId_first_match_witness :
    (fourChapterPackage.Id.length = fourChapterPackage.Href.length ∧
      "c3" ∈ fourChapterPackage.Id) ∧
    ∃ (i : Nat) (h : String), fourChapterPackage.Id[i]? = some "c3" ∧
      (∀ j, j < i → fourChapterPackage.Id[j]? ≠ some "c3") ∧
      fourChapterPackage.Href[i]? = some h ∧
      _GetManifestId fourChapterPackage.Id fourChapterPackage.Href "c3" "/uploads/book" =
        some ("/uploads/book" ++ "/" ++ h) :=
  ⟨by decide,
    getManifestId_first_match fourChapterPackage.Id fourChapterPackage.Href "c3" "/uploads/book"
      (by decide) (by decide)⟩

theorem getManifestId_eq_empty_iff (idArray hrefArray : List String) (idRef filePath : String)
    (hlen : idArray.length = hrefArray.length) :
    _GetManifestId idArray hrefArray idRef filePath = some "" ↔ idRef ∉ idArray := by
  constructor
  · intro hres hmem
    obtain ⟨i, h, _, _, _, h4⟩ :=
      getManifestIdLoop_mem hrefArray idRef filePath idArray 0 hmem (by omega)
    rw [_GetManifestId, h4] at hres
    exact string_path_ne_empty filePath h (Option.some.inj hres)
  · intro hmem
    exact getManifestIdLoop_not_mem hrefArray idRef filePath idArray 0 hmem

/-- C6: for manifest id and href lists of equal length, a lookup with `_GetManifestId`
returns the empty string exactly when the idref has no matching manifest id; and looking
up every spine idref gives a non-empty result for all of them if and only if every spine
idref occurs in the manifest id list. -/
theorem getManifestId_resolves_iff (idArray hrefArray spine : List String) (filePath : String)
    (hlen : idArray.length = hrefArray.length) :
    (∀ idRef, _GetManifestId idArray hrefArray idRef filePath = some "" ↔ idRef ∉ idArray) ∧
    ((∀ idRef ∈ spine, ∃ h, _GetManifestId idArray hrefArray idRef filePath = some h ∧ h ≠ "") ↔
      (∀ idRef ∈ spine, idRef ∈ idArray)) := by
  refine ⟨fun idRef => getManifestId_eq_empty_iff idArray hrefArray idRef filePath hlen, ?_⟩
  constructor
  · intro hall idRef hsp
    by_contra hnot
    obtain ⟨h, hres, hne⟩ := hall idRef hsp
    rw [(getManifestId_eq_empty_iff idArray hrefArray idRef filePath hlen).mpr hnot] at hres
    exact hne (Option.some.inj hres).symm
  · intro hall idRef hsp
    obtain ⟨i, h, _, _, _, h4⟩ :=
      getManifestIdLoop_mem hrefArray idRef filePath idArray 0 (hall idRef hsp) (by omega)
    exact ⟨_, h4, string_path_ne_empty filePath h⟩

theorem getManifestId_resolves_iff_witness :
    fourChapterPackage.Id.length = fourChapterPackage.Href.length ∧
    ((∀ idRef, _GetManifestId fourChapterPackage.Id fourChapterPackage.Href idRef "/uploads/book"
        = some "" ↔ idRef ∉ fourChapterPackage.Id) ∧
    ((∀ idRef ∈ fourChapterPackage.IdRef, ∃ h,
        _GetManifestId fourChapterPackage.Id fourChapterPackage.Href idRef "/uploads/book"
          = some h ∧ h ≠ "") ↔
      (∀ idRef ∈ fourChapterPackage.IdRef, idRef ∈ fourChapterPackage.Id))) :=
  ⟨by decide,
    getManifestId_resolves_iff fourChapterPackage.Id fourChapterPackage.Href
      fourChapterPackage.IdRef "/uploads/book" (by decide)⟩

theorem getManifestId_returns (idArray hrefArray : List String) (idRef filePath : String)
    (hlen : idArray.length = hrefArray.length) :
    ∃ h, _GetManifestId idArray hrefArray idRef filePath = some h := by
  by_cases hmem : idRef ∈ idArray
  · obtain ⟨i, h, _, _, _, h4⟩ :=
      getManifestIdLoop_mem hrefArray idRef filePath idArray 0 hmem (by omega)
    exact ⟨_, h4⟩
  · exact ⟨_, getManifestIdLoop_not_mem hrefArray idRef filePath idArray 0 hmem⟩

/-! ## Navigation -/

/-- C7: for a package with spine length `n` and a position `1 ≤ p ≤ n`,
`SendEPUBFragmentFromId` returns current page `p`, the href `_GetManifestId` resolves for
spine entry `p - 1`, `leftNone = (p == 1)` and `rightNone = (p == n)`. -/
theorem sendEPUBFragmentFromId_in_range (opf : OPFMetadataStruct) (packagePath : String)
    (p : Int) (cache : NavCache) (hwf : opf.Id.length = opf.Href.length)
    (h1 : 1 ≤ p) (h2 : p ≤ (opf.IdRef.length : Int)) (h64 : p < 2 ^ 63) :
    ∃ (spineId hrefPath : String), opf.IdRef[(p - 1).toNat]? = some spineId ∧
      _GetManifestId opf.Id opf.Href spineId packagePath = some hrefPath ∧
      (SendEPUBFragmentFromId opf packagePath p cache).2 =
        some { CurrentPage := p
               HrefPath := hrefPath
               LeftNone := decide (p = 1)
               RightNone := decide (p = (opf.IdRef.length : Int)) } := by
  have hidx : (p - 1).toNat < opf.IdRef.length := by omega
  obtain ⟨hrefPath, hres⟩ :=
    getManifestId_returns opf.Id opf.Href (opf.IdRef[(p - 1).toNat]) packagePath hwf
  refine ⟨opf.IdRef[(p - 1).toNat], hrefPath, by simp [hidx], hres, ?_⟩
  have hw1 : wrap64 (p - 1) = (((p - 1).toNat : Nat) : Int) := by
    rw [wrap64_eq_self] <;> omega
  have hw2 : wrap64 (p - 2) = p - 2 := by
    rw [wrap64_eq_self] <;> omega
  have hget : opf.IdRef[(p - 1).toNat]? = some (opf.IdRef[(p - 1).toNat]) := by simp [hidx]
  unfold SendEPUBFragmentFromId
  simp only [hw1, indexInt_natCast, hget, hres, hw2]
  congr 2
  · simp only [decide_eq_decide]; omega
  · simp only [decide_eq_decide]; omega

theorem sendEPUBFragmentFromId_in_range_witness :
    (1 ≤ (2 : Int) ∧ (2 : Int) ≤ (fourChapterPackage.IdRef.length : Int)) ∧
    ∃ (spineId hrefPath : String), fourChapterPackage.IdRef[((2 : Int) - 1).toNat]? = some spineId ∧
      _GetManifestId fourChapterPackage.Id fourChapterPackage.Href spineId "/uploads/book"
        = some hrefPath ∧
      (SendEPUBFragmentFromId fourChapterPackage "/uploads/book" 2 ingestCache).2 =
        some { CurrentPage := 2
               HrefPath := hrefPath
               LeftNone := decide ((2 : Int) = 1)
               RightNone := decide ((2 : Int) = (fourChapterPackage.IdRef.length : Int)) } :=
  ⟨by decide,
    sendEPUBFragmentFromId_in_range fourChapterPackage "/uploads/book" 2 ingestCache
      (by decide) (by decide) (by decide) (by decide)⟩

/-- Every position outside `1..n` makes `SendEPUBFragmentFromId` panic at
`idRef[gotoId-1]`, after the cache has been overwritten with the position. -/
theorem sendEPUBFragmentFromId_out_of_range (opf : OPFMetadataStruct) (packagePath : String)
    (p : Int) (cache : NavCache) (hmin : -2 ^ 63 ≤ p) (hmax : p < 2 ^ 63)
    (hn : (opf.IdRef.length : Int) < 2 ^ 63) (hout : p ≤ 0 ∨ (opf.IdRef.length : Int) < p) :
    SendEPUBFragmentFromId opf packagePath p cache =
      ({ current_page := p, current_fragment := wrap64 (p - 1) }, none) := by
  have hidx : indexInt opf.IdRef (wrap64 (p - 1)) = none := by
    by_cases hp : p = -2 ^ 63
    · have hw : wrap64 (p - 1) = ((2 ^ 63 - 1 : Nat) : Int) := by
        subst hp; unfold wrap64; omega
      rw [hw, indexInt_natCast]
      simp only [List.getElem?_eq_none_iff]
      omega
    · rw [wrap64_eq_self (by omega) (by omega)]
      rcases hout with h | h
      · exact indexInt_neg _ _ (by omega)
      · have hcast : p - 1 = (((p - 1).toNat : Nat) : Int) := by omega
        rw [hcast, indexInt_natCast]
        simp only [List.getElem?_eq_none_iff]
        omega
  unfold SendEPUBFragmentFromId
  simp only [hidx]

/-- What one run of the inner loop of `_GetEPUBFragment` can do: it leaves the cache alone
or stores a page within `1..n` together with the fragment index one below it; and a
result with a non-zero page carries the flags of that page. -/
theorem fragmentSpineLoop_spec (flowType packagePath : String) (href id idRef : List String)
    (currentId : String) (cache : NavCache) :
    ∀ (l : List String) (j : Nat), j + l.length = idRef.length →
      ((fragmentSpineLoop flowType packagePath href id idRef currentId cache l j).1 = cache ∨
        (1 ≤ (fragmentSpineLoop flowType packagePath href id idRef currentId cache l j).1.current_page ∧
         (fragmentSpineLoop flowType packagePath href id idRef currentId cache l j).1.current_page
            ≤ (idRef.length : Int) ∧
         (fragmentSpineLoop flowType packagePath href id idRef currentId cache l j).1.current_fragment
            = (fragmentSpineLoop flowType packagePath href id idRef currentId cache l j).1.current_page - 1)) ∧
      (∀ d, (fragmentSpineLoop flowType packagePath href id idRef currentId cache l j).2 = some d →
        d.CurrentPage ≠ 0 →
        d.LeftNone = decide (d.CurrentPage = 1) ∧
        d.RightNone = decide (d.CurrentPage = (idRef.length : Int))) := by
  intro l
  induction l with
  | nil =>
    intro j _
    refine ⟨Or.inl rfl, ?_⟩
    intro d hd hne
    simp only [fragmentSpineLoop, Option.some.injEq] at hd
    subst hd
    exact absurd rfl hne
  | cons f rest ih =>
    intro j hj
    rw [List.length_cons] at hj
    rw [fragmentSpineLoop]
    split_ifs with hf hnext
    · -- next
      cases hnx : idRef[j + 1]? with
      | none => simp
      | some nextIdRef =>
        have hj1 : j + 1 < idRef.length := by
          by_contra hcon
          rw [List.getElem?_eq_none (by omega)] at hnx
          cases hnx
        cases hm : _GetManifestId id href nextIdRef packagePath with
        | none =>
          simp only [hm]
          refine ⟨Or.inr ⟨by omega, by omega, by ring⟩, by simp⟩
        | some hrefPath =>
          simp only [hm]
          refine ⟨Or.inr ⟨by omega, by omega, by ring⟩, ?_⟩
          intro d hd _
          simp only [Option.some.injEq] at hd
          subst hd
          simp only [decide_eq_decide]
          constructor
          · simp; omega
          · constructor <;> intro h <;> omega
    · -- previous
      cases hpx : indexInt idRef ((j : Int) - 1) with
      | none => simp
      | some prevIdRef =>
        have hj1 : 1 ≤ j := by
          by_contra hcon
          rw [indexInt_neg _ _ (by omega)] at hpx
          cases hpx
        cases hm : _GetManifestId id href prevIdRef packagePath with
        | none =>
          simp only [hm]
          refine ⟨Or.inr ⟨by omega, by omega, by ring⟩, by simp⟩
        | some hrefPath =>
          simp only [hm]
          refine ⟨Or.inr ⟨by omega, by omega, by ring⟩, ?_⟩
          intro d hd _
          simp only [Option.some.injEq] at hd
          subst hd
          simp only [decide_eq_decide]
          constructor
          · constructor <;> intro h <;> omega
          · simp; omega
    · exact ih (j + 1) (by omega)

/-- The same for the outer loop of `_GetEPUBFragment`. -/
theorem fragmentManifestLoop_spec (flowType packagePath currentFragment : String)
    (href id idRef : List String) (cache : NavCache) :
    ∀ (l : List String) (i : Nat),
      ((fragmentManifestLoop flowType packagePath currentFragment href id idRef cache l i).1 = cache ∨
        (1 ≤ (fragmentManifestLoop flowType packagePath currentFragment href id idRef cache l i).1.current_page ∧
         (fragmentManifestLoop flowType packagePath currentFragment href id idRef cache l i).1.current_page
            ≤ (idRef.length : Int) ∧
         (fragmentManifestLoop flowType packagePath currentFragment href id idRef cache l i).1.current_fragment
            = (fragmentManifestLoop flowType packagePath currentFragment href id idRef cache l i).1.current_page - 1)) ∧
      (∀ d, (fragmentManifestLoop flowType packagePath currentFragment href id idRef cache l i).2 = some d →
        d.CurrentPage ≠ 0 →
        d.LeftNone = decide (d.CurrentPage = 1) ∧
        d.RightNone = decide (d.CurrentPage = (idRef.length : Int))) := by
  intro l
  induction l with
  | nil =>
    intro i
    refine ⟨Or.inl rfl, ?_⟩
    intro d hd hne
    simp only [fragmentManifestLoop, Option.some.injEq] at hd
    subst hd
    exact absurd rfl hne
  | cons el rest ih =>
    intro i
    rw [fragmentManifestLoop]
    split_ifs with hel
    · cases hid : id[i]? with
      | none => simp
      | some currentId =>
        exact fragmentSpineLoop_spec flowType packagePath href id idRef currentId cache idRef 0
          (by omega)
    · exact ih (i + 1)

/-- What `_GetEPUBFragment` can do: it leaves the cache alone or stores a page within
`1..n` together with the fragment index one below it; and a result with a non-zero page
carries the flags of that page. -/
theorem getEPUBFragment_spec (flowType packagePath currentFragment : String)
    (href id idRef : List String) (cache : NavCache) :
    ((_GetEPUBFragment flowType packagePath currentFragment href id idRef cache).1 = cache ∨
      (1 ≤ (_GetEPUBFragment flowType packagePath currentFragment href id idRef cache).1.current_page ∧
       (_GetEPUBFragment flowType packagePath currentFragment href id idRef cache).1.current_page
          ≤ (idRef.length : Int) ∧
       (_GetEPUBFragment flowType packagePath currentFragment href id idRef cache).1.current_fragment
          = (_GetEPUBFragment flowType packagePath currentFragment href id idRef cache).1.current_page - 1)) ∧
    (∀ d, (_GetEPUBFragment flowType packagePath currentFragment href id idRef cache).2 = some d →
      d.CurrentPage ≠ 0 →
      d.LeftNone = decide (d.CurrentPage = 1) ∧
      d.RightNone = decide (d.CurrentPage = (idRef.length : Int))) :=
  fragmentManifestLoop_spec flowType packagePath currentFragment href id idRef cache href 0

/-- A result of `SendEPUBFragmentFromId` reports the requested position, which then lies
within `1..n`, and its flags are those of that position. -/
theorem sendEPUBFragmentFromId_flags (opf : OPFMetadataStruct) (packagePath : String)
    (p : Int) (cache : NavCache) (hmin : -2 ^ 63 ≤ p) (hmax : p < 2 ^ 63)
    (hn : (opf.IdRef.length : Int) < 2 ^ 63) (d : HrefDataStruct)
    (hd : (SendEPUBFragmentFromId opf packagePath p cache).2 = some d) :
    d.CurrentPage = p ∧ 1 ≤ p ∧ p ≤ (opf.IdRef.length : Int) ∧
    d.LeftNone = decide (p = 1) ∧ d.RightNone = decide (p = (opf.IdRef.length : Int)) := by
  have hin : 1 ≤ p ∧ p ≤ (opf.IdRef.length : Int) := by
    by_contra hcon
    rw [sendEPUBFragmentFromId_out_of_range opf packagePath p cache hmin hmax hn (by omega)] at hd
    cases hd
  have hw2 : wrap64 (p - 2) = p - 2 := by
    rw [wrap64_eq_self] <;> omega
  unfold SendEPUBFragmentFromId at hd
  cases hidx : indexInt opf.IdRef (wrap64 (p - 1)) with
  | none => simp [hidx] at hd
  | some spineId =>
    cases hm : _GetManifestId opf.Id opf.Href spineId packagePath with
    | none => simp [hidx, hm] at hd
    | some hrefPath =>
      simp only [hidx, hm, hw2, Option.some.injEq] at hd
      subst hd
      refine ⟨rfl, hin.1, hin.2, ?_, ?_⟩
      · simp only [decide_eq_decide]; omega
      · simp only [decide_eq_decide]; omega

/-- The stored page stays within `1..n` under every request other than a
`SendEPUBFragmentFromId` with a position outside `1..n`. -/
theorem handleRequest_page_range (opf : OPFMetadataStruct) (packagePath : String)
    (cache : NavCache) (r : NavRequest)
    (hinv : 1 ≤ cache.current_page ∧ cache.current_page ≤ (opf.IdRef.length : Int))
    (hr : ∀ g, r = NavRequest.resolveById g → 1 ≤ g ∧ g ≤ (opf.IdRef.length : Int)) :
    1 ≤ (handleRequest opf packagePath cache r).current_page ∧
    (handleRequest opf packagePath cache r).current_page ≤ (opf.IdRef.length : Int) := by
  cases r with
  | resolveById g =>
    have hg := hr g rfl
    show 1 ≤ (SendEPUBFragmentFromId opf packagePath g cache).1.current_page ∧
      (SendEPUBFragmentFromId opf packagePath g cache).1.current_page ≤ (opf.IdRef.length : Int)
    unfold SendEPUBFragmentFromId
    cases hidx : indexInt opf.IdRef (wrap64 (g - 1)) with
    | none => simpa [hidx] using hg
    | some spineId =>
      cases hm : _GetManifestId opf.Id opf.Href spineId packagePath with
      | none => simpa [hidx, hm] using hg
      | some hrefPath => simpa [hidx, hm] using hg
  | step flowType currentFragment =>
    show 1 ≤ (_GetEPUBFragment flowType packagePath currentFragment opf.Href opf.Id opf.IdRef
        cache).1.current_page ∧
      (_GetEPUBFragment flowType packagePath currentFragment opf.Href opf.Id opf.IdRef
        cache).1.current_page ≤ (opf.IdRef.length : Int)
    rcases (getEPUBFragment_spec flowType packagePath currentFragment opf.Href opf.Id opf.IdRef
      cache).1 with h | h
    · rw [h]; exact hinv
    · exact ⟨h.1, h.2.1⟩
  | resolveCurrentPage _ => exact hinv

/-- C8 (what the code does): on a four-entry spine the positions 0 and 5 make
`SendEPUBFragmentFromId` panic at `idRef[gotoId-1]`; no result, and so no empty href, is
returned. -/
theorem sendEPUBFragmentFromId_out_of_range_fails :
    (SendEPUBFragmentFromId fourChapterPackage "/uploads/book" 0 ingestCache).2 = none ∧
    (SendEPUBFragmentFromId fourChapterPackage "/uploads/book" 5 ingestCache).2 = none := by
  decide

/-- C9 (what the code does): starting from the ingestion state of a four-entry spine, one
`SendEPUBFragmentFromId` request with position 0 (respectively 7) leaves the stored
current page at 0 (respectively 7), outside `1..4`. -/
theorem resolveById_stores_out_of_range_page :
    (handleRequests fourChapterPackage "/uploads/book" ingestCache
      [NavRequest.resolveById 0]).current_page = 0 ∧
    (handleRequests fourChapterPackage "/uploads/book" ingestCache
      [NavRequest.resolveById 7]).current_page = 7 := by
  decide

/-- C10 (what the code does): for a spine that references the same manifest item at
positions 1 and 3, `GetEPUBCurrentPage` reports page 3 of 3 with `leftNone = true`: the
flag set while the loop passed position 1 is kept. -/
theorem getEPUBCurrentPage_stale_flags :
    GetEPUBCurrentPage repeatedSpinePackage "ch1.xhtml" =
      some { CurrentPage := 3, LeftNone := true, RightNone := true } := by
  decide

/-! ## Step: the two loops of `_GetEPUBFragment` -/

theorem fragmentSpineLoop_not_mem (flowType packagePath : String) (href id idRef : List String)
    (currentId : String) (cache : NavCache) :
    ∀ (l : List String) (j : Nat), currentId ∉ l →
      fragmentSpineLoop flowType packagePath href id idRef currentId cache l j =
        (cache, some { CurrentPage := 0, HrefPath := "", LeftNone := false, RightNone := false }) := by
  intro l
  induction l with
  | nil => intro j _; rfl
  | cons f rest ih =>
    intro j hmem
    rw [fragmentSpineLoop, if_neg (fun h => hmem (by simp [h])),
      ih (j + 1) (fun h => hmem (List.mem_cons_of_mem _ h))]

/-- The inner loop passes over the entries before the first match. -/
theorem fragmentSpineLoop_skip (flowType packagePath : String) (href id idRef : List String)
    (currentId : String) (cache : NavCache) :
    ∀ (k : Nat) (l : List String) (j : Nat), (∀ m, m < k → l[m]? ≠ some currentId) →
      fragmentSpineLoop flowType packagePath href id idRef currentId cache l j =
        fragmentSpineLoop flowType packagePath href id idRef currentId cache (l.drop k) (j + k) := by
  intro k
  induction k with
  | zero => intro l j _; simp
  | succ k ih =>
    intro l j hno
    cases l with
    | nil => simp [fragmentSpineLoop]
    | cons f rest =>
      have hf : f ≠ currentId := by simpa using hno 0 (by omega)
      rw [fragmentSpineLoop, if_neg hf, ih rest (j + 1) (fun m hm => by simpa using hno (m + 1) (by omega))]
      simp only [List.drop_succ_cons]
      congr 1
      omega

theorem fragmentManifestLoop_not_mem (flowType packagePath currentFragment : String)
    (href id idRef : List String) (cache : NavCache) :
    ∀ (l : List String) (i : Nat), currentFragment ∉ l →
      fragmentManifestLoop flowType packagePath currentFragment href id idRef cache l i =
        (cache, some { CurrentPage := 0, HrefPath := "", LeftNone := false, RightNone := false }) := by
  intro l
  induction l with
  | nil => intro i _; rfl
  | cons el rest ih =>
    intro i hmem
    rw [fragmentManifestLoop, if_neg (fun h => hmem (by simp [h])),
      ih (i + 1) (fun h => hmem (List.mem_cons_of_mem _ h))]

/-- The outer loop passes over the entries before the first match. -/
theorem fragmentManifestLoop_skip (flowType packagePath currentFragment : String)
    (href id idRef : List String) (cache : NavCache) :
    ∀ (k : Nat) (l : List String) (i : Nat), (∀ m, m < k → l[m]? ≠ some currentFragment) →
      fragmentManifestLoop flowType packagePath currentFragment href id idRef cache l i =
        fragmentManifestLoop flowType packagePath currentFragment href id idRef cache
          (l.drop k) (i + k) := by
  intro k
  induction k with
  | zero => intro l i _; simp
  | succ k ih =>
    intro l i hno
    cases l with
    | nil => simp [fragmentManifestLoop]
    | cons el rest =>
      have hel : el ≠ currentFragment := by simpa using hno 0 (by omega)
      rw [fragmentManifestLoop, if_neg hel,
        ih rest (i + 1) (fun m hm => by simpa using hno (m + 1) (by omega))]
      simp only [List.drop_succ_cons]
      congr 1
      omega

/-- `_GetEPUBFragment` up to the point where both loops have found their first match: what
remains is the inner loop standing at spine index `j`. -/
theorem getEPUBFragment_at_match (flowType packagePath h : String) (href id idRef : List String)
    (cache : NavCache) (i j : Nat) (cid : String)
    (hi : href[i]? = some h) (hfirst : ∀ k, k < i → href[k]? ≠ some h)
    (hid : id[i]? = some cid)
    (hjfirst : ∀ k, k < j → idRef[k]? ≠ some cid) :
    _GetEPUBFragment flowType packagePath h href id idRef cache =
      fragmentSpineLoop flowType packagePath href id idRef cid cache (idRef.drop j) j := by
  have hilt : i < href.length := by
    by_contra hcon
    rw [List.getElem?_eq_none (by omega)] at hi
    cases hi
  have hget : href[i] = h := by
    rw [List.getElem?_eq_getElem hilt] at hi
    exact Option.some.inj hi
  unfold _GetEPUBFragment
  rw [fragmentManifestLoop_skip flowType packagePath h href id idRef cache i href 0 hfirst,
    List.drop_eq_getElem_cons hilt, fragmentManifestLoop, if_pos hget]
  simp only [Nat.zero_add, hid]
  rw [fragmentSpineLoop_skip flowType packagePath href id idRef cid cache j idRef 0 hjfirst]
  simp

/-- C11: for a package (manifest id and href lists of equal length) and a fragment href `h`
whose manifest item (the first with that href) has an id first found at spine index `j`:
`Step(h, next)` with `j + 1 < n` returns page `j + 2` and the href `_GetManifestId` resolves
for spine entry `j + 1`; `Step(h, previous)` with `j ≥ 1` returns page `j` and the href
resolved for spine entry `j - 1`. -/
theorem getEPUBFragment_step (packagePath h : String) (href id idRef : List String)
    (cache : NavCache) (i j : Nat) (cid : String) (hwf : id.length = href.length)
    (hi : href[i]? = some h) (hfirst : ∀ k, k < i → href[k]? ≠ some h)
    (hid : id[i]? = some cid)
    (hj : idRef[j]? = some cid) (hjfirst : ∀ k, k < j → idRef[k]? ≠ some cid) :
    (∀ nextIdRef, idRef[j + 1]? = some nextIdRef →
      ∃ hrefPath, _GetManifestId id href nextIdRef packagePath = some hrefPath ∧
        _GetEPUBFragment "next" packagePath h href id idRef cache =
          ({ current_page := (j : Int) + 2, current_fragment := (j : Int) + 1 },
           some { CurrentPage := (j : Int) + 2
                  HrefPath := hrefPath
                  LeftNone := false
                  RightNone := decide (idRef.length ≤ j + 2) })) ∧
    (∀ prevIdRef, 1 ≤ j → idRef[j - 1]? = some prevIdRef →
      ∃ hrefPath, _GetManifestId id href prevIdRef packagePath = some hrefPath ∧
        _GetEPUBFragment "previous" packagePath h href id idRef cache =
          ({ current_page := (j : Int), current_fragment := (j : Int) - 1 },
           some { CurrentPage := (j : Int)
                  HrefPath := hrefPath
                  LeftNone := decide ((j : Int) - 2 < 0)
                  RightNone := false })) := by
  have hjlt : j < idRef.length := by
    by_contra hcon
    rw [List.getElem?_eq_none (by omega)] at hj
    cases hj
  have hgetj : idRef[j] = cid := by
    rw [List.getElem?_eq_getElem hjlt] at hj
    exact Option.some.inj hj
  constructor
  · intro nextIdRef hnext
    obtain ⟨hrefPath, hres⟩ := getManifestId_returns id href nextIdRef packagePath hwf
    refine ⟨hrefPath, hres, ?_⟩
    rw [getEPUBFragment_at_match "next" packagePath h href id idRef cache i j cid hi hfirst hid
      hjfirst, List.drop_eq_getElem_cons hjlt, fragmentSpineLoop, if_pos hgetj, if_pos rfl]
    simp only [hnext, hres]
    have : ((j : Int) + 1) + 1 = (j : Int) + 2 := by ring
    rw [this]
  · intro prevIdRef hj1 hprev
    obtain ⟨hrefPath, hres⟩ := getManifestId_returns id href prevIdRef packagePath hwf
    refine ⟨hrefPath, hres, ?_⟩
    have hidx : indexInt idRef ((j : Int) - 1) = some prevIdRef := by
      have : (j : Int) - 1 = ((j - 1 : Nat) : Int) := by omega
      rw [this, indexInt_natCast, hprev]
    rw [getEPUBFragment_at_match "previous" packagePath h href id idRef cache i j cid hi hfirst
      hid hjfirst, List.drop_eq_getElem_cons hjlt, fragmentSpineLoop, if_pos hgetj,
      if_neg (by decide)]
    simp only [hidx, hres]
    have : ((j : Int) + 1) - 1 = (j : Int) := by ring
    rw [this]

theorem getEPUBFragment_step_witness :
    (fourChapterPackage.Id.length = fourChapterPackage.Href.length ∧
      fourChapterPackage.Href[1]? = some "c2.xhtml" ∧ fourChapterPackage.Id[1]? = some "c2" ∧
      fourChapterPackage.IdRef[1]? = some "c2") ∧
    ((∀ nextIdRef, fourChapterPackage.IdRef[1 + 1]? = some nextIdRef →
      ∃ hrefPath, _GetManifestId fourChapterPackage.Id fourChapterPackage.Href nextIdRef
          "/uploads/book" = some hrefPath ∧
        _GetEPUBFragment "next" "/uploads/book" "c2.xhtml" fourChapterPackage.Href
            fourChapterPackage.Id fourChapterPackage.IdRef ingestCache =
          ({ current_page := ((1 : Nat) : Int) + 2, current_fragment := ((1 : Nat) : Int) + 1 },
           some { CurrentPage := ((1 : Nat) : Int) + 2
                  HrefPath := hrefPath
                  LeftNone := false
                  RightNone := decide (fourChapterPackage.IdRef.length ≤ 1 + 2) })) ∧
    (∀ prevIdRef, 1 ≤ 1 → fourChapterPackage.IdRef[1 - 1]? = some prevIdRef →
      ∃ hrefPath, _GetManifestId fourChapterPackage.Id fourChapterPackage.Href prevIdRef
          "/uploads/book" = some hrefPath ∧
        _GetEPUBFragment "previous" "/uploads/book" "c2.xhtml" fourChapterPackage.Href
            fourChapterPackage.Id fourChapterPackage.IdRef ingestCache =
          ({ current_page := ((1 : Nat) : Int), current_fragment := ((1 : Nat) : Int) - 1 },
           some { CurrentPage := ((1 : Nat) : Int)
                  HrefPath := hrefPath
                  LeftNone := decide (((1 : Nat) : Int) - 2 < 0)
                  RightNone := false }))) :=
  ⟨by decide,
    getEPUBFragment_step "/uploads/book" "c2.xhtml" fourChapterPackage.Href fourChapterPackage.Id
      fourChapterPackage.IdRef ingestCache 1 1 "c2" (by decide) (by decide) (by decide) (by decide)
      (by decide) (by decide)⟩

/-- At the two ends of the spine `_GetEPUBFragment` panics before it writes anything:
`next` from the last spine index reads `idRef[n]`, `previous` from spine index 0 reads
`idRef[-1]`. -/
theorem getEPUBFragment_boundary_panics (packagePath h : String) (href id idRef : List String)
    (cache : NavCache) (i j : Nat) (cid : String)
    (hi : href[i]? = some h) (hfirst : ∀ k, k < i → href[k]? ≠ some h)
    (hid : id[i]? = some cid)
    (hj : idRef[j]? = some cid) (hjfirst : ∀ k, k < j → idRef[k]? ≠ some cid) :
    (j + 1 = idRef.length →
      _GetEPUBFragment "next" packagePath h href id idRef cache = (cache, none)) ∧
    (j = 0 → _GetEPUBFragment "previous" packagePath h href id idRef cache = (cache, none)) := by
  have hjlt : j < idRef.length := by
    by_contra hcon
    rw [List.getElem?_eq_none (by omega)] at hj
    cases hj
  have hgetj : idRef[j] = cid := by
    rw [List.getElem?_eq_getElem hjlt] at hj
    exact Option.some.inj hj
  constructor
  · intro hlast
    rw [getEPUBFragment_at_match "next" packagePath h href id idRef cache i j cid hi hfirst hid
      hjfirst, List.drop_eq_getElem_cons hjlt, fragmentSpineLoop, if_pos hgetj, if_pos rfl,
      List.getElem?_eq_none (by omega)]
  · intro h0
    rw [getEPUBFragment_at_match "previous" packagePath h href id idRef cache i j cid hi hfirst
      hid hjfirst, List.drop_eq_getElem_cons hjlt, fragmentSpineLoop, if_pos hgetj,
      if_neg (by decide), indexInt_neg _ _ (by omega)]

/-- C12 (what the code does): on a four-entry spine, `Step(previous)` from the fragment of
spine index 0 and `Step(next)` from the fragment of spine index 3 both panic (at
`idRef[j-1]` and `idRef[j+1]`); no result, and so no boundary flag, is returned. -/
theorem getEPUBFragment_boundary_fails :
    _GetEPUBFragment "previous" "/uploads/book" "c1.xhtml" fourChapterPackage.Href
      fourChapterPackage.Id fourChapterPackage.IdRef ingestCache = (ingestCache, none) ∧
    _GetEPUBFragment "next" "/uploads/book" "c4.xhtml" fourChapterPackage.Href
      fourChapterPackage.Id fourChapterPackage.IdRef ingestCache = (ingestCache, none) := by
  decide

theorem currentPageSpineLoop_not_mem (idRefLen : Nat) (currentId : String) :
    ∀ (l : List String) (j : Nat) (acc : CurrentPageDataStruct), currentId ∉ l →
      currentPageSpineLoop idRefLen currentId l j acc = acc := by
  intro l
  induction l with
  | nil => intro j acc _; rfl
  | cons f rest ih =>
    intro j acc hmem
    rw [currentPageSpineLoop, if_neg (fun h => hmem (by simp [h])),
      ih (j + 1) acc (fun h => hmem (List.mem_cons_of_mem _ h))]

/-- With a single match, at position `k` of the remaining entries, the inner loop reports
the page of that position. -/
theorem currentPageSpineLoop_unique (idRefLen : Nat) (currentId : String) :
    ∀ (l : List String) (j k : Nat) (acc : CurrentPageDataStruct),
      l[k]? = some currentId → (∀ m, m ≠ k → l[m]? ≠ some currentId) →
      currentPageSpineLoop idRefLen currentId l j acc =
        { CurrentPage := ((j + k : Nat) : Int) + 1
          LeftNone := if ((j + k : Nat) : Int) + 1 - 1 ≤ 0 then true else acc.LeftNone
          RightNone := if (idRefLen : Int) ≤ ((j + k : Nat) : Int) + 1 then true
            else acc.RightNone } := by
  intro l
  induction l with
  | nil => intro j k acc hk; simp at hk
  | cons f rest ih =>
    intro j k acc hk hno
    cases k with
    | zero =>
      have hf : f = currentId := by simpa using hk
      have hrest : currentId ∉ rest := by
        intro hmem
        obtain ⟨m, hm, hget⟩ := List.getElem_of_mem hmem
        have := hno (m + 1) (by omega)
        simp [hm, hget] at this
      rw [currentPageSpineLoop, if_pos hf, currentPageSpineLoop_not_mem _ _ _ _ _ hrest]
      simp
    | succ k =>
      have hf : f ≠ currentId := by simpa using hno 0 (by omega)
      rw [currentPageSpineLoop, if_neg hf,
        ih (j + 1) k acc (by simpa using hk)
          (fun m hm => by simpa using hno (m + 1) (by omega))]
      have : j + 1 + k = j + (k + 1) := by omega
      rw [this]

theorem currentPageManifestLoop_not_mem (id idRef : List String) (currentFragment : String) :
    ∀ (l : List String) (i : Nat) (acc : CurrentPageDataStruct), currentFragment ∉ l →
      currentPageManifestLoop id idRef currentFragment l i acc = some acc := by
  intro l
  induction l with
  | nil => intro i acc _; rfl
  | cons el rest ih =>
    intro i acc hmem
    rw [currentPageManifestLoop, if_neg (fun h => hmem (by simp [h])),
      ih (i + 1) acc (fun h => hmem (List.mem_cons_of_mem _ h))]

/-- When no manifest item with the requested href has an id in the spine, the outer loop
returns what it started with. -/
theorem currentPageManifestLoop_miss (id idRef : List String) (currentFragment : String) :
    ∀ (l : List String) (i : Nat) (acc : CurrentPageDataStruct),
      i + l.length ≤ id.length →
      (∀ (k : Nat) (cid : String), l[k]? = some currentFragment → id[i + k]? = some cid →
        cid ∉ idRef) →
      currentPageManifestLoop id idRef currentFragment l i acc = some acc := by
  intro l
  induction l with
  | nil => intro i acc _ _; rfl
  | cons el rest ih =>
    intro i acc hlen hmiss
    rw [List.length_cons] at hlen
    have hrec := ih (i + 1) acc (by omega) (fun k cid hk hid =>
      hmiss (k + 1) cid (by simpa using hk) (by rw [← hid]; congr 1; omega))
    rw [currentPageManifestLoop]
    split_ifs with hel
    · have hilt : i < id.length := by omega
      have hnot := hmiss 0 id[i] (by simp [hel]) (by simp [hilt])
      simp only [List.getElem?_eq_getElem hilt]
      rw [currentPageSpineLoop_not_mem _ _ _ _ _ hnot]
      exact hrec
    · exact hrec

/-- With a single manifest item of the requested href, at position `k` of the remaining
entries, the outer loop runs the inner loop once, for the id of that item. -/
theorem currentPageManifestLoop_unique (id idRef : List String) (currentFragment : String) :
    ∀ (l : List String) (i k : Nat) (acc : CurrentPageDataStruct) (cid : String),
      l[k]? = some currentFragment → (∀ m, m ≠ k → l[m]? ≠ some currentFragment) →
      id[i + k]? = some cid →
      currentPageManifestLoop id idRef currentFragment l i acc =
        some (currentPageSpineLoop idRef.length cid idRef 0 acc) := by
  intro l
  induction l with
  | nil => intro i k acc cid hk; simp at hk
  | cons el rest ih =>
    intro i k acc cid hk hno hid
    cases k with
    | zero =>
      have hel : el = currentFragment := by simpa using hk
      have hrest : currentFragment ∉ rest := by
        intro hmem
        obtain ⟨m, hm, hget⟩ := List.getElem_of_mem hmem
        have := hno (m + 1) (by omega)
        simp [hm, hget] at this
      rw [currentPageManifestLoop, if_pos hel]
      simp only [Nat.add_zero] at hid
      simp only [hid]
      exact currentPageManifestLoop_not_mem id idRef currentFragment rest (i + 1) _ hrest
    | succ k =>
      have hel : el ≠ currentFragment := by simpa using hno 0 (by omega)
      rw [currentPageManifestLoop, if_neg hel]
      exact ih (i + 1) k acc cid (by simpa using hk)
        (fun m hm => by simpa using hno (m + 1) (by omega))
        (by rw [← hid]; congr 1; omega)

theorem exists_first_index (x : String) :
    ∀ (l : List String), x ∈ l → ∃ (i : Nat), l[i]? = some x ∧ ∀ k, k < i → l[k]? ≠ some x := by
  intro l
  induction l with
  | nil => intro h; simp at h
  | cons e rest ih =>
    intro hmem
    by_cases he : e = x
    · exact ⟨0, by simp [he], by intro k hk; omega⟩
    · have hmem2 : x ∈ rest := by
        rcases List.mem_cons.mp hmem with h | h
        · exact absurd h.symm he
        · exact h
      obtain ⟨i, h1, h2⟩ := ih hmem2
      refine ⟨i + 1, by simpa using h1, ?_⟩
      intro k hk
      cases k with
      | zero => simpa using he
      | succ k => simpa using h2 k (by omega)

theorem getElem?_ne_of_not_mem (x : String) (l : List String) (hx : x ∉ l) (k : Nat) :
    l[k]? ≠ some x := by
  intro hk
  exact hx (List.getElem?_mem hk)

theorem nodup_getElem?_unique (l : List String) (hl : l.Nodup) (x : String) (i : Nat)
    (hi : l[i]? = some x) : ∀ m, m ≠ i → l[m]? ≠ some x := by
  intro m hm hget
  have hilt : i < l.length := by
    by_contra hcon
    rw [List.getElem?_eq_none (by omega)] at hi
    cases hi
  have hmlt : m < l.length := by
    by_contra hcon
    rw [List.getElem?_eq_none (by omega)] at hget
    cases hget
  rw [List.getElem?_eq_getElem hilt] at hi
  rw [List.getElem?_eq_getElem hmlt] at hget
  have heq : l[m] = l[i] := by
    rw [Option.some.inj hi, Option.some.inj hget]
  exact hm ((List.Nodup.getElem_inj_iff hl).mp heq)

/-- C14: for a package (manifest id and href lists of equal length) and a fragment href that
is not a manifest href, or whose manifest items all have ids that do not occur in the
spine, Step returns the zero-valued result and leaves the cache unchanged, and
Resolve-current-page returns page 0 with both flags false. -/
theorem lookup_miss_zero_result (flowType packagePath h : String) (opf : OPFMetadataStruct)
    (cache : NavCache) (hwf : opf.Id.length = opf.Href.length)
    (hmiss : ∀ (i : Nat) (cid : String), opf.Href[i]? = some h → opf.Id[i]? = some cid →
      cid ∉ opf.IdRef) :
    _GetEPUBFragment flowType packagePath h opf.Href opf.Id opf.IdRef cache =
      (cache, some { CurrentPage := 0, HrefPath := "", LeftNone := false, RightNone := false }) ∧
    GetEPUBCurrentPage opf h =
      some { CurrentPage := 0, LeftNone := false, RightNone := false } := by
  constructor
  · by_cases hmem : h ∈ opf.Href
    · obtain ⟨i, hi, hfirst⟩ := exists_first_index h opf.Href hmem
      have hilt : i < opf.Href.length := by
        by_contra hcon
        rw [List.getElem?_eq_none (by omega)] at hi
        cases hi
      have hid : opf.Id[i]? = some (opf.Id[i]) := List.getElem?_eq_getElem (by omega)
      have hnot := hmiss i _ hi hid
      rw [getEPUBFragment_at_match flowType packagePath h opf.Href opf.Id opf.IdRef cache i
        opf.IdRef.length _ hi hfirst hid (fun k _ => getElem?_ne_of_not_mem _ _ hnot k)]
      simp [fragmentSpineLoop]
    · exact fragmentManifestLoop_not_mem flowType packagePath h opf.Href opf.Id opf.IdRef cache
        opf.Href 0 hmem
  · unfold GetEPUBCurrentPage
    exact currentPageManifestLoop_miss opf.Id opf.IdRef h opf.Href 0 _ (by omega)
      (fun k cid hk hid => hmiss k cid hk (by simpa using hid))

theorem lookup_miss_zero_result_witness :
    (fourChapterPackage.Id.length = fourChapterPackage.Href.length ∧
      ∀ (i : Nat) (cid : String), fourChapterPackage.Href[i]? = some "notes.xhtml" →
        fourChapterPackage.Id[i]? = some cid → cid ∉ fourChapterPackage.IdRef) ∧
    (_GetEPUBFragment "next" "/uploads/book" "notes.xhtml" fourChapterPackage.Href
        fourChapterPackage.Id fourChapterPackage.IdRef ingestCache =
      (ingestCache,
        some { CurrentPage := 0, HrefPath := "", LeftNone := false, RightNone := false }) ∧
    GetEPUBCurrentPage fourChapterPackage "notes.xhtml" =
      some { CurrentPage := 0, LeftNone := false, RightNone := false }) :=
  have hmiss : ∀ (i : Nat) (cid : String), fourChapterPackage.Href[i]? = some "notes.xhtml" →
      fourChapterPackage.Id[i]? = some cid → cid ∉ fourChapterPackage.IdRef := by
    intro i cid hi
    exact absurd (List.getElem?_mem hi) (by decide)
  ⟨⟨by decide, hmiss⟩,
    lookup_miss_zero_result "next" "/uploads/book" "notes.xhtml" fourChapterPackage ingestCache
      (by decide) hmiss⟩

theorem string_append_left_cancel (a b c : String) (h : a ++ b = a ++ c) : b = c := by
  have hd := congrArg String.data h
  simp only [String.data_append] at hd
  exact String.ext (List.append_cancel_left hd)

/-- `SendEPUBFragmentFromId` for a position within `1..n`, given the spine entry and what
`_GetManifestId` resolves for it. -/
theorem sendEPUBFragmentFromId_eq (opf : OPFMetadataStruct) (packagePath : String)
    (p : Int) (cache : NavCache) (spineId hrefPath : String)
    (h1 : 1 ≤ p) (h2 : p ≤ (opf.IdRef.length : Int)) (h64 : p < 2 ^ 63)
    (hspine : opf.IdRef[(p - 1).toNat]? = some spineId)
    (hres : _GetManifestId opf.Id opf.Href spineId packagePath = some hrefPath) :
    SendEPUBFragmentFromId opf packagePath p cache =
      ({ current_page := p, current_fragment := p - 1 },
       some { CurrentPage := p
              HrefPath := hrefPath
              LeftNone := decide (p = 1)
              RightNone := decide (p = (opf.IdRef.length : Int)) }) := by
  have hw1 : wrap64 (p - 1) = p - 1 := by
    rw [wrap64_eq_self] <;> omega
  have hw2 : wrap64 (p - 2) = p - 2 := by
    rw [wrap64_eq_self] <;> omega
  have hcast : p - 1 = (((p - 1).toNat : Nat) : Int) := by omega
  have hidx : indexInt opf.IdRef (p - 1) = some spineId := by
    rw [hcast, indexInt_natCast, hspine]
  unfold SendEPUBFragmentFromId
  simp only [hw1, hidx, hres, hw2]
  congr 3
  · simp only [decide_eq_decide]; omega
  · simp only [decide_eq_decide]; omega

/-- C15 (amended): for a package (manifest id and href lists of equal length) whose manifest
hrefs are pairwise distinct, whose spine idrefs are pairwise distinct and all occur among
the manifest ids, and every `p` with `1 ≤ p ≤ n`: Resolve-by-id(`p`) returns
`packagePath + "/" + h` for a manifest href `h`, and Resolve-current-page with that href,
taken relative to the base path, reports page `p` (with the flags of page `p`). -/
theorem resolve_round_trip (opf : OPFMetadataStruct) (packagePath : String) (p : Int)
    (cache : NavCache) (hwf : opf.Id.length = opf.Href.length) (hhref : opf.Href.Nodup)
    (hspine : opf.IdRef.Nodup) (hsub : ∀ r ∈ opf.IdRef, r ∈ opf.Id)
    (h1 : 1 ≤ p) (h2 : p ≤ (opf.IdRef.length : Int)) (h64 : p < 2 ^ 63) :
    ∃ h, (SendEPUBFragmentFromId opf packagePath p cache).2 =
        some { CurrentPage := p
               HrefPath := packagePath ++ "/" ++ h
               LeftNone := decide (p = 1)
               RightNone := decide (p = (opf.IdRef.length : Int)) } ∧
      ∀ h', packagePath ++ "/" ++ h' = packagePath ++ "/" ++ h →
        GetEPUBCurrentPage opf h' =
          some { CurrentPage := p
                 LeftNone := decide (p = 1)
                 RightNone := decide (p = (opf.IdRef.length : Int)) } := by
  have hplt : (p - 1).toNat < opf.IdRef.length := by omega
  obtain ⟨s, hsp⟩ : ∃ s, opf.IdRef[(p - 1).toNat]? = some s :=
    ⟨_, List.getElem?_eq_getElem hplt⟩
  obtain ⟨i, h, hidi, _, hhrefi, hres⟩ :=
    getManifestIdLoop_mem opf.Href s packagePath opf.Id 0
      (hsub _ (List.getElem?_mem hsp)) (by omega)
  rw [Nat.zero_add] at hhrefi
  refine ⟨h, ?_, ?_⟩
  · rw [sendEPUBFragmentFromId_eq opf packagePath p cache _ _ h1 h2 h64 hsp hres]
  · intro h' hEq
    have hh : h' = h :=
      string_append_left_cancel (packagePath ++ "/") h' h (by simpa using hEq)
    subst hh
    unfold GetEPUBCurrentPage
    rw [currentPageManifestLoop_unique opf.Id opf.IdRef h' opf.Href 0 i _ s hhrefi
      (nodup_getElem?_unique opf.Href hhref h' i hhrefi) (by rw [Nat.zero_add]; exact hidi),
      currentPageSpineLoop_unique opf.IdRef.length s opf.IdRef 0 (p - 1).toNat _ hsp
        (nodup_getElem?_unique opf.IdRef hspine _ _ hsp)]
    simp only [Nat.zero_add, Bool.false_eq_true, Option.some.injEq]
    have hc : (((p - 1).toNat : Nat) : Int) + 1 = p := by omega
    rw [hc]
    congr 1
    · by_cases hp1 : p = 1
      · simp [hp1]
      · have : ¬ (p - 1 ≤ 0) := by omega
        simp [hp1, this]
    · by_cases hpn : p = (opf.IdRef.length : Int)
      · simp [hpn]
      · have : ¬ ((opf.IdRef.length : Int) ≤ p) := by omega
        simp [hpn, this]

theorem resolve_round_trip_witness :
    (fourChapterPackage.Id.length = fourChapterPackage.Href.length ∧
      fourChapterPackage.Href.Nodup ∧ fourChapterPackage.IdRef.Nodup ∧
      (∀ r ∈ fourChapterPackage.IdRef, r ∈ fourChapterPackage.Id) ∧
      (1 : Int) ≤ 3 ∧ (3 : Int) ≤ (fourChapterPackage.IdRef.length : Int)) ∧
    ∃ h, (SendEPUBFragmentFromId fourChapterPackage "/uploads/book" 3 ingestCache).2 =
        some { CurrentPage := 3
               HrefPath := "/uploads/book" ++ "/" ++ h
               LeftNone := decide ((3 : Int) = 1)
               RightNone := decide ((3 : Int) = (fourChapterPackage.IdRef.length : Int)) } ∧
      ∀ h', "/uploads/book" ++ "/" ++ h' = "/uploads/book" ++ "/" ++ h →
        GetEPUBCurrentPage fourChapterPackage h' =
          some { CurrentPage := 3
                 LeftNone := decide ((3 : Int) = 1)
                 RightNone := decide ((3 : Int) = (fourChapterPackage.IdRef.length : Int)) } :=
  ⟨by decide,
    resolve_round_trip fourChapterPackage "/uploads/book" 3 ingestCache (by decide) (by decide)
      (by decide) (by decide) (by decide) (by decide) (by decide)⟩

/-- C15 (counterexample): in a package whose spine references the manifest item `ch1` at
positions 1 and 3, Resolve-by-id(1) returns the href of `ch1.xhtml`, and
Resolve-current-page with `ch1.xhtml` reports page 3, not page 1. -/
theorem resolve_round_trip_repeated_spine :
    (SendEPUBFragmentFromId repeatedSpinePackage "/uploads/book" 1 ingestCache).2 =
      some { CurrentPage := 1, HrefPath := "/uploads/book/ch1.xhtml", LeftNone := true,
             RightNone := false } ∧
    (GetEPUBCurrentPage repeatedSpinePackage "ch1.xhtml").map (fun r => r.CurrentPage) = some 3 := by
  decide

/-! ## Go strings -/

/-- Splitting at the spaces and joining with underscores replaces every space by an
underscore. -/
theorem joinSplitSpace_eq_map (s : List Char) :
    joinSplitSpace s = s.map (fun c => if c = ' ' then '_' else c) := by
  unfold joinSplitSpace
  induction s with
  | nil => simp [List.splitOn, List.intercalate]
  | cons c cs ih =>
    have hne : cs.splitOn ' ' ≠ [] := List.splitOnP_ne_nil _ cs
    rw [List.splitOn, List.splitOnP_cons]
    rw [List.splitOn] at ih hne
    obtain ⟨y, ys, hys⟩ := List.exists_cons_of_ne_nil hne
    rw [hys] at ih ⊢
    by_cases hc : c = ' '
    · subst hc
      simp only [beq_self_eq_true, if_true, List.map_cons]
      rw [← ih]
      simp [List.intercalate, List.intersperse]
    · have hb : (c == ' ') = false := by simpa using hc
      simp only [hb, Bool.false_eq_true, if_false, List.map_cons, if_neg hc, List.modifyHead_cons]
      rw [← ih]
      cases ys <;> simp [List.intercalate, List.intersperse]

/-- `strings.Split(s, sep)[0]` is a text that `sep` follows in `s`, or else `sep` does not
occur in `s` and it is all of `s`. -/
theorem splitHead_spec (sep : List Char) (hsep : sep ≠ []) :
    ∀ (s : List Char),
      (∃ post, s = splitHead sep s ++ sep ++ post) ∨
      (splitHead sep s = s ∧ ∀ pre post, s ≠ pre ++ sep ++ post) := by
  intro s
  induction s with
  | nil =>
    right
    refine ⟨rfl, ?_⟩
    intro pre post h
    have := congrArg List.length h
    have hl : 0 < sep.length := List.length_pos.mpr hsep
    simp at this
    omega
  | cons c cs ih =>
    rw [splitHead]
    split_ifs with hp
    · left
      obtain ⟨t, ht⟩ := List.isPrefixOf_iff_prefix.mp hp
      exact ⟨t, by simp [ht]⟩
    · rcases ih with ⟨post, hpost⟩ | ⟨heq, hno⟩
      · left
        refine ⟨post, ?_⟩
        simp only [List.cons_append, List.cons.injEq, true_and]
        simpa using hpost
      · right
        refine ⟨by rw [heq], ?_⟩
        intro pre post h
        cases pre with
        | nil =>
          apply hp
          exact List.isPrefixOf_iff_prefix.mpr ⟨post, by simpa using h.symm⟩
        | cons p pre =>
          simp only [List.cons_append, List.cons.injEq] at h
          exact hno pre post (by simpa using h.2)

/-- When `ext` does not occur in `stem ++ ext` short of its last character, its only
occurrence in `stem ++ ext` is the trailing one. -/
theorem trailing_only_of_not_infix (stem ext : String) (hext : ext.data ≠ [])
    (hno : ¬ ext.data <:+: stem.data ++ ext.data.dropLast) :
    ∀ pre post : String, stem ++ ext = pre ++ ext ++ post → pre = stem := by
  intro pre post h
  have hd : stem.data ++ ext.data = pre.data ++ ext.data ++ post.data := by
    have := congrArg String.data h
    simpa using this
  have hpost : post.data = [] := by
    by_contra hne
    apply hno
    refine ⟨pre.data, post.data.dropLast, ?_⟩
    rw [← List.dropLast_append_of_ne_nil _ hne, ← hd, List.dropLast_append_of_ne_nil _ hext]
  rw [hpost, List.append_nil] at hd
  have hlen : stem.data.length = pre.data.length := by
    have := congrArg List.length hd
    simp only [List.length_append] at this
    omega
  exact String.ext (List.append_inj_left hd hlen).symm

/-- `_ConstructFileNameForBook` for the two supported content types, in one formula. -/
theorem constructFileNameForBook_eq (fileName contentType ext : String)
    (hct : (contentType = "application/pdf" ∧ ext = ".pdf") ∨
      (contentType = "application/epub+zip" ∧ ext = ".epub")) :
    _ConstructFileNameForBook fileName contentType =
      (⟨(splitHead ext.data fileName.data).map (fun c => if c = ' ' then '_' else c)⟩ : String)
        ++ ext := by
  rcases hct with ⟨h1, h2⟩ | ⟨h1, h2⟩
  · subst h1; subst h2
    unfold _ConstructFileNameForBook
    rw [if_pos rfl]
    simp only [joinSplitSpace_eq_map]
  · subst h1; subst h2
    unfold _ConstructFileNameForBook
    rw [if_neg (by decide), if_pos rfl]
    simp only [joinSplitSpace_eq_map]

/-- C16 (amended): for a declared filename in which the extension `.pdf` (respectively
`.epub`) occurs only as its trailing extension, or not at all, and content type
`application/pdf` (respectively `application/epub+zip`), `_ConstructFileNameForBook`
returns the filename with its trailing extension (if any) stripped, every space replaced
by an underscore, and the extension appended; and for every declared filename the result
contains no space and ends with the extension of the declared type. -/
theorem constructFileNameForBook_spec (fileName stem contentType ext : String)
    (hct : (contentType = "application/pdf" ∧ ext = ".pdf") ∨
      (contentType = "application/epub+zip" ∧ ext = ".epub"))
    (hstem : (fileName = stem ++ ext ∧
        ∀ pre post : String, fileName = pre ++ ext ++ post → pre = stem) ∨
      (fileName = stem ∧ ∀ pre post : String, fileName ≠ pre ++ ext ++ post)) :
    _ConstructFileNameForBook fileName contentType =
      (⟨stem.data.map (fun c => if c = ' ' then '_' else c)⟩ : String) ++ ext ∧
    ∀ anyName : String,
      ' ' ∉ (_ConstructFileNameForBook anyName contentType).data ∧
      ∃ body : String, _ConstructFileNameForBook anyName contentType = body ++ ext := by
  have hext : ext.data ≠ [] ∧ ' ' ∉ ext.data := by
    rcases hct with ⟨_, h2⟩ | ⟨_, h2⟩ <;> subst h2 <;> decide
  constructor
  · rw [constructFileNameForBook_eq fileName contentType ext hct]
    have hsplit : splitHead ext.data fileName.data = stem.data := by
      rcases splitHead_spec ext.data hext.1 fileName.data with ⟨post, hpost⟩ | ⟨heq, hno⟩
      · rcases hstem with ⟨_, huniq⟩ | ⟨_, hnone⟩
        · have := huniq ⟨splitHead ext.data fileName.data⟩ ⟨post⟩
            (String.ext (by simpa using hpost))
          rw [← this]
        · exact absurd (String.ext (by simpa using hpost))
            (hnone ⟨splitHead ext.data fileName.data⟩ ⟨post⟩)
      · rcases hstem with ⟨hfn, _⟩ | ⟨hfn, _⟩
        · exfalso
          apply hno stem.data []
          rw [hfn]; simp
        · rw [heq, hfn]
    rw [hsplit]
  · intro anyName
    rw [constructFileNameForBook_eq anyName contentType ext hct]
    refine ⟨?_, ⟨_, rfl⟩⟩
    simp only [String.data_append, List.mem_append, List.mem_map, not_or, not_exists, not_and]
    refine ⟨?_, hext.2⟩
    intro c _ hc
    by_cases h : c = ' '
    · rw [if_pos h] at hc
      exact absurd hc (by decide)
    · rw [if_neg h] at hc
      exact h hc

theorem constructFileNameForBook_spec_witness :
    ((("application/pdf" = "application/pdf" ∧ ".pdf" = ".pdf") ∨
        ("application/pdf" = "application/epub+zip" ∧ ".pdf" = ".epub")) ∧
      "my book.pdf" = "my book" ++ ".pdf") ∧
    (_ConstructFileNameForBook "my book.pdf" "application/pdf" =
      (⟨"my book".data.map (fun c => if c = ' ' then '_' else c)⟩ : String) ++ ".pdf" ∧
    ∀ anyName : String,
      ' ' ∉ (_ConstructFileNameForBook anyName "application/pdf").data ∧
      ∃ body : String, _ConstructFileNameForBook anyName "application/pdf" = body ++ ".pdf") :=
  ⟨by decide,
    constructFileNameForBook_spec "my book.pdf" "my book" "application/pdf" ".pdf"
      (Or.inl ⟨rfl, rfl⟩)
      (Or.inl ⟨by decide,
        trailing_only_of_not_infix "my book" ".pdf" (by decide) (by decide)⟩)⟩

/-- C16 (counterexample): a tab in the declared filename stays in the result, which then
contains a whitespace character; and a filename that contains `.pdf` before its trailing
extension is cut at the first `.pdf`, not at the trailing one. -/
theorem constructFileNameForBook_keeps_tab_and_truncates :
    (_ConstructFileNameForBook "field\tnotes.pdf" "application/pdf" = "field\tnotes.pdf" ∧
      ∃ c ∈ (_ConstructFileNameForBook "field\tnotes.pdf" "application/pdf").data,
        c.isWhitespace = true) ∧
    (_ConstructFileNameForBook "report.pdf.signed.pdf" "application/pdf" = "report.pdf" ∧
      "report.pdf" ≠ "report.pdf.signed" ++ ".pdf") := by
  decide

/-- C19 (amended): for every list of pdfinfo output lines and every field name `F` (`Title`,
`Author`, `Pages`): if no line begins with `F` (the name, without the colon) then
`_HasPrefix(lines, F)` returns the empty string and does not fail. -/
theorem hasPrefix_missing_field (opSplit : List String) (content : String)
    (hmiss : ∀ element ∈ opSplit, ¬ content.data <+: element.data) :
    _HasPrefix opSplit content = some "" := by
  induction opSplit with
  | nil => rfl
  | cons element rest ih =>
    have h1 : ¬ content.data.isPrefixOf element.data = true := by
      rw [List.isPrefixOf_iff_prefix]
      exact hmiss element (List.mem_cons_self _ _)
    rw [_HasPrefix, if_neg h1]
    exact ih (fun e he => hmiss e (List.mem_cons_of_mem _ he))

theorem hasPrefix_missing_field_witness :
    (∀ element ∈ ["Title:          Field notes", "Pages:          3"],
      ¬ "Author".data <+: element.data) ∧
    _HasPrefix ["Title:          Field notes", "Pages:          3"] "Author" = some "" :=
  ⟨by decide,
    hasPrefix_missing_field ["Title:          Field notes", "Pages:          3"] "Author"
      (by decide)⟩

/-- C19 (counterexample): no line of this output begins with `Author:`, yet
`_HasPrefix(lines, "Author")` returns `Jane Roe`: the test is for the prefix `Author`, which
the line `Authors: Jane Roe` has. -/
theorem hasPrefix_matches_without_colon :
    (∀ element ∈ ["Title:          Essays", "Authors: Jane Roe", "Pages:          3"],
      ¬ "Author:".data <+: element.data) ∧
    _HasPrefix ["Title:          Essays", "Authors: Jane Roe", "Pages:          3"] "Author" =
      some "Jane Roe" := by
  decide

/-- A line that begins with the field name and has no colon makes `_HasPrefix` panic at
`strings.Split(element, ":")[1]`. -/
theorem hasPrefix_panics_without_colon :
    _HasPrefix ["Title:          Essays", "Authors on authorship", "Pages:          3"] "Author" =
      none := by
  decide

/-! ## UploadBook -/

theorem constructFileNameForBook_other (fileName contentType : String)
    (h1 : contentType ≠ "application/pdf") (h2 : contentType ≠ "application/epub+zip") :
    _ConstructFileNameForBook fileName contentType = fileName := by
  unfold _ConstructFileNameForBook
  rw [if_neg h1, if_neg h2]

/-- With non-zero ids in the table, `_GetBookInfo` returns a non-zero id exactly when some
row has the file name. -/
theorem getBookInfo_ne_zero_iff (book : List BookRow) (fileName : String)
    (hids : ∀ r ∈ book, r.id ≠ 0) :
    (_GetBookInfo book fileName).1 ≠ 0 ↔ ∃ r ∈ book, r.filename = fileName := by
  unfold _GetBookInfo
  cases hf : book.find? (fun r => r.filename = fileName) with
  | none =>
    simp only [ne_eq, not_true_eq_false, false_iff, not_exists, not_and]
    intro r hr
    have := List.find?_eq_none.mp hf r hr
    simpa using this
  | some r =>
    have hmem := List.mem_of_find?_eq_some hf
    have hname : r.filename = fileName := by simpa using List.find?_some hf
    simp only [ne_eq]
    exact ⟨fun _ => ⟨r, hmem, hname⟩, fun _ => hids r hmem⟩

/-- When no book has the file name, the part is stored in the upload directory, whatever
its content type. -/
theorem uploadPart_uploads_of_new (userId : Int) (uploadedOn : String) (st : LibraryState)
    (part : UploadPart)
    (hnew : (_GetBookInfo st.book
      (_ConstructFileNameForBook part.filename part.contentType)).1 = 0) :
    (uploadPart userId uploadedOn st part).1.uploads =
      st.uploads ++ ["./uploads/" ++ _ConstructFileNameForBook part.filename part.contentType] := by
  unfold uploadPart
  simp only [hnew, ne_eq, not_true_eq_false, if_false]
  by_cases h1 : part.contentType = "application/pdf"
  · rw [if_pos h1]
    cases hinfo : _GetPDFInfo part.pdfinfoLines with
    | none => rfl
    | some info => rfl
  · rw [if_neg h1]
    by_cases h2 : part.contentType = "application/epub+zip"
    · rw [if_pos h2]
      rfl
    · rw [if_neg h2]

/-- C17 (amended): for every upload part whose declared content type is neither
`application/pdf` nor `application/epub+zip`, ingestion raises no error and inserts no
Book record: the loop body completes, the table `book` is unchanged, and the only reply
such a part can get is the duplicate notice. -/
theorem uploadPart_unsupported_type (userId : Int) (uploadedOn : String) (st : LibraryState)
    (part : UploadPart) (h1 : part.contentType ≠ "application/pdf")
    (h2 : part.contentType ≠ "application/epub+zip") :
    (uploadPart userId uploadedOn st part).2 = true ∧
    (uploadPart userId uploadedOn st part).1.book = st.book ∧
    (uploadPart userId uploadedOn st part).1.bookSeq = st.bookSeq ∧
    ((uploadPart userId uploadedOn st part).1.replies = st.replies ∨
      (uploadPart userId uploadedOn st part).1.replies =
        st.replies ++ [part.filename ++ " already exists. "]) := by
  unfold uploadPart
  simp only [constructFileNameForBook_other part.filename part.contentType h1 h2, if_neg h1,
    if_neg h2]
  split_ifs with hdup
  · exact ⟨rfl, rfl, rfl, Or.inr rfl⟩
  · exact ⟨rfl, rfl, rfl, Or.inl rfl⟩

theorem uploadPart_unsupported_type_witness :
    ("text/plain" ≠ "application/pdf" ∧ "text/plain" ≠ "application/epub+zip") ∧
    ((uploadPart 2 "20240102093000" oneBookLibrary (simplePart "notes.txt" "text/plain" [])).2
        = true ∧
    (uploadPart 2 "20240102093000" oneBookLibrary (simplePart "notes.txt" "text/plain" [])).1.book
        = oneBookLibrary.book ∧
    (uploadPart 2 "20240102093000" oneBookLibrary
      (simplePart "notes.txt" "text/plain" [])).1.bookSeq = oneBookLibrary.bookSeq ∧
    ((uploadPart 2 "20240102093000" oneBookLibrary
        (simplePart "notes.txt" "text/plain" [])).1.replies = oneBookLibrary.replies ∨
      (uploadPart 2 "20240102093000" oneBookLibrary
        (simplePart "notes.txt" "text/plain" [])).1.replies =
        oneBookLibrary.replies ++
          [(simplePart "notes.txt" "text/plain" []).filename ++ " already exists. "])) :=
  ⟨by decide,
    uploadPart_unsupported_type 2 "20240102093000" oneBookLibrary
      (simplePart "notes.txt" "text/plain" []) (by decide) (by decide)⟩

/-- C17 (counterexample): a part declared `text/plain` is not rejected: its bytes are
written to `./uploads/notes.txt`, and no reply is produced. -/
theorem uploadPart_unsupported_type_writes_file :
    uploadPart 2 "20240102093000" emptyLibrary (simplePart "notes.txt" "text/plain" []) =
      ({ book := [], bookSeq := 0, uploads := ["./uploads/notes.txt"], replies := [] }, true) := by
  decide

/-- C18 (amended): `UploadBook` rejects an upload as a duplicate if and only if a book with
the same normalized filename already exists, whoever owns it (the ids of the table being
non-zero, as `AUTOINCREMENT` gives them); when it does, no second Book row is inserted. -/
theorem uploadPart_duplicate_iff (userId : Int) (uploadedOn : String) (st : LibraryState)
    (part : UploadPart) (hids : ∀ r ∈ st.book, r.id ≠ 0) :
    (uploadPart userId uploadedOn st part =
        ({ st with replies := st.replies ++
            [_ConstructFileNameForBook part.filename part.contentType ++ " already exists. "] },
          true) ↔
      ∃ r ∈ st.book, r.filename = _ConstructFileNameForBook part.filename part.contentType) ∧
    ((∃ r ∈ st.book, r.filename = _ConstructFileNameForBook part.filename part.contentType) →
      (uploadPart userId uploadedOn st part).1.book = st.book) := by
  have hiff := getBookInfo_ne_zero_iff st.book
    (_ConstructFileNameForBook part.filename part.contentType) hids
  have hdup : (∃ r ∈ st.book,
      r.filename = _ConstructFileNameForBook part.filename part.contentType) →
      uploadPart userId uploadedOn st part =
        ({ st with replies := st.replies ++
            [_ConstructFileNameForBook part.filename part.contentType ++ " already exists. "] },
          true) := by
    intro hex
    unfold uploadPart
    simp only [if_pos (hiff.mpr hex)]
  refine ⟨⟨?_, hdup⟩, ?_⟩
  · intro heq
    by_contra hno
    have hzero : (_GetBookInfo st.book
        (_ConstructFileNameForBook part.filename part.contentType)).1 = 0 := by
      by_contra hne
      exact hno (hiff.mp hne)
    have hup := uploadPart_uploads_of_new userId uploadedOn st part hzero
    rw [heq] at hup
    have hlen := congrArg List.length hup
    simp at hlen
  · intro hex
    rw [hdup hex]

theorem uploadPart_duplicate_iff_witness :
    (∀ r ∈ oneBookLibrary.book, r.id ≠ 0) ∧
    ((uploadPart 1 "20240102093000" oneBookLibrary
        (simplePart "notes.pdf" "application/pdf" []) =
        ({ oneBookLibrary with replies := oneBookLibrary.replies ++
            [_ConstructFileNameForBook (simplePart "notes.pdf" "application/pdf" []).filename
              (simplePart "notes.pdf" "application/pdf" []).contentType ++ " already exists. "] },
          true) ↔
      ∃ r ∈ oneBookLibrary.book,
        r.filename = _ConstructFileNameForBook (simplePart "notes.pdf" "application/pdf" []).filename
          (simplePart "notes.pdf" "application/pdf" []).contentType) ∧
    ((∃ r ∈ oneBookLibrary.book,
        r.filename = _ConstructFileNameForBook (simplePart "notes.pdf" "application/pdf" []).filename
          (simplePart "notes.pdf" "application/pdf" []).contentType) →
      (uploadPart 1 "20240102093000" oneBookLibrary
        (simplePart "notes.pdf" "application/pdf" [])).1.book = oneBookLibrary.book)) :=
  ⟨by decide,
    uploadPart_duplicate_iff 1 "20240102093000" oneBookLibrary
      (simplePart "notes.pdf" "application/pdf" []) (by decide)⟩

/-- C18 (counterexample): `notes.pdf` is held by user 1 only; the upload of a `notes.pdf` by
user 2 is rejected as a duplicate. -/
theorem uploadPart_rejects_other_owner :
    (∀ r ∈ oneBookLibrary.book, r.filename = "notes.pdf" → r.user_id ≠ 2) ∧
    uploadPart 2 "20240102093000" oneBookLibrary
        (simplePart "notes.pdf" "application/pdf" ["Pages:          3"]) =
      ({ oneBookLibrary with replies := ["notes.pdf already exists. "] }, true) := by
  decide

/-- The value `strconv.ParseInt` returns together with an error is 0 or one of the two
ends of the `int64` range. -/
theorem parseInt_error_value (s : String) (herr : (ParseInt s).2 = true) :
    (ParseInt s).1 = 0 ∨ (ParseInt s).1 = 2 ^ 63 - 1 ∨ (ParseInt s).1 = -2 ^ 63 := by
  unfold ParseInt at herr ⊢
  cases hs : s.data with
  | nil => simp
  | cons c cs =>
    simp only [hs] at herr ⊢
    generalize (if c = '+' ∨ c = '-' then cs else c :: cs) = digits at herr ⊢
    generalize (decide (c = '-')) = neg at herr ⊢
    by_cases hnil : digits = []
    · simp [hnil]
    · rw [if_neg hnil] at herr ⊢
      cases hd : decimalValue digits 0 with
      | none => simp
      | some un =>
        simp only [hd] at herr ⊢
        by_cases h2 : ¬ neg = true ∧ 2 ^ 63 ≤ un
        · rw [if_pos h2]; simp
        · rw [if_neg h2] at herr ⊢
          by_cases h3 : neg = true ∧ 2 ^ 63 < un
          · rw [if_pos h3]; simp
          · rw [if_neg h3] at herr
            simp at herr

/-- C20 (amended): for every PDF upload (of a file name no book has yet) whose extracted
Pages field cannot be parsed as an integer, ingestion does not fail: the Book record is
inserted, with the value `strconv.ParseInt` returns next to its error as `pages` (0 for a
field that is not a decimal numeral, else an end of the `int64` range), and the upload is
reported as successful. -/
theorem uploadPart_pdf_unparsed_pages (userId : Int) (uploadedOn : String) (st : LibraryState)
    (part : UploadPart) (title author pages : String)
    (hct : part.contentType = "application/pdf")
    (hnew : (_GetBookInfo st.book
      (_ConstructFileNameForBook part.filename part.contentType)).1 = 0)
    (hinfo : _GetPDFInfo part.pdfinfoLines = some (title, author, pages))
    (herr : (ParseInt pages).2 = true) :
    (uploadPart userId uploadedOn st part).2 = true ∧
    (∃ row : BookRow, (uploadPart userId uploadedOn st part).1.book = st.book ++ [row] ∧
      row.filename = _ConstructFileNameForBook part.filename part.contentType ∧
      row.format = "pdf" ∧ row.user_id = userId ∧ row.pages = (ParseInt pages).1 ∧
      (row.pages = 0 ∨ row.pages = 2 ^ 63 - 1 ∨ row.pages = -2 ^ 63)) ∧
    (uploadPart userId uploadedOn st part).1.replies = st.replies ++
      [_ConstructFileNameForBook part.filename part.contentType ++ " uploaded successfully. "] := by
  unfold uploadPart
  simp only [hnew, ne_eq, not_true_eq_false, if_false, if_pos hct, hinfo, _InsertBookRecord]
  exact ⟨trivial, ⟨_, rfl, rfl, rfl, rfl, rfl, parseInt_error_value pages herr⟩, trivial⟩

theorem uploadPart_pdf_unparsed_pages_witness :
    ((simplePart "scan 1.pdf" "application/pdf" ["Title:          Scan"]).contentType
        = "application/pdf" ∧
      (_GetBookInfo emptyLibrary.book (_ConstructFileNameForBook
        (simplePart "scan 1.pdf" "application/pdf" ["Title:          Scan"]).filename
        (simplePart "scan 1.pdf" "application/pdf" ["Title:          Scan"]).contentType)).1 = 0 ∧
      _GetPDFInfo (simplePart "scan 1.pdf" "application/pdf"
        ["Title:          Scan"]).pdfinfoLines = some ("Scan", "", "") ∧
      (ParseInt "").2 = true) ∧
    ((uploadPart 2 "20240102093000" emptyLibrary
        (simplePart "scan 1.pdf" "application/pdf" ["Title:          Scan"])).2 = true ∧
    (∃ row : BookRow, (uploadPart 2 "20240102093000" emptyLibrary
        (simplePart "scan 1.pdf" "application/pdf" ["Title:          Scan"])).1.book
          = emptyLibrary.book ++ [row] ∧
      row.filename = _ConstructFileNameForBook
        (simplePart "scan 1.pdf" "application/pdf" ["Title:          Scan"]).filename
        (simplePart "scan 1.pdf" "application/pdf" ["Title:          Scan"]).contentType ∧
      row.format = "pdf" ∧ row.user_id = 2 ∧ row.pages = (ParseInt "").1 ∧
      (row.pages = 0 ∨ row.pages = 2 ^ 63 - 1 ∨ row.pages = -2 ^ 63)) ∧
    (uploadPart 2 "20240102093000" emptyLibrary
        (simplePart "scan 1.pdf" "application/pdf" ["Title:          Scan"])).1.replies
      = emptyLibrary.replies ++
        [_ConstructFileNameForBook
          (simplePart "scan 1.pdf" "application/pdf" ["Title:          Scan"]).filename
          (simplePart "scan 1.pdf" "application/pdf" ["Title:          Scan"]).contentType
          ++ " uploaded successfully. "]) :=
  ⟨by decide,
    uploadPart_pdf_unparsed_pages 2 "20240102093000" emptyLibrary
      (simplePart "scan 1.pdf" "application/pdf" ["Title:          Scan"]) "Scan" "" ""
      (by decide) (by decide) (by decide) (by decide)⟩

/-- C20 (counterexample): `pdfinfo` reports no `Pages` line, the extracted field is the
empty string and `strconv.ParseInt` fails on it; the upload is nevertheless reported as
successful and the Book record is inserted, with `pages = 0`. -/
theorem uploadPart_pdf_without_pages :
    _GetPDFInfo ["Title:          Scan"] = some ("Scan", "", "") ∧
    ParseInt "" = (0, true) ∧
    uploadPart 2 "20240102093000" emptyLibrary
        (simplePart "scan 1.pdf" "application/pdf" ["Title:          Scan"]) =
      ({ book := [{ id := 1, title := "Scan", filename := "scan_1.pdf",
                    file_path := "./uploads/scan_1.pdf", author := "unknown",
                    url := "/book/scan_1.pdf", cover := "", pages := 0, format := "pdf",
                    uploaded_on := "20240102093000", user_id := 2 }]
         bookSeq := 1
         uploads := ["./uploads/scan_1.pdf"]
         replies := ["scan_1.pdf uploaded successfully. "] }, true) := by
  decide

/-! ## Step, both directions -/

/-- `Step(h, next)` from the fragment whose manifest item has its id first at spine index
`j`, when spine entry `j + 1` exists and resolves to `hrefPath`. -/
theorem getEPUBFragment_next_eq (packagePath h : String) (href id idRef : List String)
    (cache : NavCache) (i j : Nat) (cid nextIdRef hrefPath : String)
    (hi : href[i]? = some h) (hfirst : ∀ k, k < i → href[k]? ≠ some h)
    (hid : id[i]? = some cid)
    (hj : idRef[j]? = some cid) (hjfirst : ∀ k, k < j → idRef[k]? ≠ some cid)
    (hnext : idRef[j + 1]? = some nextIdRef)
    (hres : _GetManifestId id href nextIdRef packagePath = some hrefPath) :
    _GetEPUBFragment "next" packagePath h href id idRef cache =
      ({ current_page := (j : Int) + 2, current_fragment := (j : Int) + 1 },
       some { CurrentPage := (j : Int) + 2
              HrefPath := hrefPath
              LeftNone := false
              RightNone := decide (idRef.length ≤ j + 2) }) := by
  have hjlt : j < idRef.length := by
    by_contra hcon
    rw [List.getElem?_eq_none (by omega)] at hj
    cases hj
  have hgetj : idRef[j] = cid := by
    rw [List.getElem?_eq_getElem hjlt] at hj
    exact Option.some.inj hj
  rw [getEPUBFragment_at_match "next" packagePath h href id idRef cache i j cid hi hfirst hid
    hjfirst, List.drop_eq_getElem_cons hjlt, fragmentSpineLoop, if_pos hgetj, if_pos rfl]
  simp only [hnext, hres]
  have : ((j : Int) + 1) + 1 = (j : Int) + 2 := by ring
  rw [this]

/-- `Step(h, previous)` from the fragment whose manifest item has its id first at spine
index `j ≥ 1`, when spine entry `j - 1` resolves to `hrefPath`. -/
theorem getEPUBFragment_previous_eq (packagePath h : String) (href id idRef : List String)
    (cache : NavCache) (i j : Nat) (cid prevIdRef hrefPath : String)
    (hi : href[i]? = some h) (hfirst : ∀ k, k < i → href[k]? ≠ some h)
    (hid : id[i]? = some cid)
    (hj : idRef[j]? = some cid) (hjfirst : ∀ k, k < j → idRef[k]? ≠ some cid)
    (hj1 : 1 ≤ j) (hprev : idRef[j - 1]? = some prevIdRef)
    (hres : _GetManifestId id href prevIdRef packagePath = some hrefPath) :
    _GetEPUBFragment "previous" packagePath h href id idRef cache =
      ({ current_page := (j : Int), current_fragment := (j : Int) - 1 },
       some { CurrentPage := (j : Int)
              HrefPath := hrefPath
              LeftNone := decide ((j : Int) - 2 < 0)
              RightNone := false }) := by
  have hjlt : j < idRef.length := by
    by_contra hcon
    rw [List.getElem?_eq_none (by omega)] at hj
    cases hj
  have hgetj : idRef[j] = cid := by
    rw [List.getElem?_eq_getElem hjlt] at hj
    exact Option.some.inj hj
  have hidx : indexInt idRef ((j : Int) - 1) = some prevIdRef := by
    have : (j : Int) - 1 = ((j - 1 : Nat) : Int) := by omega
    rw [this, indexInt_natCast, hprev]
  rw [getEPUBFragment_at_match "previous" packagePath h href id idRef cache i j cid hi hfirst
    hid hjfirst, List.drop_eq_getElem_cons hjlt, fragmentSpineLoop, if_pos hgetj,
    if_neg (by decide)]
  simp only [hidx, hres]
  have : ((j : Int) + 1) - 1 = (j : Int) := by ring
  rw [this]

/-- C28: for a package (manifest id and href lists of equal length) whose manifest hrefs are
pairwise distinct, whose spine idrefs are pairwise distinct and all occur among the manifest
ids, and every spine index `j` with `j + 1 < n`: the fragment of spine entry `j` is a
manifest href `h0`; `Step(h0, next)` resolves `packagePath + "/" + h1`; and
`Step(previous)` from that href taken relative to the base path, on the cache the first
step left, returns page `j + 1` and `packagePath + "/" + h0`, the href of spine entry `j`,
and leaves the cache at `(current_page = j + 1, current_fragment = j)`. -/
theorem step_next_then_previous (opf : OPFMetadataStruct) (packagePath : String)
    (cache : NavCache) (j : Nat) (hwf : opf.Id.length = opf.Href.length)
    (hhref : opf.Href.Nodup) (hspine : opf.IdRef.Nodup) (hsub : ∀ r ∈ opf.IdRef, r ∈ opf.Id)
    (hj : j + 1 < opf.IdRef.length) :
    ∃ (s0 h0 h1 : String), opf.IdRef[j]? = some s0 ∧
      _GetManifestId opf.Id opf.Href s0 packagePath = some (packagePath ++ "/" ++ h0) ∧
      (_GetEPUBFragment "next" packagePath h0 opf.Href opf.Id opf.IdRef cache).2 =
        some { CurrentPage := (j : Int) + 2
               HrefPath := packagePath ++ "/" ++ h1
               LeftNone := false
               RightNone := decide (opf.IdRef.length ≤ j + 2) } ∧
      ∀ h', packagePath ++ "/" ++ h' = packagePath ++ "/" ++ h1 →
        _GetEPUBFragment "previous" packagePath h' opf.Href opf.Id opf.IdRef
            (_GetEPUBFragment "next" packagePath h0 opf.Href opf.Id opf.IdRef cache).1 =
          ({ current_page := (j : Int) + 1, current_fragment := (j : Int) },
           some { CurrentPage := (j : Int) + 1
                  HrefPath := packagePath ++ "/" ++ h0
                  LeftNone := decide (j = 0)
                  RightNone := false }) := by
  obtain ⟨s0, hs0⟩ : ∃ s, opf.IdRef[j]? = some s :=
    ⟨_, List.getElem?_eq_getElem (by omega)⟩
  obtain ⟨s1, hs1⟩ : ∃ s, opf.IdRef[j + 1]? = some s :=
    ⟨_, List.getElem?_eq_getElem hj⟩
  obtain ⟨i0, h0, hid0, _, hhref0, hres0⟩ :=
    getManifestIdLoop_mem opf.Href s0 packagePath opf.Id 0
      (hsub _ (List.getElem?_mem hs0)) (by omega)
  obtain ⟨i1, h1, hid1, _, hhref1, hres1⟩ :=
    getManifestIdLoop_mem opf.Href s1 packagePath opf.Id 0
      (hsub _ (List.getElem?_mem hs1)) (by omega)
  rw [Nat.zero_add] at hhref0 hhref1
  have hu0 := nodup_getElem?_unique opf.Href hhref h0 i0 hhref0
  have hu1 := nodup_getElem?_unique opf.Href hhref h1 i1 hhref1
  have hv0 := nodup_getElem?_unique opf.IdRef hspine s0 j hs0
  have hv1 := nodup_getElem?_unique opf.IdRef hspine s1 (j + 1) hs1
  have hnext := getEPUBFragment_next_eq packagePath h0 opf.Href opf.Id opf.IdRef cache i0 j s0
    s1 _ hhref0 (fun k hk => hu0 k (by omega)) hid0 hs0 (fun k hk => hv0 k (by omega)) hs1 hres1
  refine ⟨s0, h0, h1, hs0, hres0, by rw [hnext], ?_⟩
  intro h' hEq
  have hh : h' = h1 :=
    string_append_left_cancel (packagePath ++ "/") h' h1 (by simpa using hEq)
  subst hh
  rw [getEPUBFragment_previous_eq packagePath h' opf.Href opf.Id opf.IdRef _ i1 (j + 1) s1 s0 _
    hhref1 (fun k hk => hu1 k (by omega)) hid1 hs1 (fun k hk => hv1 k (by omega)) (by omega)
    (by simpa using hs0) hres0]
  have e1 : (((j + 1 : Nat) : Int)) = (j : Int) + 1 := by push_cast; ring
  have e2 : (((j + 1 : Nat) : Int)) - 1 = (j : Int) := by push_cast; ring
  have e3 : decide ((((j + 1 : Nat) : Int)) - 2 < 0) = decide (j = 0) := by
    by_cases hz : j = 0
    · simp [hz]
    · have hneg : ¬ ((((j + 1 : Nat) : Int)) - 2 < 0) := by omega
      rw [decide_eq_false hneg, decide_eq_false hz]
  rw [e3, e2, e1]

theorem step_next_then_previous_witness :
    (fourChapterPackage.Id.length = fourChapterPackage.Href.length ∧
      fourChapterPackage.Href.Nodup ∧ fourChapterPackage.IdRef.Nodup ∧
      (∀ r ∈ fourChapterPackage.IdRef, r ∈ fourChapterPackage.Id) ∧
      1 + 1 < fourChapterPackage.IdRef.length) ∧
    ∃ (s0 h0 h1 : String), fourChapterPackage.IdRef[1]? = some s0 ∧
      _GetManifestId fourChapterPackage.Id fourChapterPackage.Href s0 "/uploads/book" =
        some ("/uploads/book" ++ "/" ++ h0) ∧
      (_GetEPUBFragment "next" "/uploads/book" h0 fourChapterPackage.Href fourChapterPackage.Id
          fourChapterPackage.IdRef ingestCache).2 =
        some { CurrentPage := ((1 : Nat) : Int) + 2
               HrefPath := "/uploads/book" ++ "/" ++ h1
               LeftNone := false
               RightNone := decide (fourChapterPackage.IdRef.length ≤ 1 + 2) } ∧
      ∀ h', "/uploads/book" ++ "/" ++ h' = "/uploads/book" ++ "/" ++ h1 →
        _GetEPUBFragment "previous" "/uploads/book" h' fourChapterPackage.Href
            fourChapterPackage.Id fourChapterPackage.IdRef
            (_GetEPUBFragment "next" "/uploads/book" h0 fourChapterPackage.Href
              fourChapterPackage.Id fourChapterPackage.IdRef ingestCache).1 =
          ({ current_page := ((1 : Nat) : Int) + 1, current_fragment := ((1 : Nat) : Int) },
           some { CurrentPage := ((1 : Nat) : Int) + 1
                  HrefPath := "/uploads/book" ++ "/" ++ h0
                  LeftNone := decide (1 = 0)
                  RightNone := false }) :=
  ⟨by decide,
    step_next_then_previous fourChapterPackage "/uploads/book" ingestCache 1 (by decide)
      (by decide) (by decide) (by decide) (by decide)⟩

/-! ## Resolve-current-page against the first-wins lookup -/

/-- C27: `GetEPUBCurrentPage` does not apply the first-wins lookup.  In the package with the
spine `ch1, ch2, ch1` the first-wins page of `ch1.xhtml` is 1, and `Step(next)` locates
spine index 0 for it (it moves to page 2), but `GetEPUBCurrentPage` reports page 3; in the
package where two manifest items share the href `text.xhtml` the first-wins page is 1 and
`GetEPUBCurrentPage` reports page 2. -/
theorem getEPUBCurrentPage_last_wins :
    specFirstWinsPage repeatedSpinePackage "ch1.xhtml" = some 1 ∧
    ((_GetEPUBFragment "next" "/uploads/book" "ch1.xhtml" repeatedSpinePackage.Href
        repeatedSpinePackage.Id repeatedSpinePackage.IdRef ingestCache).2.map
      (fun r => r.CurrentPage)) = some 2 ∧
    (GetEPUBCurrentPage repeatedSpinePackage "ch1.xhtml").map (fun r => r.CurrentPage) =
      some 3 ∧
    specFirstWinsPage repeatedHrefPackage "text.xhtml" = some 1 ∧
    (GetEPUBCurrentPage repeatedHrefPackage "text.xhtml").map (fun r => r.CurrentPage) =
      some 2 := by
  decide

/-- On a package whose manifest hrefs and spine idrefs are pairwise distinct the two
lookups agree: `GetEPUBCurrentPage` reports the first-wins page. -/
theorem getEPUBCurrentPage_first_wins_of_nodup (opf : OPFMetadataStruct) (h : String)
    (hhref : opf.Href.Nodup) (hspine : opf.IdRef.Nodup) (i j : Nat) (cid : String)
    (hi : opf.Href[i]? = some h) (hid : opf.Id[i]? = some cid)
    (hj : opf.IdRef[j]? = some cid) :
    (GetEPUBCurrentPage opf h).map (fun r => r.CurrentPage) = some ((j : Int) + 1) := by
  unfold GetEPUBCurrentPage
  rw [currentPageManifestLoop_unique opf.Id opf.IdRef h opf.Href 0 i _ cid hi
      (nodup_getElem?_unique opf.Href hhref h i hi) (by rw [Nat.zero_add]; exact hid),
    currentPageSpineLoop_unique opf.IdRef.length cid opf.IdRef 0 j _ hj
      (nodup_getElem?_unique opf.IdRef hspine _ _ hj)]
  simp

/-! ## `_HasPrefix` and colons in the value -/

/-- For a value without a colon, `_HasPrefix` returns the whole value, trimmed: when no
earlier line begins with `content`, the line `content + ":" + v` gives `v` without its
leading and trailing spaces. -/
theorem hasPrefix_value_without_colon (content v : String) (pre post : List String)
    (hpre : ∀ e ∈ pre, content.data.isPrefixOf e.data = false)
    (hc : ':' ∉ content.data) (hv : ':' ∉ v.data) :
    _HasPrefix (pre ++ (content ++ ":" ++ v) :: post) content = some ⟨trimSpaces v.data⟩ := by
  induction pre with
  | nil =>
    have hdata : (content ++ ":" ++ v).data = content.data ++ ':' :: v.data := by
      simp [String.data_append]
    have hp : content.data.isPrefixOf (content ++ ":" ++ v).data = true := by
      rw [List.isPrefixOf_iff_prefix, hdata]
      exact List.prefix_append _ _
    have hsplit : (content ++ ":" ++ v).data.splitOn ':' = [content.data, v.data] := by
      have hc1 : ∀ x ∈ content.data, ¬ ((x == ':') = true) := by
        intro x hx hxe
        rw [beq_iff_eq] at hxe
        exact hc (hxe ▸ hx)
      have hv1 : ∀ x ∈ v.data, ¬ ((x == ':') = true) := by
        intro x hx hxe
        rw [beq_iff_eq] at hxe
        exact hv (hxe ▸ hx)
      rw [hdata, List.splitOn, List.splitOnP_first _ _ hc1 ':' (by simp),
        List.splitOnP_eq_single _ _ hv1]
    rw [List.nil_append, _HasPrefix, if_pos hp, hsplit]
    rfl
  | cons e rest ih =>
    have he : ¬ (content.data.isPrefixOf e.data = true) := by
      rw [hpre e (List.mem_cons_self _ _)]
      decide
    rw [List.cons_append, _HasPrefix, if_neg he]
    exact ih (fun x hx => hpre x (List.mem_cons_of_mem _ hx))

/-- C26: `_HasPrefix` does not return the whole value when the value contains a colon.
For the line `Title:          Dune: Part One` it returns `Dune`, the text between the first
and the second colon, not `Dune: Part One`. -/
theorem hasPrefix_truncates_at_colon :
    _HasPrefix ["Creator:        Writer", "Title:          Dune: Part One",
        "Pages:          3"] "Title" = some "Dune" ∧
    _HasPrefix ["Creator:        Writer", "Title:          Dune: Part One",
        "Pages:          3"] "Title" ≠
      some ⟨trimSpaces "          Dune: Part One".data⟩ := by
  decide

/-! ## `DeleteBook` and the table `currently_reading` -/

/-- C30: `DeleteBook` does not remove the rows of the deleted book from
`currently_reading`.  It passes the id of the row `_CheckCurrentlyReading` found to
`delete from currently_reading where book_id=?`: deleting `a.pdf` (book 2, read in row 5)
leaves the row of book 2 in place and removes the row of book 5. -/
theorem deleteBook_currently_reading_wrong_rows :
    (selectBook twoReadersServer.book "a.pdf").1 = 2 ∧
    _CheckCurrentlyReading twoReadersServer.currently_reading 2 = 5 ∧
    (DeleteBook "0" 1 "a.pdf" 3 twoReadersServer).map (fun st => st.currently_reading) =
      some [{ id := 5, book_id := 2, user_id := 1, date_read := "20240102" }] ∧
    (DeleteBook "0" 1 "a.pdf" 3 twoReadersServer).map (fun st => st.currently_reading) ≠
      some (twoReadersServer.currently_reading.filter (fun r => r.book_id ≠ 2)) := by
  decide

/-! ## EPUB cover -/

theorem detailIds_append (a b : List IndexRequest) :
    detailIds (a ++ b) = detailIds a ++ detailIds b := by
  simp [detailIds]

theorem detailIds_detail (method suffix : String) (f : Nat → String) (n : Nat) :
    detailIds ((List.range n).map (fun (i : Nat) =>
      ({ method := method, docType := "book_detail", docId := f i, suffix := suffix } :
        IndexRequest))) = (List.range n).map f := by
  simp [detailIds, List.filter_map, Function.comp_def]

/-- The `book_detail` ids `EditBook` updates in remote-index mode: those of the page
indices `0, …, totalPages - 1`. -/
theorem editBook_detailIds (enableES : String) (userId : Int) (fileName title author : String)
    (coverFile : Option String) (totalPages : Int) (st : ServerState) (hES : enableES ≠ "0") :
    detailIds (EditBook enableES userId fileName title author coverFile totalPages st).requests =
      detailIds st.requests ++ (List.range totalPages.toNat).map (fun (i : Nat) =>
        bookDetailId userId (selectBook st.book fileName).1 (i : Int)) := by
  unfold EditBook
  simp only [if_neg hES]
  rw [detailIds_append, detailIds_append, detailIds_detail]
  simp [detailIds]

/-- The `book_detail` ids `DeleteBook` deletes in remote-index mode: those of the page
indices `0, …, totalPages`. -/
theorem deleteBook_detailIds (enableES : String) (userId : Int) (fileName : String)
    (totalPages : Int) (st : ServerState) (hES : enableES ≠ "0")
    (hhi : totalPages ≠ 2 ^ 63 - 1) :
    ∃ st', DeleteBook enableES userId fileName totalPages st = some st' ∧
      detailIds st'.requests =
        detailIds st.requests ++ (List.range (totalPages + 1).toNat).map (fun (i : Nat) =>
          bookDetailId userId (selectBook st.book fileName).1 (i : Int)) := by
  unfold DeleteBook
  simp only [if_neg hES, if_neg hhi]
  refine ⟨_, rfl, ?_⟩
  rw [detailIds_append, detailIds_append, detailIds_detail]
  simp [detailIds]

/-- C22: in remote-index mode the `book_detail` ids `EditBook` updates are not the ids
written at ingestion of a PDF.  For the three-page book 1 of user 1, ingestion writes the
ids of the pages 1, 2, 3 and `EditBook` (with the cached `total_pages` 3) updates the ids
of the indices 0, 1, 2: page 3 is never updated and `1_1_0` was never written. -/
theorem editBook_detail_ids_off_by_one :
    (_LoopThroughSplittedPages (fun _ => true) 1 (selectBook oneBookServer.book "notes.pdf").1 3
        "./uploads/splitpdf_1_20240101120000" "Notes" "unknown" "/book/notes.pdf" "").map
      (fun w => w.docId) = ["1_1_1", "1_1_2", "1_1_3"] ∧
    detailIds (EditBook "1" 1 "notes.pdf" "Notes on Go" "unknown" none 3 oneBookServer).requests =
      ["1_1_0", "1_1_1", "1_1_2"] ∧
    "1_1_3" ∉
      detailIds (EditBook "1" 1 "notes.pdf" "Notes on Go" "unknown" none 3 oneBookServer).requests := by
  decide

/-! ## `_FeedEPUBContent` -/

theorem feedManifestLoop_not_mem (href : List String) (title author cover url : String)
    (userId bookId : Int) (i : Nat) (e : String) :
    ∀ (l : List String) (j : Nat), e ∉ l →
      feedManifestLoop href title author cover url userId bookId i e l j = ([], true) := by
  intro l
  induction l with
  | nil => intro j _; rfl
  | cons f rest ih =>
    intro j hmem
    have hf : ¬ f = e := fun h => hmem (h ▸ List.mem_cons_self _ _)
    rw [feedManifestLoop, if_neg hf]
    exact ih (j + 1) (fun h => hmem (List.mem_cons_of_mem _ h))

/-- The inner loop of `_FeedEPUBContent` over ids among which `e` occurs once: the one
manifest item with the id `e` is written once. -/
theorem feedManifestLoop_count_one (href : List String) (title author cover url : String)
    (userId bookId : Int) (i : Nat) (e : String) :
    ∀ (l : List String) (j : Nat), l.count e = 1 → j + l.length ≤ href.length →
      ∃ (k : Nat) (h : String), l[k]? = some e ∧ href[j + k]? = some h ∧
        feedManifestLoop href title author cover url userId bookId i e l j =
          ([{ docId := bookDetailId userId bookId (i : Int)
              doc := { Title := title, Author := author, URL := url, SeURL := h, Cover := cover,
                       Page := (i : Int), Format := "epub" } }], true) := by
  intro l
  induction l with
  | nil => intro j hc _; simp at hc
  | cons f rest ih =>
    intro j hc hlen
    rw [List.length_cons] at hlen
    by_cases hf : f = e
    · subst hf
      rw [List.count_cons_self] at hc
      have hnot : f ∉ rest := by
        rw [← List.count_eq_zero]
        omega
      obtain ⟨h, hh⟩ : ∃ h, href[j]? = some h := ⟨_, List.getElem?_eq_getElem (by omega)⟩
      refine ⟨0, h, by simp, by rw [Nat.add_zero]; exact hh, ?_⟩
      rw [feedManifestLoop, if_pos rfl]
      simp only [hh]
      rw [feedManifestLoop_not_mem href title author cover url userId bookId i f rest (j + 1) hnot]
    · rw [List.count_cons_of_ne (fun h => hf h.symm)] at hc
      obtain ⟨k, h, hk, hh, hres⟩ := ih (j + 1) hc (by omega)
      refine ⟨k + 1, h, by simpa using hk, by rw [← hh]; congr 1; omega, ?_⟩
      rw [feedManifestLoop, if_neg hf]
      exact hres

/-- The outer loop of `_FeedEPUBContent` when every remaining spine idref is the id of
exactly one manifest item: one document per remaining spine entry, in order. -/
theorem feedSpineLoop_count_one (opf : OPFMetadataStruct) (title author cover url : String)
    (userId bookId : Int) (hwf : opf.Id.length = opf.Href.length) :
    ∀ (l : List String) (s : Nat), (∀ r ∈ l, opf.Id.count r = 1) →
      (feedSpineLoop opf title author cover url userId bookId l s).2 = true ∧
      (feedSpineLoop opf title author cover url userId bookId l s).1.length = l.length ∧
      ∀ (i : Nat) (r : String), l[i]? = some r →
        ∃ (k : Nat) (h : String), opf.Id[k]? = some r ∧ opf.Href[k]? = some h ∧
          (feedSpineLoop opf title author cover url userId bookId l s).1[i]? =
            some { docId := bookDetailId userId bookId ((s + i : Nat) : Int)
                   doc := { Title := title, Author := author, URL := url, SeURL := h,
                            Cover := cover, Page := ((s + i : Nat) : Int), Format := "epub" } } := by
  intro l
  induction l with
  | nil =>
    intro s _
    refine ⟨rfl, rfl, ?_⟩
    intro i r hi
    simp at hi
  | cons e rest ih =>
    intro s hcount
    obtain ⟨k, h, hk, hh, hm⟩ := feedManifestLoop_count_one opf.Href title author cover url
      userId bookId s e opf.Id 0 (hcount e (List.mem_cons_self _ _)) (by omega)
    rw [Nat.zero_add] at hh
    obtain ⟨ih1, ih2, ih3⟩ := ih (s + 1) (fun r hr => hcount r (List.mem_cons_of_mem _ hr))
    rw [feedSpineLoop, hm]
    simp only [if_true]
    refine ⟨ih1, by simp [ih2], ?_⟩
    intro i r hi
    cases i with
    | zero =>
      rw [List.getElem?_cons_zero] at hi
      have hre : e = r := Option.some.inj hi
      subst hre
      exact ⟨k, h, hk, hh, by simp⟩
    | succ i1 =>
      rw [List.getElem?_cons_succ] at hi
      obtain ⟨k1, h1, hk1, hh1, hw⟩ := ih3 i1 r hi
      refine ⟨k1, h1, hk1, hh1, ?_⟩
      have hidx : s + (i1 + 1) = s + 1 + i1 := by omega
      rw [hidx, ← hw]
      simp

/-- C25 (amended): for an EPUB package (manifest id and href lists of equal length) in
which every spine idref is the id of exactly one manifest item, `_FeedEPUBContent` returns
after exactly `n` writes, one per spine entry: the `i`-th is addressed
`{userId}_{bookId}_{i}`, has page `i` and as `se_url` the href of the manifest item with
the id of the `i`-th idref. -/
theorem feedEPUBContent_one_per_spine_entry (opf : OPFMetadataStruct)
    (title author cover url : String) (userId bookId : Int)
    (hwf : opf.Id.length = opf.Href.length)
    (hcount : ∀ r ∈ opf.IdRef, opf.Id.count r = 1) :
    ∃ ws, _FeedEPUBContent opf title author cover url userId bookId = (ws, true) ∧
      ws.length = opf.IdRef.length ∧
      ∀ (i : Nat) (r : String), opf.IdRef[i]? = some r →
        ∃ (k : Nat) (h : String), opf.Id[k]? = some r ∧ opf.Href[k]? = some h ∧
          ws[i]? =
            some { docId := bookDetailId userId bookId (i : Int)
                   doc := { Title := title, Author := author, URL := url, SeURL := h,
                            Cover := cover, Page := (i : Int), Format := "epub" } } := by
  obtain ⟨h1, h2, h3⟩ :=
    feedSpineLoop_count_one opf title author cover url userId bookId hwf opf.IdRef 0 hcount
  refine ⟨(_FeedEPUBContent opf title author cover url userId bookId).1, ?_, h2, ?_⟩
  · exact Prod.ext rfl h1
  · intro i r hi
    obtain ⟨k, h, hk, hh, hw⟩ := h3 i r hi
    rw [Nat.zero_add] at hw
    exact ⟨k, h, hk, hh, hw⟩

theorem feedEPUBContent_one_per_spine_entry_witness :
    (repeatedSpinePackage.Id.length = repeatedSpinePackage.Href.length ∧
      (∀ r ∈ repeatedSpinePackage.IdRef, repeatedSpinePackage.Id.count r = 1)) ∧
    ∃ ws, _FeedEPUBContent repeatedSpinePackage "Notes" "unknown" "" "/book/notes.epub" 1 2 =
        (ws, true) ∧
      ws.length = repeatedSpinePackage.IdRef.length ∧
      ∀ (i : Nat) (r : String), repeatedSpinePackage.IdRef[i]? = some r →
        ∃ (k : Nat) (h : String), repeatedSpinePackage.Id[k]? = some r ∧
          repeatedSpinePackage.Href[k]? = some h ∧
          ws[i]? =
            some { docId := bookDetailId 1 2 (i : Int)
                   doc := { Title := "Notes", Author := "unknown", URL := "/book/notes.epub",
                            SeURL := h, Cover := "", Page := (i : Int), Format := "epub" } } :=
  ⟨by decide,
    feedEPUBContent_one_per_spine_entry repeatedSpinePackage "Notes" "unknown" ""
      "/book/notes.epub" 1 2 (by decide) (by decide)⟩

/-- C25 as stated fails: a spine entry whose idref is not a manifest id is not written (one
write for a spine of two entries), and a spine entry whose idref is the id of two manifest
items is written twice under the same id, the second time with the href of the later
item. -/
theorem feedEPUBContent_not_one_per_spine_entry :
    (_FeedEPUBContent { Id := ["c1"], Href := ["c1.xhtml"], IdRef := ["c1", "c2"] }
        "Notes" "unknown" "" "/book/notes.epub" 1 2).1.map (fun w => (w.docId, w.doc.SeURL)) =
      [("1_2_0", "c1.xhtml")] ∧
    (_FeedEPUBContent { Id := ["c1", "c1"], Href := ["a.xhtml", "b.xhtml"], IdRef := ["c1"] }
        "Notes" "unknown" "" "/book/notes.epub" 1 2).1.map (fun w => (w.docId, w.doc.SeURL)) =
      [("1_2_0", "a.xhtml"), ("1_2_0", "b.xhtml")] := by
  decide

/-! ## Decimal text and the separator of the embedded index -/

theorem digitChar_mem (d : Nat) : digitChar d ∈ "0123456789".data := by
  unfold digitChar
  by_cases hd : d < 10
  · interval_cases d <;> decide
  · rw [List.getD_eq_default _ _ (by simpa using hd)]
    decide

theorem decimalDigits_chars :
    ∀ (fuel n : Nat), ∀ c ∈ decimalDigits fuel n, c ∈ "0123456789".data := by
  intro fuel
  induction fuel with
  | zero => intro n c hc; simp [decimalDigits] at hc
  | succ fuel ih =>
    intro n c hc
    rw [decimalDigits] at hc
    by_cases hn : n < 10
    · rw [if_pos hn, List.mem_singleton] at hc
      rw [hc]
      exact digitChar_mem n
    · rw [if_neg hn, List.mem_append, List.mem_singleton] at hc
      rcases hc with hc | hc
      · exact ih _ c hc
      · rw [hc]
        exact digitChar_mem _

/-- The text of `Itoa` consists of a sign and digits. -/
theorem itoa_chars (x : Int) : ∀ c ∈ (Itoa x).data, c ∈ "-0123456789".data := by
  intro c hc
  unfold Itoa at hc
  by_cases hx : x < 0
  · rw [if_pos hx] at hc
    rcases List.mem_cons.mp hc with h | h
    · rw [h]; decide
    · exact List.mem_cons_of_mem _ (decimalDigits_chars _ _ c h)
  · rw [if_neg hx] at hc
    exact List.mem_cons_of_mem _ (decimalDigits_chars _ _ c hc)

theorem itoa_no_star (x : Int) : '*' ∉ (Itoa x).data :=
  fun h => absurd (itoa_chars x '*' h) (by decide)

/-- Passing over the rest `t` of a separator the scan of `strings.Split` has found. -/
theorem splitLoop_skip (sep : List Char) :
    ∀ (t rest cur : List Char), splitLoop sep (t ++ rest) cur t.length = splitLoop sep rest cur 0 := by
  intro t
  induction t with
  | nil => intro rest cur; rfl
  | cons a t ih =>
    intro rest cur
    rw [List.cons_append, List.length_cons, splitLoop]
    exact ih rest cur

/-- The scan of `strings.Split` over a field `f` without the first character of the
separator, followed by the separator: the field is one part. -/
theorem splitLoop_field (c0 : Char) (t : List Char) :
    ∀ (f cur rest : List Char), c0 ∉ f →
      splitLoop (c0 :: t) (f ++ (c0 :: t) ++ rest) cur 0 =
        (cur.reverse ++ f) :: splitLoop (c0 :: t) rest [] 0 := by
  intro f
  induction f with
  | nil =>
    intro cur rest _
    have hp : (c0 :: t).isPrefixOf (c0 :: (t ++ rest)) = true := by
      rw [List.isPrefixOf_iff_prefix]
      exact ⟨rest, rfl⟩
    rw [List.nil_append, List.cons_append, splitLoop, if_pos hp, List.append_nil]
    have hl : (c0 :: t).length - 1 = t.length := by simp
    rw [hl, splitLoop_skip]
  | cons a f ih =>
    intro cur rest hmem
    have ha : a ≠ c0 := fun h => hmem (h ▸ List.mem_cons_self _ _)
    have hp : ¬ ((c0 :: t).isPrefixOf (a :: (f ++ (c0 :: t) ++ rest)) = true) := by
      rw [List.isPrefixOf_iff_prefix]
      intro hpre
      exact ha (List.cons_prefix_cons.mp hpre).1.symm
    rw [List.cons_append, List.cons_append, splitLoop, if_neg hp,
      ih (a :: cur) rest (fun h => hmem (List.mem_cons_of_mem _ h))]
    simp

/-- The scan of `strings.Split` over a field `f` followed by the separator, when the
separator does not begin inside the field: the field is one part. -/
theorem splitLoop_field_of (c0 : Char) (t : List Char) :
    ∀ (f cur rest : List Char),
      (∀ p s, p ++ s = f → s ≠ [] → (c0 :: t).isPrefixOf (s ++ (c0 :: t) ++ rest) = false) →
      splitLoop (c0 :: t) (f ++ (c0 :: t) ++ rest) cur 0 =
        (cur.reverse ++ f) :: splitLoop (c0 :: t) rest [] 0 := by
  intro f
  induction f with
  | nil =>
    intro cur rest _
    have hp : (c0 :: t).isPrefixOf (c0 :: (t ++ rest)) = true := by
      rw [List.isPrefixOf_iff_prefix]
      exact ⟨rest, rfl⟩
    rw [List.nil_append, List.cons_append, splitLoop, if_pos hp, List.append_nil]
    have hl : (c0 :: t).length - 1 = t.length := by simp
    rw [hl, splitLoop_skip]
  | cons a f ih =>
    intro cur rest h
    have hp : ¬ ((c0 :: t).isPrefixOf (a :: (f ++ (c0 :: t) ++ rest)) = true) := by
      have h0 := h [] (a :: f) rfl (by simp)
      rw [List.cons_append, List.cons_append] at h0
      rw [h0]
      decide
    rw [List.cons_append, List.cons_append, splitLoop, if_neg hp,
      ih (a :: cur) rest (fun p s hps hs => h (a :: p) s (by rw [List.cons_append, hps]) hs)]
    simp

/-- A field that neither contains `*****` nor ends with `*` has no place where the
separator begins, whatever follows the separator after the field. -/
theorem separator_not_inside (f rest : List Char) (hsep : ¬ "*****".data <:+: f)
    (hlast : f.getLast? ≠ some '*') :
    ∀ p s, p ++ s = f → s ≠ [] →
      ('*' :: "****".data).isPrefixOf (s ++ ('*' :: "****".data) ++ rest) = false := by
  intro p s hps hs
  rw [Bool.eq_false_iff]
  intro hpre
  rw [List.isPrefixOf_iff_prefix] at hpre
  have hs2 : s <+: s ++ ('*' :: "****".data) ++ rest := by
    rw [List.append_assoc]
    exact List.prefix_append _ _
  rcases List.prefix_or_prefix_of_prefix hpre hs2 with h1 | h1
  · apply hsep
    obtain ⟨u, hu⟩ := h1
    exact ⟨p, u, by rw [← hps, ← hu]; simp⟩
  · apply hlast
    have hall : ∀ c ∈ s, c = '*' := by
      intro c hc
      have hmem := h1.subset hc
      have hstars : ∀ x ∈ ('*' :: "****".data), x = '*' := by decide
      exact hstars c hmem
    have hl : f.getLast? = s.getLast? := by
      rw [← hps, List.getLast?_append_of_ne_nil _ hs]
    rw [hl, List.getLast?_eq_getLast _ hs]
    rw [hall _ (List.getLast_mem hs)]

/-- Splitting the id of a document of the embedded index on `*****` when no field contains
`*****` or ends with `*`: the parts are the two numbers, the four fields and a last empty
part. -/
theorem stringsSplit_indexId (userId bookId : Int) (title author cover url : String)
    (ht : ¬ "*****".data <:+: title.data) (ht1 : title.data.getLast? ≠ some '*')
    (ha : ¬ "*****".data <:+: author.data) (ha1 : author.data.getLast? ≠ some '*')
    (hc : ¬ "*****".data <:+: cover.data) (hc1 : cover.data.getLast? ≠ some '*')
    (hu : ¬ "*****".data <:+: url.data) (hu1 : url.data.getLast? ≠ some '*') :
    stringsSplit (indexId userId bookId title author cover url) "*****" =
      [Itoa userId, Itoa bookId, title, author, cover, url, ""] := by
  have hdata : (indexId userId bookId title author cover url).data =
      (Itoa userId).data ++ ('*' :: "****".data) ++ ((Itoa bookId).data ++ ('*' :: "****".data) ++
        (title.data ++ ('*' :: "****".data) ++ (author.data ++ ('*' :: "****".data) ++
          (cover.data ++ ('*' :: "****".data) ++ (url.data ++ ('*' :: "****".data) ++ []))))) := by
    simp [indexId, String.data_append]
  have hsep : "*****".data = '*' :: "****".data := rfl
  unfold stringsSplit
  rw [hdata, hsep, splitLoop_field _ _ _ _ _ (itoa_no_star userId),
    splitLoop_field _ _ _ _ _ (itoa_no_star bookId),
    splitLoop_field_of _ _ _ _ _ (separator_not_inside _ _ ht ht1),
    splitLoop_field_of _ _ _ _ _ (separator_not_inside _ _ ha ha1),
    splitLoop_field_of _ _ _ _ _ (separator_not_inside _ _ hc hc1),
    splitLoop_field_of _ _ _ _ _ (separator_not_inside _ _ hu hu1)]
  simp [splitLoop]

/-- C29 (amended): for every owner id, book id and every title, author, cover and url that
neither contain `*****` nor end with `*`, splitting the id
`ownerId*****bookId*****title*****author*****cover*****url*****` on `*****` yields parts
whose elements at the positions 2, 3, 4 and 5 are the title, the author, the cover and the
url. -/
theorem stringsSplit_indexId_fields (userId bookId : Int) (title author cover url : String)
    (ht : ¬ "*****".data <:+: title.data) (ht1 : title.data.getLast? ≠ some '*')
    (ha : ¬ "*****".data <:+: author.data) (ha1 : author.data.getLast? ≠ some '*')
    (hc : ¬ "*****".data <:+: cover.data) (hc1 : cover.data.getLast? ≠ some '*')
    (hu : ¬ "*****".data <:+: url.data) (hu1 : url.data.getLast? ≠ some '*') :
    (stringsSplit (indexId userId bookId title author cover url) "*****")[2]? = some title ∧
    (stringsSplit (indexId userId bookId title author cover url) "*****")[3]? = some author ∧
    (stringsSplit (indexId userId bookId title author cover url) "*****")[4]? = some cover ∧
    (stringsSplit (indexId userId bookId title author cover url) "*****")[5]? = some url := by
  rw [stringsSplit_indexId userId bookId title author cover url ht ht1 ha ha1 hc hc1 hu hu1]
  exact ⟨rfl, rfl, rfl, rfl⟩

theorem stringsSplit_indexId_fields_witness :
    (¬ "*****".data <:+: "M*A*S*H".data ∧ "M*A*S*H".data.getLast? ≠ some '*' ∧
      ¬ "*****".data <:+: "unknown".data ∧ "unknown".data.getLast? ≠ some '*' ∧
      ¬ "*****".data <:+: "./uploads/img/mash.jpg".data ∧
      "./uploads/img/mash.jpg".data.getLast? ≠ some '*' ∧
      ¬ "*****".data <:+: "/book/mash.pdf".data ∧ "/book/mash.pdf".data.getLast? ≠ some '*') ∧
    (stringsSplit (indexId 1 2 "M*A*S*H" "unknown" "./uploads/img/mash.jpg" "/book/mash.pdf")
        "*****")[2]? = some "M*A*S*H" ∧
    (stringsSplit (indexId 1 2 "M*A*S*H" "unknown" "./uploads/img/mash.jpg" "/book/mash.pdf")
        "*****")[3]? = some "unknown" ∧
    (stringsSplit (indexId 1 2 "M*A*S*H" "unknown" "./uploads/img/mash.jpg" "/book/mash.pdf")
        "*****")[4]? = some "./uploads/img/mash.jpg" ∧
    (stringsSplit (indexId 1 2 "M*A*S*H" "unknown" "./uploads/img/mash.jpg" "/book/mash.pdf")
        "*****")[5]? = some "/book/mash.pdf" :=
  ⟨by decide,
    stringsSplit_indexId_fields 1 2 "M*A*S*H" "unknown" "./uploads/img/mash.jpg" "/book/mash.pdf"
      (by decide) (by decide) (by decide) (by decide) (by decide) (by decide) (by decide)
      (by decide)⟩

/-- C29 as stated fails: for the title `Five stars *****` the parts at the positions 2, 3,
4 and 5 are `Five stars `, the empty text, the author and the cover; for the title `C*`
they are `C`, `*unknown`, the cover and the url. -/
theorem stringsSplit_indexId_title_with_separator :
    stringsSplit (indexId 1 2 "Five stars *****" "unknown" "./uploads/img/notes.jpg"
        "/book/notes.pdf") "*****" =
      ["1", "2", "Five stars ", "", "unknown", "./uploads/img/notes.jpg", "/book/notes.pdf", ""] ∧
    (stringsSplit (indexId 1 2 "Five stars *****" "unknown" "./uploads/img/notes.jpg"
        "/book/notes.pdf") "*****")[2]? ≠ some "Five stars *****" ∧
    stringsSplit (indexId 1 2 "C*" "unknown" "./uploads/img/c.jpg" "/book/c.pdf") "*****" =
      ["1", "2", "C", "*unknown", "./uploads/img/c.jpg", "/book/c.pdf", ""] := by
  decide

/-! ## `Itoa` is injective -/

theorem digitChar_value (d : Nat) (hd : d < 10) : (digitChar d).toNat - '0'.toNat = d := by
  interval_cases d <;> decide

theorem digitsValue_append (s : List Char) (c : Char) :
    digitsValue (s ++ [c]) = digitsValue s * 10 + (c.toNat - '0'.toNat) := by
  simp [digitsValue, List.foldl_append]

theorem digitsValue_decimalDigits :
    ∀ (fuel n : Nat), n < fuel → digitsValue (decimalDigits fuel n) = n := by
  intro fuel
  induction fuel with
  | zero => intro n hn; omega
  | succ fuel ih =>
    intro n hn
    rw [decimalDigits]
    by_cases h10 : n < 10
    · rw [if_pos h10]
      have hv := digitChar_value n h10
      have h0 : digitsValue [digitChar n] = 0 * 10 + ((digitChar n).toNat - '0'.toNat) := rfl
      rw [h0, hv]
      omega
    · rw [if_neg h10, digitsValue_append, ih (n / 10) (by omega),
        digitChar_value (n % 10) (by omega)]
      omega

theorem itoa_injective (x y : Int) (h : Itoa x = Itoa y) : x = y := by
  have hd : (Itoa x).data = (Itoa y).data := by rw [h]
  have hvx := digitsValue_decimalDigits (x.natAbs + 1) x.natAbs (by omega)
  have hvy := digitsValue_decimalDigits (y.natAbs + 1) y.natAbs (by omega)
  unfold Itoa at hd
  by_cases hx : x < 0 <;> by_cases hy : y < 0
  · rw [if_pos hx, if_pos hy] at hd
    have ht := List.tail_eq_of_cons_eq hd
    rw [ht, hvy] at hvx
    omega
  · rw [if_pos hx, if_neg hy] at hd
    have hmem : '-' ∈ decimalDigits (y.natAbs + 1) y.natAbs := by
      rw [← show ('-' :: decimalDigits (x.natAbs + 1) x.natAbs) =
        decimalDigits (y.natAbs + 1) y.natAbs from hd]
      exact List.mem_cons_self _ _
    exact absurd (decimalDigits_chars _ _ _ hmem) (by decide)
  · rw [if_neg hx, if_pos hy] at hd
    have hmem : '-' ∈ decimalDigits (x.natAbs + 1) x.natAbs := by
      rw [show decimalDigits (x.natAbs + 1) x.natAbs =
        ('-' :: decimalDigits (y.natAbs + 1) y.natAbs) from hd]
      exact List.mem_cons_self _ _
    exact absurd (decimalDigits_chars _ _ _ hmem) (by decide)
  · rw [if_neg hx, if_neg hy] at hd
    have hd1 : decimalDigits (x.natAbs + 1) x.natAbs = decimalDigits (y.natAbs + 1) y.natAbs := hd
    rw [hd1, hvy] at hvx
    omega

/-! ## The id prefix of a book in the embedded index -/

theorem indexIdPrefix_data (userId bookId : Int) :
    (indexIdPrefix userId bookId).data =
      (Itoa userId).data ++ '*' :: ("****".data ++ ((Itoa bookId).data ++ '*' :: "****".data)) := by
  simp [indexIdPrefix, String.data_append]

theorem indexId_data (userId bookId : Int) (title author cover url : String) :
    (indexId userId bookId title author cover url).data =
      (Itoa userId).data ++ '*' :: ("****".data ++ ((Itoa bookId).data ++ '*' ::
        ("****".data ++ (title ++ "*****" ++ author ++ "*****" ++ cover ++ "*****" ++ url ++
          "*****").data))) := by
  simp [indexId, String.data_append]

theorem indexId_prefix_self (userId bookId : Int) (title author cover url : String) :
    (indexIdPrefix userId bookId).data.isPrefixOf
      (indexId userId bookId title author cover url).data = true := by
  rw [List.isPrefixOf_iff_prefix, indexIdPrefix_data, indexId_data]
  refine ⟨(title ++ "*****" ++ author ++ "*****" ++ cover ++ "*****" ++ url ++ "*****").data, ?_⟩
  simp

/-! ## `EditBook` on the embedded index -/

theorem filter_indexDelete (p : IndexDoc → Bool) (l : List IndexDoc) (id : String) :
    (indexDelete l id).filter p = (l.filter p).filter (fun d => d.Id ≠ id) := by
  unfold indexDelete
  rw [List.filter_filter, List.filter_filter]
  apply List.filter_congr
  intro x _
  exact Bool.and_comm _ _

theorem filter_indexPut (p : IndexDoc → Bool) (l : List IndexDoc) (d : IndexDoc) :
    (indexPut l d).filter p =
      (l.filter p).filter (fun x => x.Id ≠ d.Id) ++ (if p d = true then [d] else []) := by
  unfold indexPut
  rw [List.filter_append, ← filter_indexDelete p l d.Id]
  unfold indexDelete
  congr 1
  by_cases hp : p d = true
  · simp [hp]
  · simp [hp]

theorem latestRow_cons (r : BookRow) (c : EditCall) (calls : List EditCall) :
    latestRow r (c :: calls) = latestRow (editRow c r) calls := rfl

/-- The indexing step of `UploadBook` leaves the new book indexed by exactly one document,
when no document of the index had an id with the prefix of the book before. -/
theorem uploadIndex_indexed (row : BookRow) (index : List IndexDoc)
    (hfresh : index.filter (hasIdPrefix row.user_id row.id) = []) :
    (uploadIndex row index).filter (hasIdPrefix row.user_id row.id) = [bookDoc row] := by
  unfold uploadIndex
  rw [filter_indexPut, hfresh]
  have hp : hasIdPrefix row.user_id row.id (bookDoc row) = true :=
    indexId_prefix_self _ _ _ _ _ _
  rw [if_pos hp]
  rfl

theorem bookDetailId_injective (userId bookId i j : Int)
    (h : bookDetailId userId bookId i = bookDetailId userId bookId j) : i = j := by
  have hd : (bookDetailId userId bookId i).data = (bookDetailId userId bookId j).data := by
    rw [h]
  unfold bookDetailId at hd
  simp only [String.data_append, List.append_assoc] at hd
  have h1 := List.append_cancel_left hd
  have h2 := List.append_cancel_left h1
  have h3 := List.append_cancel_left h2
  have h4 := List.append_cancel_left h3
  exact itoa_injective i j (String.ext h4)

/-- For every PDF of `N ≥ 1` pages whose split pages are all present, ingestion writes the
document of page `N`, and `EditBook`, in remote-index mode with the cached `total_pages`
`N`, does not update it. -/
theorem editBook_misses_last_page (enableES : String) (userId : Int)
    (fileName title author : String) (coverFile : Option String) (N : Int) (st : ServerState)
    (fileExists : String → Bool) (splitPDFPath t a u c : String)
    (hES : enableES ≠ "0") (h1 : 1 ≤ N) (h2 : N < 2 ^ 63 - 1)
    (hall : ∀ p, fileExists p = true) (hnone : st.requests = []) :
    bookDetailId userId (selectBook st.book fileName).1 N ∈
      (_LoopThroughSplittedPages fileExists userId (selectBook st.book fileName).1 N splitPDFPath
        t a u c).map (fun w => w.docId) ∧
    bookDetailId userId (selectBook st.book fileName).1 N ∉
      detailIds (EditBook enableES userId fileName title author coverFile N st).requests := by
  constructor
  · rw [List.mem_map]
    refine ⟨{ docId := bookDetailId userId (selectBook st.book fileName).1 N
              doc := { Title := t, Author := a, URL := u, SeURL := "", Cover := c,
                       Page := N, Format := "pdf" } }, ?_, rfl⟩
    unfold _LoopThroughSplittedPages
    rw [wrap64_eq_self (by omega) (by omega), List.mem_filterMap]
    refine ⟨(N - 1).toNat, List.mem_range.mpr (by omega), ?_⟩
    have hN : (((N - 1).toNat : Nat) : Int) + 1 = N := by omega
    simp only [hall, if_true, hN]
  · rw [editBook_detailIds enableES userId fileName title author coverFile N st hES, hnone]
    intro hmem
    have hmem2 : bookDetailId userId (selectBook st.book fileName).1 N ∈
        (List.range N.toNat).map (fun (i : Nat) =>
          bookDetailId userId (selectBook st.book fileName).1 (i : Int)) := by
      simpa [detailIds] using hmem
    obtain ⟨i, hi, heq⟩ := List.mem_map.mp hmem2
    have hlt := List.mem_range.mp hi
    have := bookDetailId_injective _ _ _ _ heq
    omega

/-! ## `DeleteBook` and the detail documents of the book -/

end LibreRead
